import Mathlib

/-!
# Thor resource handles and ownership primitives

A shallow embedding of the smart pointers of the Thor C++ library
(`ResourcePtr.inl`, `SmartPtrImpl.inl`, `MovedPtr.inl`, `ScopedPtr.inl`,
`GraphicsKeys.cpp`, `AssociativeHelpers.hpp`) with explicit state passing:
C++ objects are identified by their address, a null pointer is `none` (or the
address `0` for raw resources), and every member function is a function from
the state before the call to the state after it.

The last sections embed the emission rate of the particle emitters
(`ParticleInterfaces.cpp`), the update of the particle system
(`ParticleSystem.cpp`) and the listener sequence of the event system
(`EventListener.hpp`) in the same way.
-/

namespace Thor

/-! ## Resource keys (`GraphicsKeys.cpp`) -/

/-- A loaded resource (its content is never inspected by the cache). -/
abbrev Resource := Nat

/-- A resource key such as `Resources::ImageKey`: the bound loader `mLoader`
and the key information string `mKey` built by `detail::Tagger`. The loader is
a zero-argument capability that yields a resource or fails with a message. -/
structure ResourceKey where
  mLoader : Unit → Except String Resource
  mKey : String

/-- The `operator<` of `ImageKey`, `ShaderKey` and `FontKey`:
`detail::GetKeyInfo(lhs) < detail::GetKeyInfo(rhs)`. -/
def ResourceKey.lt (lhs rhs : ResourceKey) : Bool :=
  decide (lhs.mKey < rhs.mKey)

/-- The helper `detail::Equivalent` of `AssociativeHelpers.hpp`:
`!(lhs < rhs) && !(rhs < lhs)`. -/
def Equivalent (lhs rhs : ResourceKey) : Bool :=
  !(lhs.lt rhs) && !(rhs.lt lhs)

/-! ## Resource handles (`ResourcePtr.inl`) -/

/-- Address of a `ResourcePtr` object. -/
abbrev HandleId := Nat

/-- Address of a `ResourceSlot` object. -/
abbrev SlotId := Nat

/-- The only data member of `ResourcePtr`: `mSlot`, with `NULL` as `none`. -/
structure ResourcePtr where
  mSlot : Option SlotId
deriving DecidableEq, Repr

/-- A call made by a handle on a slot: `slot->IncRef(target)` or
`slot->DecRef(target)`. -/
inductive SlotCall where
  | IncRef (slot : SlotId) (target : HandleId)
  | DecRef (slot : SlotId) (target : HandleId)
deriving DecidableEq, Repr

/-- Modelled from the spec: one entry of the slot map of `ResourceManager` (not
part of the sources): the key it was inserted under, the slot, and the
resource the slot owns. -/
structure Entry where
  key : ResourceKey
  slot : SlotId
  resource : Resource

/-- The state of the program: the live `ResourcePtr` objects by address, the
handles registered at each slot, the trace of slot calls made so far, and the
resource manager (slot map, destroyed slots with their resources, loader
invocations by key information, next unused slot address). -/
structure World where
  handles : HandleId → Option ResourcePtr
  registered : SlotId → Finset HandleId
  calls : List SlotCall
  map : List Entry
  evicted : List (SlotId × Resource)
  loads : List String
  nextSlot : SlotId

/-- The state of a program that has created no handle and loaded nothing. -/
def World.init : World where
  handles := fun _ => none
  registered := fun _ => ∅
  calls := []
  map := []
  evicted := []
  loads := []
  nextSlot := 0

/-- Modelled from the spec: the reference count of a `ResourceSlot` (not part of
the sources). There is no separate counter: the handles registered at the slot
are its reference count. -/
def World.refCount (w : World) (s : SlotId) : Nat :=
  (w.registered s).card

/-- Modelled from the spec: whether the slot is present in the map of the
`ResourceManager` (not part of the sources). -/
def World.present (w : World) (s : SlotId) : Bool :=
  w.map.any (fun e => decide (e.slot = s))

/-- Modelled from the spec: `ResourceSlot::IncRef` (the class `ResourceSlot` is
not part of the sources). The live handles into a slot are its reference count:
the slot records the handle that now references it. -/
def World.slotIncRef (w : World) (s : SlotId) (target : HandleId) : World :=
  { w with
    registered := Function.update w.registered s (insert target (w.registered s))
    calls := w.calls ++ [SlotCall.IncRef s target] }

/-- Modelled from the spec: `ResourceSlot::DecRef` (the class `ResourceSlot` is
not part of the sources). The slot forgets the handle; when no handle is left
the slot is removed from the cache and its resource destroyed, within the same
call. -/
def World.slotDecRef (w : World) (s : SlotId) (target : HandleId) : World :=
  let reg := (w.registered s).erase target
  let w1 : World :=
    { w with
      registered := Function.update w.registered s reg
      calls := w.calls ++ [SlotCall.DecRef s target] }
  if reg = ∅ then
    { w1 with
      map := w1.map.filter (fun e => decide (e.slot ≠ s))
      evicted := w1.evicted ++
        (w1.map.filter (fun e => decide (e.slot = s))).map (fun e => (e.slot, e.resource)) }
  else w1

/-- Writes the member `mSlot` of the handle at address `this` (also used to
bring a handle object to life in a constructor's initialiser list). -/
def World.setSlot (w : World) (this : HandleId) (slot : Option SlotId) : World :=
  { w with handles := Function.update w.handles this (some ⟨slot⟩) }

/-- The private `ResourcePtr::IncRef()`: `if (mSlot) mSlot->IncRef(this);`. -/
def ResourcePtr.IncRef (w : World) (this : HandleId) : World :=
  match w.handles this with
  | some ⟨some s⟩ => w.slotIncRef s this
  | _ => w

/-- The private `ResourcePtr::DecRef()`: `if (mSlot) mSlot->DecRef(this);`. -/
def ResourcePtr.DecRef (w : World) (this : HandleId) : World :=
  match w.handles this with
  | some ⟨some s⟩ => w.slotDecRef s this
  | _ => w

/-- The default constructor `ResourcePtr()`: `mSlot(NULL)`. Constructing over a
live object is excluded by the language; the state is then left as it is. -/
def ResourcePtr.ctor (w : World) (this : HandleId) : World :=
  match w.handles this with
  | none => w.setSlot this none
  | some _ => w

/-- The copy constructor `ResourcePtr(const ResourcePtr& origin)`:
`mSlot(origin.mSlot)` followed by `IncRef()`. -/
def ResourcePtr.copy (w : World) (this origin : HandleId) : World :=
  match w.handles this, w.handles origin with
  | none, some o => ResourcePtr.IncRef (w.setSlot this o.mSlot) this
  | _, _ => w

/-- The converting copy constructor
`ResourcePtr(const ResourcePtr<Resource2>& origin)`, with the same body. -/
def ResourcePtr.copyConv (w : World) (this origin : HandleId) : World :=
  match w.handles this, w.handles origin with
  | none, some o => ResourcePtr.IncRef (w.setSlot this o.mSlot) this
  | _, _ => w

/-- The private constructor `ResourcePtr(ResourceSlot& slot)`: `mSlot(&slot)`
followed by `IncRef()`. -/
def ResourcePtr.fromSlot (w : World) (this : HandleId) (slot : SlotId) : World :=
  match w.handles this with
  | none => ResourcePtr.IncRef (w.setSlot this (some slot)) this
  | some _ => w

/-- The copy assignment `operator= (const ResourcePtr& origin)`. -/
def ResourcePtr.assign (w : World) (this origin : HandleId) : World :=
  match w.handles this, w.handles origin with
  | some self, some o =>
    -- Don't do anything when same slot (also handles self-assignment)
    if self.mSlot = o.mSlot then w
    else
      -- Copy pointers, store temporary old pointer
      let oldSlot := self.mSlot
      let w1 := w.setSlot this o.mSlot
      -- Increment first, to prevent release in case of self assignment
      let w2 := match o.mSlot with
        | some s => w1.slotIncRef s this
        | none => w1
      match oldSlot with
      | some s => w2.slotDecRef s this
      | none => w2
  | _, _ => w

/-- The converting assignment `operator= (const ResourcePtr<Resource2>& origin)`,
written out separately in the source with the same body. -/
def ResourcePtr.assignConv (w : World) (this origin : HandleId) : World :=
  match w.handles this, w.handles origin with
  | some self, some o =>
    if self.mSlot = o.mSlot then w
    else
      let oldSlot := self.mSlot
      let w1 := w.setSlot this o.mSlot
      let w2 := match o.mSlot with
        | some s => w1.slotIncRef s this
        | none => w1
      match oldSlot with
      | some s => w2.slotDecRef s this
      | none => w2
  | _, _ => w

/-- The destructor `~ResourcePtr()`: `DecRef()`, after which the object is no
longer live. -/
def ResourcePtr.dtor (w : World) (this : HandleId) : World :=
  match w.handles this with
  | some _ =>
    let w1 := ResourcePtr.DecRef w this
    { w1 with handles := Function.update w1.handles this none }
  | none => w

/-- The member `ResourcePtr::Swap(ResourcePtr& other)`. -/
def ResourcePtr.Swap (w : World) (this other : HandleId) : World :=
  match w.handles this, w.handles other with
  | some self, some o =>
    -- When both ResourcePtrs point to the same slot, don't swap
    if self.mSlot = o.mSlot then w
    else
      -- Add new targets (first, prevent unloading in case of zero refcount!)
      let w1 := match self.mSlot with
        | some s => w.slotIncRef s other
        | none => w
      let w2 := match o.mSlot with
        | some s => w1.slotIncRef s this
        | none => w1
      -- Remove old targets
      let w3 := match self.mSlot with
        | some s => w2.slotDecRef s this
        | none => w2
      let w4 := match o.mSlot with
        | some s => w3.slotDecRef s other
        | none => w3
      -- Eventually, swap slot pointers
      (w4.setSlot this o.mSlot).setSlot other self.mSlot
  | _, _ => w

/-- The member `ResourcePtr::Reset()`: `DecRef(); mSlot = NULL;`. -/
def ResourcePtr.Reset (w : World) (this : HandleId) : World :=
  match w.handles this with
  | some _ => (ResourcePtr.DecRef w this).setSlot this none
  | none => w

/-- The comparison `operator==` of two handles: `lhs.mSlot == rhs.mSlot`. -/
def ResourcePtr.eq (lhs rhs : ResourcePtr) : Bool :=
  decide (lhs.mSlot = rhs.mSlot)

/-- The operations a program performs on `ResourcePtr` objects. -/
inductive PtrOp where
  | ctor (this : HandleId)
  | fromSlot (this : HandleId) (slot : SlotId)
  | copy (this origin : HandleId)
  | copyConv (this origin : HandleId)
  | assign (this origin : HandleId)
  | assignConv (this origin : HandleId)
  | swap (this other : HandleId)
  | reset (this : HandleId)
  | dtor (this : HandleId)
deriving DecidableEq, Repr

/-- Runs one handle operation. -/
def PtrOp.step (w : World) : PtrOp → World
  | .ctor h => ResourcePtr.ctor w h
  | .fromSlot h s => ResourcePtr.fromSlot w h s
  | .copy h g => ResourcePtr.copy w h g
  | .copyConv h g => ResourcePtr.copyConv w h g
  | .assign h g => ResourcePtr.assign w h g
  | .assignConv h g => ResourcePtr.assignConv w h g
  | .swap h g => ResourcePtr.Swap w h g
  | .reset h => ResourcePtr.Reset w h
  | .dtor h => ResourcePtr.dtor w h

/-- Runs a sequence of handle operations, first to last. -/
def PtrOp.run (w : World) (ops : List PtrOp) : World :=
  ops.foldl PtrOp.step w

/-- The registration invariant: the handles registered at a slot are exactly
the live handles whose `mSlot` is that slot. -/
def World.Consistent (w : World) : Prop :=
  ∀ (s : SlotId) (h : HandleId), h ∈ w.registered s ↔ w.handles h = some ⟨some s⟩

/-- The slot calls that `operator=` makes when the slots differ: first the
IncRef on the new slot, then the DecRef on the old one. -/
def assignCalls (this : HandleId) (old new : Option SlotId) : List SlotCall :=
  (match new with
    | some s => [SlotCall.IncRef s this]
    | none => []) ++
  (match old with
    | some s => [SlotCall.DecRef s this]
    | none => [])

/-! ## Ownership cells (`SmartPtrImpl.inl`) -/

/-- A raw pointer to a resource; the null pointer is `0`. -/
abbrev Ptr := Nat

/-- The null pointer. -/
def NULL : Ptr := 0

/-- The function pointers stored in `mDestroyFn`: `detail::DoNothing`,
`detail::StaticDestroy`, or some other function handed in by a caller. -/
inductive DestroyFn where
  | DoNothing
  | StaticDestroy
  | custom (id : Nat)
deriving DecidableEq, Repr

/-- The data members of `detail::SmartPtrImpl`. -/
structure SmartPtrImpl where
  mPointer : Ptr
  mDestroyFn : DestroyFn
deriving DecidableEq, Repr

/-- The data members of `detail::MovedPtrRef`. -/
structure MovedPtrRef where
  mPointer : Ptr
  mDestroyFn : DestroyFn
deriving DecidableEq, Repr

/-- Address of a smart pointer object: an object of the program, or the local
variable (`temp`, `tmp`) of the member function that is running. -/
inductive Addr where
  | obj (n : Nat)
  | temp
deriving DecidableEq, Repr

/-- The class of a smart pointer object. -/
inductive Kind where
  | ScopedPtr
  | MovedPtr
deriving DecidableEq, Repr

/-- The state of the program: the live smart pointers (class and `mImpl`) by
address, the calls of destroy functions made so far (function, argument), the
non-null raw pointers handed to a constructor or to `Reset(pointer)`, and the
pointers returned to the caller by `Release()`. -/
structure Heap where
  objs : Addr → Option (Kind × SmartPtrImpl)
  destroyLog : List (DestroyFn × Ptr)
  adopted : List Ptr
  released : List Ptr

/-- The state of a program without smart pointers. -/
def Heap.init : Heap where
  objs := fun _ => none
  destroyLog := []
  adopted := []
  released := []

/-- How often a destroy function has been called on the pointer. -/
def Heap.destroyCount (H : Heap) (p : Ptr) : Nat :=
  (H.destroyLog.map Prod.snd).count p

/-- The object at the address is live and its cell holds the pointer. -/
def Heap.holds (H : Heap) (a : Addr) (p : Ptr) : Prop :=
  ∃ k f, H.objs a = some (k, ⟨p, f⟩)

/-- The constructor `SmartPtrImpl()`: `mPointer(NULL)`,
`mDestroyFn(&detail::DoNothing<T>)`. -/
def SmartPtrImpl.ctor : SmartPtrImpl :=
  ⟨NULL, DestroyFn.DoNothing⟩

/-- The constructor `SmartPtrImpl(T* pointer)`: `mPointer(pointer)`,
`mDestroyFn(&StaticDestroy<T>)`. -/
def SmartPtrImpl.ctorPtr (pointer : Ptr) : SmartPtrImpl :=
  ⟨pointer, DestroyFn.StaticDestroy⟩

/-- The constructor `SmartPtrImpl(T* pointer, DestroyFnType destroyFn)`. -/
def SmartPtrImpl.ctorPtrFn (pointer : Ptr) (destroyFn : DestroyFn) : SmartPtrImpl :=
  ⟨pointer, destroyFn⟩

/-- The member `IsNull()`: `mPointer == NULL`. -/
def SmartPtrImpl.IsNull (self : SmartPtrImpl) : Bool :=
  decide (self.mPointer = NULL)

/-- The member `Get()`: `mPointer`. -/
def SmartPtrImpl.Get (self : SmartPtrImpl) : Ptr :=
  self.mPointer

/-- The member `GetDestroyFn()`: `mDestroyFn`. -/
def SmartPtrImpl.GetDestroyFn (self : SmartPtrImpl) : DestroyFn :=
  self.mDestroyFn

/-- A smart pointer object of the given class comes to life at the address
with the given cell (the member initialiser `mImpl(...)`). -/
def Heap.construct (H : Heap) (a : Addr) (k : Kind) (impl : SmartPtrImpl) : Heap :=
  { H with objs := Function.update H.objs a (some (k, impl)) }

/-- The destructor `~SmartPtrImpl()`: `mDestroyFn(mPointer)`, whatever the
pointer is; the object is dead afterwards. -/
def SmartPtrImpl.dtor (H : Heap) (a : Addr) : Heap :=
  match H.objs a with
  | some (_, impl) =>
    { H with
      objs := Function.update H.objs a none
      destroyLog := H.destroyLog ++ [(impl.mDestroyFn, impl.mPointer)] }
  | none => H

/-- The member `SmartPtrImpl::Swap`: `std::swap(mPointer, other.mPointer)` and
`std::swap(mDestroyFn, other.mDestroyFn)`. -/
def SmartPtrImpl.Swap (H : Heap) (a b : Addr) : Heap :=
  match H.objs a, H.objs b with
  | some (ka, ia), some (kb, ib) =>
    { H with
      objs := Function.update (Function.update H.objs a
        (some (ka, ⟨ib.mPointer, ib.mDestroyFn⟩))) b (some (kb, ⟨ia.mPointer, ia.mDestroyFn⟩)) }
  | _, _ => H

/-- The free function `detail::swap(lhs, rhs)`: `lhs.Swap(rhs)`. -/
def SmartPtrImpl.swap (H : Heap) (lhs rhs : Addr) : Heap :=
  SmartPtrImpl.Swap H lhs rhs

/-- The member `SmartPtrImpl::Release`: saves the pointer, empties the cell
(`mPointer = NULL`, `mDestroyFn = &detail::DoNothing`), returns the saved
pointer. -/
def SmartPtrImpl.Release (H : Heap) (a : Addr) : Heap × Ptr :=
  match H.objs a with
  | some (k, impl) =>
    let copy := impl.mPointer
    ({ H with objs := Function.update H.objs a (some (k, ⟨NULL, DestroyFn.DoNothing⟩)) }, copy)
  | none => (H, NULL)

/-- Records that the caller handed a raw pointer to a smart pointer. -/
def Heap.adopt (H : Heap) (pointer : Ptr) : Heap :=
  { H with adopted := H.adopted ++ (if pointer = NULL then [] else [pointer]) }

/-! ## `ScopedPtr` (`ScopedPtr.inl`) -/

/-- The constructor `ScopedPtr()`: `mImpl()`. -/
def ScopedPtr.ctor (H : Heap) (this : Addr) : Heap :=
  H.construct this Kind.ScopedPtr SmartPtrImpl.ctor

/-- The constructor `ScopedPtr(T* pointer)`: `mImpl(pointer)`. -/
def ScopedPtr.ctorPtr (H : Heap) (this : Addr) (pointer : Ptr) : Heap :=
  (H.adopt pointer).construct this Kind.ScopedPtr (SmartPtrImpl.ctorPtr pointer)

/-- The destructor `~ScopedPtr()`: destroys the member `mImpl`. -/
def ScopedPtr.dtor (H : Heap) (this : Addr) : Heap :=
  SmartPtrImpl.dtor H this

/-- The member `ScopedPtr::Swap`: `detail::swap(mImpl, other.mImpl)`. -/
def ScopedPtr.Swap (H : Heap) (this other : Addr) : Heap :=
  SmartPtrImpl.swap H this other

/-- The member `ScopedPtr::Reset()`: `ScopedPtr tmp; Swap(tmp);`, then `tmp`
goes out of scope. -/
def ScopedPtr.Reset (H : Heap) (this : Addr) : Heap :=
  let H1 := ScopedPtr.ctor H Addr.temp
  let H2 := ScopedPtr.Swap H1 this Addr.temp
  ScopedPtr.dtor H2 Addr.temp

/-- The member `ScopedPtr::Reset(T* pointer)`: `ScopedPtr tmp(pointer);
Swap(tmp);`, then `tmp` goes out of scope. -/
def ScopedPtr.ResetPtr (H : Heap) (this : Addr) (pointer : Ptr) : Heap :=
  let H1 := ScopedPtr.ctorPtr H Addr.temp pointer
  let H2 := ScopedPtr.Swap H1 this Addr.temp
  ScopedPtr.dtor H2 Addr.temp

/-- The member `ScopedPtr::Release()`: `return mImpl.Release();`. The pointer
returned to the caller is recorded. -/
def ScopedPtr.Release (H : Heap) (this : Addr) : Heap × Ptr :=
  let r := SmartPtrImpl.Release H this
  ({ r.1 with released := r.1.released ++ [r.2] }, r.2)

/-! ## `MovedPtr` (`MovedPtr.inl`) -/

/-- The constructor `MovedPtr()`: `mImpl()`. -/
def MovedPtr.ctor (H : Heap) (this : Addr) : Heap :=
  H.construct this Kind.MovedPtr SmartPtrImpl.ctor

/-- The constructor `MovedPtr(T* pointer)`: `mImpl(pointer)`. -/
def MovedPtr.ctorPtr (H : Heap) (this : Addr) (pointer : Ptr) : Heap :=
  (H.adopt pointer).construct this Kind.MovedPtr (SmartPtrImpl.ctorPtr pointer)

/-- The move constructor `MovedPtr(MovedPtr& origin)`: `mImpl()` followed by
`mImpl.Swap(origin.mImpl)`. -/
def MovedPtr.moveCtor (H : Heap) (this origin : Addr) : Heap :=
  let H1 := H.construct this Kind.MovedPtr SmartPtrImpl.ctor
  SmartPtrImpl.Swap H1 this origin

/-- The destructor `~MovedPtr()`: destroys the member `mImpl`. -/
def MovedPtr.dtor (H : Heap) (this : Addr) : Heap :=
  SmartPtrImpl.dtor H this

/-- The member `MovedPtr::Swap`: `detail::swap(mImpl, other.mImpl)`. -/
def MovedPtr.Swap (H : Heap) (this other : Addr) : Heap :=
  SmartPtrImpl.swap H this other

/-- The move assignment `operator= (MovedPtr& origin)`: `MovedPtr temp(origin);
Swap(temp);`, then `temp` goes out of scope. -/
def MovedPtr.moveAssign (H : Heap) (this origin : Addr) : Heap :=
  let H1 := MovedPtr.moveCtor H Addr.temp origin
  let H2 := MovedPtr.Swap H1 this Addr.temp
  MovedPtr.dtor H2 Addr.temp

/-- The member `MovedPtr::Reset()`: `MovedPtr tmp; Swap(tmp);`, then `tmp`
goes out of scope. -/
def MovedPtr.Reset (H : Heap) (this : Addr) : Heap :=
  let H1 := MovedPtr.ctor H Addr.temp
  let H2 := MovedPtr.Swap H1 this Addr.temp
  MovedPtr.dtor H2 Addr.temp

/-- The member `MovedPtr::Reset(T* pointer)`: `MovedPtr tmp(pointer);
Swap(tmp);`, then `tmp` goes out of scope. -/
def MovedPtr.ResetPtr (H : Heap) (this : Addr) (pointer : Ptr) : Heap :=
  let H1 := MovedPtr.ctorPtr H Addr.temp pointer
  let H2 := MovedPtr.Swap H1 this Addr.temp
  MovedPtr.dtor H2 Addr.temp

/-- The member `MovedPtr::Release()`: `return mImpl.Release();`. The pointer
returned to the caller is recorded. -/
def MovedPtr.Release (H : Heap) (this : Addr) : Heap × Ptr :=
  let r := SmartPtrImpl.Release H this
  ({ r.1 with released := r.1.released ++ [r.2] }, r.2)

/-- The validity check `operator SafeBool()` of `ScopedPtr` and `MovedPtr`:
`!mImpl.IsNull()`; `none` when there is no object at the address. -/
def Heap.valid (H : Heap) (this : Addr) : Option Bool :=
  (H.objs this).map (fun o => !o.2.IsNull)

/-- The member `Get()` of `ScopedPtr` and `MovedPtr`: `mImpl.Get()`; `none`
when there is no object at the address. -/
def Heap.Get (H : Heap) (this : Addr) : Option Ptr :=
  (H.objs this).map (fun o => o.2.Get)

/-- The conversion `operator detail::MovedPtrRef<T> ()`: builds the carrier from
`mImpl.Get()` and `mImpl.GetDestroyFn()`, then `mImpl.Release()`. -/
def MovedPtr.toRef (H : Heap) (this : Addr) : Heap × Option MovedPtrRef :=
  match H.objs this with
  | some (_, impl) =>
    let ref : MovedPtrRef := ⟨impl.Get, impl.GetDestroyFn⟩
    ((SmartPtrImpl.Release H this).1, some ref)
  | none => (H, none)

/-- The constructor `MovedPtr(detail::MovedPtrRef<T> ref)`:
`mImpl(ref.mPointer, ref.mDestroyFn)`. -/
def MovedPtr.ctorRef (H : Heap) (this : Addr) (ref : MovedPtrRef) : Heap :=
  H.construct this Kind.MovedPtr (SmartPtrImpl.ctorPtrFn ref.mPointer ref.mDestroyFn)

/-- The assignment `operator= (detail::MovedPtrRef<T> ref)`: `MovedPtr tmp(ref);
Swap(tmp);`, then `tmp` goes out of scope. -/
def MovedPtr.assignRef (H : Heap) (this : Addr) (ref : MovedPtrRef) : Heap :=
  let H1 := MovedPtr.ctorRef H Addr.temp ref
  let H2 := MovedPtr.Swap H1 this Addr.temp
  MovedPtr.dtor H2 Addr.temp

/-- Passing a `MovedPtr` by value into a new object: the conversion of `origin`
to `MovedPtrRef` followed by the construction of `this` from the carrier. -/
def MovedPtr.convCtor (H : Heap) (this origin : Addr) : Heap :=
  match MovedPtr.toRef H origin with
  | (H1, some ref) => MovedPtr.ctorRef H1 this ref
  | (_, none) => H

/-- Passing a `MovedPtr` by value into an existing object: the conversion of
`origin` to `MovedPtrRef` followed by the assignment of the carrier to `this`. -/
def MovedPtr.convAssign (H : Heap) (this origin : Addr) : Heap :=
  match MovedPtr.toRef H origin with
  | (H1, some ref) => MovedPtr.assignRef H1 this ref
  | (_, none) => H

/-- Whether a live object of the given class is at the address. -/
def Heap.isLive (H : Heap) (a : Addr) (k : Kind) : Bool :=
  match H.objs a with
  | some (k1, _) => decide (k1 = k)
  | none => false

/-- Whether no object is at the address. -/
def Heap.isDead (H : Heap) (a : Addr) : Bool :=
  (H.objs a).isNone

/-- The operations a program performs on its `ScopedPtr` and `MovedPtr`
objects, each object given by its number. -/
inductive SmartOp where
  | scopedCtor (this : Nat)
  | scopedCtorPtr (this : Nat) (pointer : Ptr)
  | scopedDtor (this : Nat)
  | scopedSwap (this other : Nat)
  | scopedReset (this : Nat)
  | scopedResetPtr (this : Nat) (pointer : Ptr)
  | scopedRelease (this : Nat)
  | movedCtor (this : Nat)
  | movedCtorPtr (this : Nat) (pointer : Ptr)
  | movedMoveCtor (this origin : Nat)
  | movedDtor (this : Nat)
  | movedAssign (this origin : Nat)
  | movedSwap (this other : Nat)
  | movedReset (this : Nat)
  | movedResetPtr (this : Nat) (pointer : Ptr)
  | movedRelease (this : Nat)
  | movedConvCtor (this origin : Nat)
  | movedConvAssign (this origin : Nat)
deriving DecidableEq, Repr

/-- Runs one operation. An operation the language excludes (a member call on
an object that is not live or of the other class, a constructor over a live
object) is not a step of any program and leaves the state as it is. -/
def SmartOp.step (H : Heap) : SmartOp → Heap
  | .scopedCtor a =>
    if H.isDead (.obj a) then ScopedPtr.ctor H (.obj a) else H
  | .scopedCtorPtr a p =>
    if H.isDead (.obj a) then ScopedPtr.ctorPtr H (.obj a) p else H
  | .scopedDtor a =>
    if H.isLive (.obj a) .ScopedPtr then ScopedPtr.dtor H (.obj a) else H
  | .scopedSwap a b =>
    if H.isLive (.obj a) .ScopedPtr && H.isLive (.obj b) .ScopedPtr then
      ScopedPtr.Swap H (.obj a) (.obj b) else H
  | .scopedReset a =>
    if H.isLive (.obj a) .ScopedPtr then ScopedPtr.Reset H (.obj a) else H
  | .scopedResetPtr a p =>
    if H.isLive (.obj a) .ScopedPtr then ScopedPtr.ResetPtr H (.obj a) p else H
  | .scopedRelease a =>
    if H.isLive (.obj a) .ScopedPtr then (ScopedPtr.Release H (.obj a)).1 else H
  | .movedCtor a =>
    if H.isDead (.obj a) then MovedPtr.ctor H (.obj a) else H
  | .movedCtorPtr a p =>
    if H.isDead (.obj a) then MovedPtr.ctorPtr H (.obj a) p else H
  | .movedMoveCtor a b =>
    if H.isDead (.obj a) && H.isLive (.obj b) .MovedPtr then
      MovedPtr.moveCtor H (.obj a) (.obj b) else H
  | .movedDtor a =>
    if H.isLive (.obj a) .MovedPtr then MovedPtr.dtor H (.obj a) else H
  | .movedAssign a b =>
    if H.isLive (.obj a) .MovedPtr && H.isLive (.obj b) .MovedPtr then
      MovedPtr.moveAssign H (.obj a) (.obj b) else H
  | .movedSwap a b =>
    if H.isLive (.obj a) .MovedPtr && H.isLive (.obj b) .MovedPtr then
      MovedPtr.Swap H (.obj a) (.obj b) else H
  | .movedReset a =>
    if H.isLive (.obj a) .MovedPtr then MovedPtr.Reset H (.obj a) else H
  | .movedResetPtr a p =>
    if H.isLive (.obj a) .MovedPtr then MovedPtr.ResetPtr H (.obj a) p else H
  | .movedRelease a =>
    if H.isLive (.obj a) .MovedPtr then (MovedPtr.Release H (.obj a)).1 else H
  | .movedConvCtor a b =>
    if H.isDead (.obj a) && H.isLive (.obj b) .MovedPtr then
      MovedPtr.convCtor H (.obj a) (.obj b) else H
  | .movedConvAssign a b =>
    if H.isLive (.obj a) .MovedPtr && H.isLive (.obj b) .MovedPtr then
      MovedPtr.convAssign H (.obj a) (.obj b) else H

/-- Runs a sequence of operations, first to last. -/
def SmartOp.run (H : Heap) (ops : List SmartOp) : Heap :=
  ops.foldl SmartOp.step H

/-- The ownership invariant: a non-null pointer is held by at most one live
object, and then with `StaticDestroy`, adopted, neither released nor
destroyed; only adopted pointers are released or destroyed, each at most once
and by `StaticDestroy`; and every adopted pointer is held, released or
destroyed. -/
structure Heap.Owned (H : Heap) : Prop where
  unique : ∀ (a b : Addr) (k1 k2 : Kind) (p : Ptr) (f1 f2 : DestroyFn),
    H.objs a = some (k1, ⟨p, f1⟩) → H.objs b = some (k2, ⟨p, f2⟩) → p ≠ NULL → a = b
  held : ∀ (a : Addr) (k : Kind) (p : Ptr) (f : DestroyFn),
    H.objs a = some (k, ⟨p, f⟩) → p ≠ NULL →
      f = DestroyFn.StaticDestroy ∧ p ∈ H.adopted ∧ p ∉ H.released ∧
        p ∉ H.destroyLog.map Prod.snd
  logged : ∀ (f : DestroyFn) (p : Ptr), (f, p) ∈ H.destroyLog → p ≠ NULL →
    f = DestroyFn.StaticDestroy ∧ p ∈ H.adopted
  once : ∀ p : Ptr, p ≠ NULL → H.destroyCount p ≤ 1
  released_adopted : ∀ p : Ptr, p ∈ H.released → p ≠ NULL → p ∈ H.adopted
  adopted_ne : ∀ p : Ptr, p ∈ H.adopted → p ≠ NULL
  accounted : ∀ p : Ptr, p ∈ H.adopted →
    (∃ a, H.holds a p) ∨ p ∈ H.released ∨ p ∈ H.destroyLog.map Prod.snd

/-- The invariant between two operations: ownership is in order and no local
variable of a member function is alive. -/
def Heap.Inv (H : Heap) : Prop :=
  H.Owned ∧ H.objs Addr.temp = none

/-! ## The resource manager -/

/-- Modelled from the spec: the ordered slot map of `ResourceManager` (the class
is not part of the sources). A new entry is inserted in key order. -/
def insertEntry (e : Entry) : List Entry → List Entry
  | [] => [e]
  | x :: xs => if e.key.lt x.key then e :: x :: xs else x :: insertEntry e xs

/-- Modelled from the spec: the lookup in the slot map of `ResourceManager`, which
finds the slot whose stored key is equivalent to the argument under the strict
weak order of the keys. -/
def World.find (w : World) (key : ResourceKey) : Option Entry :=
  w.map.find? (fun e => Equivalent e.key key)

/-- Modelled from the spec: `ResourceManager::Contains`, an existence check with
the same equivalence that does not touch any reference count. -/
def World.Contains (w : World) (key : ResourceKey) : Bool :=
  (w.find key).isSome

/-- Modelled from the spec: the loader of the key is invoked (recorded by key
information). -/
def World.logLoad (w : World) (key : ResourceKey) : World :=
  { w with loads := w.loads ++ [key.mKey] }

/-- Modelled from the spec: a new slot that owns the loaded resource is inserted
in the map under the key; no handle is registered at it yet. -/
def World.addSlot (w : World) (key : ResourceKey) (res : Resource) : World :=
  { w with
    map := insertEntry ⟨key, w.nextSlot, res⟩ w.map
    registered := Function.update w.registered w.nextSlot ∅
    nextSlot := w.nextSlot + 1 }

/-- Modelled from the spec: `ResourceManager::Acquire` (the class is not part of
the sources). An existing slot with an equivalent key is handed out through a
new handle, which raises its reference count. Otherwise a new slot is made and
its loader invoked; on success the slot is inserted under the key and handed
out, on failure the load error goes to the caller and nothing is inserted. The
handle returned is the object at address `this`. -/
def ResourceManager.Acquire (w : World) (this : HandleId) (key : ResourceKey) :
    World × Except String ResourcePtr :=
  match w.find key with
  | some e => (ResourcePtr.fromSlot w this e.slot, Except.ok ⟨some e.slot⟩)
  | none =>
    let w1 := w.logLoad key
    match key.mLoader () with
    | Except.error msg => (w1, Except.error msg)
    | Except.ok res =>
      (ResourcePtr.fromSlot (w1.addSlot key res) this w1.nextSlot, Except.ok ⟨some w1.nextSlot⟩)

/-- The operations of a program that uses a resource manager: `Acquire` into a
new handle object, and the public operations on handles. -/
inductive CacheOp where
  | acquire (this : HandleId) (key : ResourceKey)
  | handle (op : PtrOp)

/-- Runs one operation of a program that uses a resource manager. The private
constructor from a slot is not available to the program, and `Acquire` returns
its handle in a new object. -/
def CacheOp.step (w : World) : CacheOp → World
  | .acquire h key =>
    match w.handles h with
    | none => (ResourceManager.Acquire w h key).1
    | some _ => w
  | .handle (.fromSlot _ _) => w
  | .handle op => PtrOp.step w op

/-- Runs a sequence of operations, first to last. -/
def CacheOp.run (w : World) (ops : List CacheOp) : World :=
  ops.foldl CacheOp.step w

/-- The bookkeeping of the manager is in order: a slot is in the map exactly
when a handle is registered at it, slots in the map were made by the manager,
and destroyed slots are not in the map. -/
structure World.Cached (w : World) : Prop where
  present_iff : ∀ s : SlotId, (∃ e ∈ w.map, e.slot = s) ↔ (w.registered s).Nonempty
  bound : ∀ e ∈ w.map, e.slot < w.nextSlot
  gone : ∀ x ∈ w.evicted, x.1 < w.nextSlot ∧ ∀ e ∈ w.map, e.slot ≠ x.1

/-- Every entry of the map before is in the map afterwards or its slot has been
destroyed with its resource, and what was destroyed stays so. -/
def World.Kept (w w1 : World) : Prop :=
  (∀ e ∈ w.map, e ∈ w1.map ∨ (e.slot, e.resource) ∈ w1.evicted) ∧
  (∀ x ∈ w.evicted, x ∈ w1.evicted)

/-- A step of the manager's bookkeeping: it keeps the bookkeeping in order and
loses no slot without destroying it. -/
def World.Moves (w w1 : World) : Prop :=
  (w.Cached → w1.Cached) ∧ w.Kept w1

/-! ## Sample keys -/

/-- A key whose loader fails, as for a file that does not exist. -/
def missingKey : ResourceKey :=
  ⟨fun _ => Except.error "Failed to load resource", "File missing.png "⟩

/-- A key whose loader succeeds. -/
def sizeKey : ResourceKey :=
  ⟨fun _ => Except.ok 64, "Size 64 64 White "⟩

/-- The same key information as `sizeKey`, built a second time. -/
def sizeKeyAgain : ResourceKey :=
  ⟨fun _ => Except.ok 64, "Size 64 64 White "⟩

/-! ## Comparison, validity check and dereference -/

/-- The comparison `operator!=` of two handles: `!(lhs == rhs)`. -/
def ResourcePtr.ne (lhs rhs : ResourcePtr) : Bool :=
  !(ResourcePtr.eq lhs rhs)

/-- The validity check `ResourcePtr::operator SafeBool()`:
`detail::ToSafeBool(mSlot != NULL)`, the bool-like value being read as the
condition it was made from. -/
def ResourcePtr.valid (self : ResourcePtr) : Bool :=
  decide (self.mSlot ≠ none)

/-- The member `ResourcePtr::operator*`: `assert(mSlot)`, then
`*mSlot->GetResourcePointer()`. The member `GetResourcePointer` of the class
`ResourceSlot`, which is not part of the sources, is a parameter; a failed
assertion is an error. -/
def ResourcePtr.operatorStar (GetResourcePointer : SlotId → Nat) (self : ResourcePtr) :
    Except String Nat :=
  match self.mSlot with
  | none => Except.error "assert(mSlot)"
  | some s => Except.ok (GetResourcePointer s)

/-- The member `ResourcePtr::operator->`: `assert(mSlot)`, then
`mSlot->GetResourcePointer()`. -/
def ResourcePtr.operatorArrow (GetResourcePointer : SlotId → Nat) (self : ResourcePtr) :
    Except String Nat :=
  match self.mSlot with
  | none => Except.error "assert(mSlot)"
  | some s => Except.ok (GetResourcePointer s)

/-- The free function `swap(ResourcePtr& lhs, ResourcePtr& rhs)`:
`lhs.Swap(rhs)`. -/
def ResourcePtr.swap (w : World) (lhs rhs : HandleId) : World :=
  ResourcePtr.Swap w lhs rhs

/-- The member `SmartPtrImpl::operator*`: `assert(!IsNull())`, then `*mPointer`,
the resource the pointer points to; a failed assertion is an error. -/
def SmartPtrImpl.operatorStar (self : SmartPtrImpl) : Except String Ptr :=
  if self.IsNull then Except.error "assert(!IsNull())" else Except.ok self.mPointer

/-- The member `SmartPtrImpl::operator->`: `assert(!IsNull())`, then
`mPointer`. -/
def SmartPtrImpl.operatorArrow (self : SmartPtrImpl) : Except String Ptr :=
  if self.IsNull then Except.error "assert(!IsNull())" else Except.ok self.mPointer

/-- The member `ScopedPtr::operator*`: `mImpl.operator*()`; `none` when there is
no object at the address. -/
def ScopedPtr.operatorStar (H : Heap) (this : Addr) : Option (Except String Ptr) :=
  (H.objs this).map (fun o => o.2.operatorStar)

/-- The member `ScopedPtr::operator->`: `mImpl.operator->()`. -/
def ScopedPtr.operatorArrow (H : Heap) (this : Addr) : Option (Except String Ptr) :=
  (H.objs this).map (fun o => o.2.operatorArrow)

/-- The member `ScopedPtr::Get`: `mImpl.Get()`. -/
def ScopedPtr.Get (H : Heap) (this : Addr) : Option Ptr :=
  (H.objs this).map (fun o => o.2.Get)

/-- The validity check `ScopedPtr::operator SafeBool()`:
`detail::ToSafeBool(!mImpl.IsNull())`. -/
def ScopedPtr.valid (H : Heap) (this : Addr) : Option Bool :=
  (H.objs this).map (fun o => !o.2.IsNull)

/-- The member `MovedPtr::operator*`: `mImpl.operator*()`; `none` when there is
no object at the address. -/
def MovedPtr.operatorStar (H : Heap) (this : Addr) : Option (Except String Ptr) :=
  (H.objs this).map (fun o => o.2.operatorStar)

/-- The member `MovedPtr::operator->`: `mImpl.operator->()`. -/
def MovedPtr.operatorArrow (H : Heap) (this : Addr) : Option (Except String Ptr) :=
  (H.objs this).map (fun o => o.2.operatorArrow)

/-- The member `MovedPtr::Get`: `mImpl.Get()`. -/
def MovedPtr.Get (H : Heap) (this : Addr) : Option Ptr :=
  (H.objs this).map (fun o => o.2.Get)

/-- The validity check `MovedPtr::operator SafeBool()`:
`detail::ToSafeBool(!mImpl.IsNull())`. -/
def MovedPtr.valid (H : Heap) (this : Addr) : Option Bool :=
  (H.objs this).map (fun o => !o.2.IsNull)

/-- The free function `swap(ScopedPtr<T>& lhs, ScopedPtr<T>& rhs)`:
`lhs.Swap(rhs)`. -/
def ScopedPtr.swap (H : Heap) (lhs rhs : Addr) : Heap :=
  ScopedPtr.Swap H lhs rhs

/-- The free function `swap(MovedPtr<T>& lhs, MovedPtr<T>& rhs)`:
`lhs.Swap(rhs)`. -/
def MovedPtr.swap (H : Heap) (lhs rhs : Addr) : Heap :=
  MovedPtr.Swap H lhs rhs

/-! ## Traces of slot calls -/

/-- The slot calls that `ResourcePtr::Swap` makes when the slots differ: the
IncRef calls on both slots, then the DecRef calls on both slots. -/
def swapCalls (this other : HandleId) (a b : Option SlotId) : List SlotCall :=
  (match a with
    | some s => [SlotCall.IncRef s other]
    | none => []) ++
  (match b with
    | some s => [SlotCall.IncRef s this]
    | none => []) ++
  (match a with
    | some s => [SlotCall.DecRef s this]
    | none => []) ++
  (match b with
    | some s => [SlotCall.DecRef s other]
    | none => [])

/-- Whether the call is an IncRef. -/
def SlotCall.isIncRef : SlotCall → Bool
  | .IncRef _ _ => true
  | .DecRef _ _ => false

/-- Modelled from the spec: what one call of `ResourceSlot::IncRef` or
`ResourceSlot::DecRef` does to the handles registered at the slots (as in
`World.slotIncRef` and `World.slotDecRef`). -/
def SlotCall.apply (reg : SlotId → Finset HandleId) : SlotCall → SlotId → Finset HandleId
  | .IncRef s t => Function.update reg s (insert t (reg s))
  | .DecRef s t => Function.update reg s ((reg s).erase t)

/-- The registrations after a sequence of slot calls, first to last. -/
def replay (reg : SlotId → Finset HandleId) (calls : List SlotCall) :
    SlotId → Finset HandleId :=
  calls.foldl SlotCall.apply reg

/-! ## The destroy functions of `SmartPtrImpl.inl` -/

/-- The function `detail::DoNothing(T*)`, whose body is empty: the objects a
call deletes. -/
def DoNothing (_pointer : Ptr) : List Ptr :=
  []

/-- The function `detail::StaticDestroy(T* pointer)`, whose body is
`delete pointer`: the objects a call deletes. Deleting a null pointer has no
effect. -/
def StaticDestroy (pointer : Ptr) : List Ptr :=
  if pointer = NULL then [] else [pointer]

/-! ## Construction helper of the keys (`GraphicsKeys.cpp`) -/

/-- The helper `ImageKey::FromMemory(data, size, tag)`: the loader is
`sf::Image::LoadFromMemory` bound to `data` and `size`, the key information is
`detail::Tagger("Memory") << data << size << tag`. Both `LoadFromMemory` (what
the bytes at the address decode to when the loader runs) and the `Tagger`
expression, whose class is not part of the sources, are parameters. -/
def ImageKey.FromMemory (LoadFromMemory : Nat → Nat → Except String Resource)
    (TaggerMemory : Nat → Nat → String → String) (data size : Nat) (tag : String) :
    ResourceKey :=
  ⟨fun _ => LoadFromMemory data size, TaggerMemory data size tag⟩

/-! ## Binary search (`AssociativeHelpers.hpp`) -/

/-- The function template `detail::Equivalent` for an element type with the
given `operator<`: `!(lhs < rhs) && !(rhs < lhs)`. -/
def EquivalentBy {α : Type} (lt : α → α → Bool) (lhs rhs : α) : Bool :=
  !(lt lhs rhs) && !(lt rhs lhs)

/-- The standard algorithm `std::lower_bound(first, last, value)` by its
specification: the position of the first element that is not less than
`value`, and `last` (the length of the range) when there is none. -/
def lowerBound {α : Type} (lt : α → α → Bool) (range : List α) (value : α) : Nat :=
  range.findIdx (fun x => !(lt x value))

/-- The function template `detail::BinarySearch(first, last, value)` on the range
given by the list of its elements, positions counted from `first`:
`result = std::lower_bound(first, last, value)`, then
`if (Equivalent(*result, value)) return result; else return last;`. Reading
`*result` at a position outside the range is an error. -/
def BinarySearch {α : Type} (lt : α → α → Bool) (range : List α) (value : α) :
    Except String Nat :=
  let result := lowerBound lt range value
  match range.get? result with
  | none => Except.error "read outside [first, last)"
  | some x =>
    if EquivalentBy lt x value then Except.ok result else Except.ok range.length

/-- The `operator<` of unsigned numbers, as an element order for the search. -/
def natLt (a b : Nat) : Bool :=
  decide (a < b)

/-! ## `CopiedPtr` -/

/-- The state of a program with `CopiedPtr` objects of one ownership policy:
the raw pointer each live object holds, the arguments of the calls of the
policy function `Copy`, and the calls of destroy functions. -/
structure CopiedWorld where
  objs : Nat → Option Ptr
  copyCalls : List Ptr
  destroyLog : List (DestroyFn × Ptr)

/-- Modelled from the spec: the copy constructor of `CopiedPtr` (the file
`CopiedPtr.inl` is not part of the sources). If the origin is empty, this
instance becomes empty as well and the policy function `Copy` is not invoked;
otherwise `Copy` is invoked with the raw pointer of the origin and this
instance holds the result. -/
def CopiedPtr.copyCtor (Copy : Ptr → Ptr) (W : CopiedWorld) (this origin : Nat) :
    CopiedWorld :=
  match W.objs origin with
  | none => W
  | some pointer =>
    if pointer = NULL then
      { W with objs := Function.update W.objs this (some NULL) }
    else
      { W with
        objs := Function.update W.objs this (some (Copy pointer))
        copyCalls := W.copyCalls ++ [pointer] }

/-- Modelled from the spec: the destructor of `CopiedPtr` (the file
`CopiedPtr.inl` is not part of the sources): the policy function `Destroy` is
invoked with the pointer as argument, whatever the pointer is. -/
def CopiedPtr.dtor (Destroy : DestroyFn) (W : CopiedWorld) (this : Nat) : CopiedWorld :=
  match W.objs this with
  | none => W
  | some pointer =>
    { W with
      objs := Function.update W.objs this none
      destroyLog := W.destroyLog ++ [(Destroy, pointer)] }

/-- Modelled from the spec: the member `Swap` of `CopiedPtr` (the file
`CopiedPtr.inl` is not part of the sources), which exchanges the pointers. -/
def CopiedPtr.Swap (W : CopiedWorld) (this other : Nat) : CopiedWorld :=
  match W.objs this, W.objs other with
  | some a, some b =>
    { W with objs := Function.update (Function.update W.objs this (some b)) other (some a) }
  | _, _ => W

/-- Modelled from the spec: the copy assignment of `CopiedPtr` (the file
`CopiedPtr.inl` is not part of the sources), implemented by copy and swap: a
local copy of the origin at address `temp` is made with the copy constructor,
swapped with this instance and destroyed. -/
def CopiedPtr.assign (Copy : Ptr → Ptr) (Destroy : DestroyFn) (W : CopiedWorld)
    (this origin temp : Nat) : CopiedWorld :=
  let W1 := CopiedPtr.copyCtor Copy W temp origin
  let W2 := CopiedPtr.Swap W1 this temp
  CopiedPtr.dtor Destroy W2 temp

/-- A sample state with three `CopiedPtr` objects: object 0 holds resource 7,
object 1 is empty, object 2 holds resource 5. Nothing was copied or destroyed
so far. -/
def sampleCopied : CopiedWorld :=
  { objs := fun n =>
      if n = 0 then some 7
      else if n = 1 then some NULL
      else if n = 2 then some 5
      else none
    copyCalls := []
    destroyLog := [] }

/-- A sample policy function `Copy`: the clone of resource p is resource p + 100. -/
def sampleCopy (pointer : Ptr) : Ptr := pointer + 100

/-! ## Particle emitters (`ParticleInterfaces.cpp`)

The `float` values are taken as exact rational numbers. -/

/-- The data members of `Emitter` that `ComputeNbParticles` reads and writes,
and the particle lifetime given to the constructor. -/
structure Emitter where
  mEmissionRate : ℚ
  mEmissionDifference : ℚ
  mParticleLifetime : ℚ
deriving DecidableEq

/-- The constructor `Emitter(particlesPerSecond, particleLifetime)`:
`mEmissionRate(particlesPerSecond)`, `mEmissionDifference(0.f)`,
`mParticleLifetime(particleLifetime)`. Its two assertions require both
arguments to be positive. -/
def Emitter.ctor (particlesPerSecond particleLifetime : ℚ) : Emitter :=
  ⟨particlesPerSecond, 0, particleLifetime⟩

/-- The conversion `static_cast<unsigned int>(x)` of a floating-point value: the
value is truncated toward zero, and the conversion is defined only when the
truncated value fits the 32 bits of `unsigned int`. -/
def toUnsignedInt (x : ℚ) : Except String Nat :=
  if -1 < x ∧ x < 2 ^ 32 then Except.ok (if 0 ≤ x then ⌊x⌋ else ⌈x⌉).toNat
  else Except.error "conversion outside the range of unsigned int"

/-- The member `Emitter::ComputeNbParticles(dt)`:
`particleAmount = mEmissionRate * dt + mEmissionDifference`,
`nbParticles = static_cast<unsigned int>(particleAmount)`,
`mEmissionDifference = particleAmount - nbParticles`, `return nbParticles`.
The result is the emitter after the call and the returned number. -/
def Emitter.ComputeNbParticles (self : Emitter) (dt : ℚ) : Except String (Emitter × Nat) :=
  let particleAmount := self.mEmissionRate * dt + self.mEmissionDifference
  match toUnsignedInt particleAmount with
  | Except.error e => Except.error e
  | Except.ok nbParticles =>
    Except.ok ({ self with mEmissionDifference := particleAmount - nbParticles }, nbParticles)

/-- A sequence of calls of `ComputeNbParticles`, one per time step: the emitter
after the last call and the numbers returned, in the order of the calls. -/
def Emitter.run (self : Emitter) : List ℚ → Except String (Emitter × List Nat)
  | [] => Except.ok (self, [])
  | dt :: rest =>
    match self.ComputeNbParticles dt with
    | Except.error e => Except.error e
    | Except.ok (next, nbParticles) =>
      match Emitter.run next rest with
      | Except.error e => Except.error e
      | Except.ok (last, counts) => Except.ok (last, nbParticles :: counts)

/-! ## Particle system (`ParticleSystem.cpp`) -/

/-- The members of `Particle` that `ParticleSystem.cpp` accesses, for a number
type `F` in the place of `float` and pairs in the place of `sf::Vector2f`; the
remaining members (scale, colour) are the component `other`, of a type `X`. -/
structure Particle (F X : Type) where
  Position : F × F
  Velocity : F × F
  Rotation : F
  RotationSpeed : F
  PassedLifetime : F
  TotalLifetime : F
  other : X
deriving DecidableEq

/-- An affector, given by its virtual member `Affect(particle, dt)`: the
particle is passed by reference, and the function yields the particle the call
leaves behind. -/
abbrev Affector (F X : Type) := Particle F X → F → Particle F X

/-- The data members `mParticles`, `mAffectors` and `mEmitters` of
`ParticleSystem`; `E` is the type of the emitters. -/
structure ParticleSystem (F X E : Type) where
  mParticles : List (Particle F X)
  mAffectors : List (Affector F X)
  mEmitters : List E

/-- The member `ParticleSystem::AddParticle(particle)`:
`mParticles.push_back(particle)`. -/
def ParticleSystem.AddParticle {F X E : Type} (self : ParticleSystem F X E)
    (particle : Particle F X) : ParticleSystem F X E :=
  { self with mParticles := self.mParticles ++ [particle] }

/-- The member `ParticleSystem::UpdateParticle(particle, dt)`:
`particle.PassedLifetime += dt`, `particle.Position += dt * particle.Velocity`,
`particle.Rotation += dt * particle.RotationSpeed`. -/
def ParticleSystem.UpdateParticle {F X : Type} [Add F] [Mul F] (particle : Particle F X)
    (dt : F) : Particle F X :=
  { particle with
    PassedLifetime := particle.PassedLifetime + dt
    Position := (particle.Position.1 + dt * particle.Velocity.1,
      particle.Position.2 + dt * particle.Velocity.2)
    Rotation := particle.Rotation + dt * particle.RotationSpeed }

/-- The first loop of `ParticleSystem::Update`: every emitter, in the order of
`mEmitters`, has its virtual member `Emit(*this, dt)` called. `Emit` is a
parameter: it yields the emitter after the call and the particles the call
hands to `AddParticle`, in that order. -/
def ParticleSystem.emitAll {F X E : Type} (Emit : E → F → E × List (Particle F X)) (dt : F)
    (self : ParticleSystem F X E) : List E → ParticleSystem F X E × List E
  | [] => (self, [])
  | emitter :: rest =>
    let fed := (Emit emitter dt).2.foldl ParticleSystem.AddParticle self
    let done := ParticleSystem.emitAll Emit dt fed rest
    (done.1, (Emit emitter dt).1 :: done.2)

/-- The inner loop of `ParticleSystem::Update`: every affector, in the order of
`mAffectors`, has `Affect(*reader, dt)` called on the particle. -/
def ParticleSystem.applyAffectors {F X : Type} (affectors : List (Affector F X))
    (particle : Particle F X) (dt : F) : Particle F X :=
  affectors.foldl (fun p affector => affector p dt) particle

/-- The second loop of `ParticleSystem::Update`, with the iterators `writer` and
`reader` as positions in `mParticles`: `UpdateParticle(*reader, dt)`; if
`reader->PassedLifetime < reader->TotalLifetime`, the affectors are applied to
`*reader` and `*writer++ = *reader`; then `++reader`. The first argument bounds
the number of iterations; the loop ends when `reader` is the end of the vector.
The result is the vector, the final `writer`, and the record of the particles
the affectors were called on, as they were when handed to the first affector. -/
def ParticleSystem.updateLoop {F X : Type} [Add F] [Mul F] [LT F]
    [DecidableRel (fun a b : F => a < b)] (affectors : List (Affector F X)) (dt : F) :
    Nat → List (Particle F X) → Nat → Nat → List (Particle F X) →
      List (Particle F X) × Nat × List (Particle F X)
  | 0, particles, writer, _, affected => (particles, writer, affected)
  | fuel + 1, particles, writer, reader, affected =>
    match particles.get? reader with
    | none => (particles, writer, affected)
    | some old =>
      let updated := ParticleSystem.UpdateParticle old dt
      if updated.PassedLifetime < updated.TotalLifetime then
        let current := ParticleSystem.applyAffectors affectors updated dt
        ParticleSystem.updateLoop affectors dt fuel
          ((particles.set reader current).set writer current) (writer + 1) (reader + 1)
          (affected ++ [updated])
      else
        ParticleSystem.updateLoop affectors dt fuel (particles.set reader updated) writer
          (reader + 1) affected

/-- The member `ParticleSystem::Update(dt)`: the emitters emit, the loop over
`mParticles` runs from `writer = reader = mParticles.begin()` to the end of the
vector, and `mParticles.erase(writer, mParticles.end())` keeps the first
`writer` particles. The second component is the record of the particles the
affectors were called on. -/
def ParticleSystem.Update {F X E : Type} [Add F] [Mul F] [LT F]
    [DecidableRel (fun a b : F => a < b)] (Emit : E → F → E × List (Particle F X))
    (self : ParticleSystem F X E) (dt : F) : ParticleSystem F X E × List (Particle F X) :=
  let emitted := ParticleSystem.emitAll Emit dt self self.mEmitters
  let result := ParticleSystem.updateLoop self.mAffectors dt emitted.1.mParticles.length
    emitted.1.mParticles 0 0 []
  ({ emitted.1 with mParticles := result.1.take result.2.1, mEmitters := emitted.2 }, result.2.2)

/-- The particles of a list that are alive after their update by `dt`, updated
and in their order: those with `PassedLifetime < TotalLifetime` after
`UpdateParticle`. -/
def ParticleSystem.survivors {F X : Type} [Add F] [Mul F] [LT F]
    [DecidableRel (fun a b : F => a < b)] (particles : List (Particle F X)) (dt : F) :
    List (Particle F X) :=
  (particles.map (fun p => ParticleSystem.UpdateParticle p dt)).filter
    (fun p => decide (p.PassedLifetime < p.TotalLifetime))

/-- A sample particle with integer times: it has lived `passed` of `total` time
units, moves with velocity (1, 2) and turns with speed 3; its other member is
the opacity 255. -/
def sampleParticle (passed total : Int) : Particle Int Nat :=
  { Position := (0, 0), Velocity := (1, 2), Rotation := 0, RotationSpeed := 3,
    PassedLifetime := passed, TotalLifetime := total, other := 255 }

/-- A sample affector that makes a particle transparent and leaves the rest of
it alone. -/
def fadeOut : Affector Int Nat := fun particle _ =>
  { particle with other := 0 }

/-- A sample affector that uses up the lifetime of a particle: it sets
`PassedLifetime` to `TotalLifetime`. -/
def abandon : Affector Int Nat := fun particle _ =>
  { particle with PassedLifetime := particle.TotalLifetime }

/-- A sample `Emit` that adds no particle. -/
def noEmit : Unit → Int → Unit × List (Particle Int Nat) := fun _ _ => ((), [])

/-- A sample particle system without emitters: three particles that have lived
0 of 10, 4 of 5 and 2 of 4 time units, and the given affectors. -/
def sampleSystem (affectors : List (Affector Int Nat)) : ParticleSystem Int Nat Unit :=
  { mParticles := [sampleParticle 0 10, sampleParticle 4 5, sampleParticle 2 4],
    mAffectors := affectors, mEmitters := [] }

/-! ## Event listeners (`EventListener.hpp`)

An iterator of the vector `mListeners` is the position it refers to, counted
from `begin()`. -/

/-- The data members of `detail::Listener`: the callback `mFunction`, by a number
that identifies it, and the shared pointer `mStrongRef`. The pointer is null
(`none`) or refers to the `ConnectionImpl` that `SetEnvironment` created from
the container and an iterator, which is given by that iterator. -/
structure Listener where
  mFunction : Nat
  mStrongRef : Option Nat
deriving DecidableEq, Repr

/-- The constructor `Listener(fn)`: `mFunction(fn)`, `mStrongRef()`. -/
def Listener.ctor (fn : Nat) : Listener :=
  ⟨fn, none⟩

/-- The member `Listener::Swap(other)`: `swap(mFunction, other.mFunction)`,
`swap(mStrongRef, other.mStrongRef)`. The result is this listener and the
other one after the call. -/
def Listener.Swap (self other : Listener) : Listener × Listener :=
  (⟨other.mFunction, other.mStrongRef⟩, ⟨self.mFunction, self.mStrongRef⟩)

/-- The member `Listener::SetEnvironment(container, iterator)`:
`mStrongRef.reset(new ConnectionImpl(container, iterator))`. -/
def Listener.SetEnvironment (self : Listener) (iterator : Nat) : Listener :=
  { self with mStrongRef := some iterator }

/-- The member `Listener::ShareConnection()`: a `Connection` whose `mWeakRef` is
`mStrongRef`, given by what it refers to. -/
def Listener.ShareConnection (self : Listener) : Option Nat :=
  self.mStrongRef

/-- The data member `mListeners` of `detail::ListenerSequence`. -/
structure ListenerSequence where
  mListeners : List Listener
deriving DecidableEq, Repr

/-- The member `ListenerSequence::Add(listener)`: `mListeners.push_back(listener)`,
`added = mListeners.end() - 1`, `added->SetEnvironment(*this, added)`,
`return added->ShareConnection()`. -/
def ListenerSequence.Add (self : ListenerSequence) (listener : Listener) :
    ListenerSequence × Option Nat :=
  let pushed := self.mListeners ++ [listener]
  let added := pushed.length - 1
  match pushed.get? added with
  | none => (⟨pushed⟩, none)
  | some stored =>
    (⟨pushed.set added (stored.SetEnvironment added)⟩,
      (stored.SetEnvironment added).ShareConnection)

/-- The member `ListenerSequence::Remove(iterator)`:
`iterator->Swap(mListeners.back())`, `mListeners.pop_back()`. Dereferencing an
iterator that refers to no stored listener is an error. -/
def ListenerSequence.Remove (self : ListenerSequence) (iterator : Nat) :
    Except String ListenerSequence :=
  match self.mListeners.get? iterator, self.mListeners.getLast? with
  | some target, some back =>
    Except.ok ⟨((self.mListeners.set iterator (target.Swap back).1).set
      (self.mListeners.length - 1) (target.Swap back).2).dropLast⟩
  | _, _ => Except.error "iterator does not refer to a stored listener"

/-- Every stored listener records the position at which it is stored. -/
def ListenerSequence.Consistent (self : ListenerSequence) : Prop :=
  ∀ (i : Nat) (l : Listener), self.mListeners.get? i = some l → l.mStrongRef = some i
/-! ## Slot calls: effect on the registrations -/

@[simp] theorem handles_slotIncRef (w : World) (s : SlotId) (t : HandleId) :
    (w.slotIncRef s t).handles = w.handles := rfl

@[simp] theorem handles_slotDecRef (w : World) (s : SlotId) (t : HandleId) :
    (w.slotDecRef s t).handles = w.handles := by
  unfold World.slotDecRef
  dsimp only
  split <;> rfl

@[simp] theorem registered_slotIncRef (w : World) (s : SlotId) (t : HandleId) :
    (w.slotIncRef s t).registered = Function.update w.registered s (insert t (w.registered s)) :=
  rfl

@[simp] theorem registered_slotDecRef (w : World) (s : SlotId) (t : HandleId) :
    (w.slotDecRef s t).registered = Function.update w.registered s ((w.registered s).erase t) := by
  unfold World.slotDecRef
  dsimp only
  split <;> rfl

theorem handles_setSlot (w : World) (h : HandleId) (o : Option SlotId) :
    (w.setSlot h o).handles = Function.update w.handles h (some ⟨o⟩) := rfl

@[simp] theorem registered_setSlot (w : World) (h : HandleId) (o : Option SlotId) :
    (w.setSlot h o).registered = w.registered := rfl

theorem mem_slotIncRef (w : World) (s k : SlotId) (t h : HandleId) :
    h ∈ (w.slotIncRef s t).registered k ↔ (k = s ∧ h = t) ∨ h ∈ w.registered k := by
  simp only [registered_slotIncRef, Function.update_apply]
  split
  · subst_vars; simp
  · simp [*]

theorem mem_slotDecRef (w : World) (s k : SlotId) (t h : HandleId) :
    h ∈ (w.slotDecRef s t).registered k ↔ h ∈ w.registered k ∧ ¬ (k = s ∧ h = t) := by
  simp only [registered_slotDecRef, Function.update_apply]
  split
  · subst_vars; simp [and_comm]
  · simp [*]

theorem handles_setSlot_apply (w : World) (h g : HandleId) (o : Option SlotId) :
    (w.setSlot h o).handles g = if g = h then some ⟨o⟩ else w.handles g := by
  simp [handles_setSlot, Function.update_apply]

theorem handles_setSlot_same (w : World) (h : HandleId) (o : Option SlotId) :
    (w.setSlot h o).handles h = some ⟨o⟩ := by
  simp [handles_setSlot]

/-! ## The registration invariant is kept by every handle operation -/

theorem consistent_ctor {w : World} (hw : w.Consistent) (this : HandleId) :
    (ResourcePtr.ctor w this).Consistent := by
  unfold ResourcePtr.ctor
  split
  · rename_i hn
    intro s h
    rw [handles_setSlot_apply, registered_setSlot, hw s h]
    by_cases hh : h = this
    · subst hh; simp [hn]
    · simp [hh]
  · exact hw

theorem consistent_incRef_fresh {w : World} (hw : w.Consistent) (this : HandleId)
    (slot : Option SlotId) (hn : w.handles this = none) :
    (ResourcePtr.IncRef (w.setSlot this slot) this).Consistent := by
  intro s h
  cases slot with
  | none =>
    simp only [ResourcePtr.IncRef, handles_setSlot_same]
    rw [handles_setSlot_apply, registered_setSlot, hw s h]
    by_cases hh : h = this
    · subst hh; simp [hn]
    · simp [hh]
  | some k =>
    simp only [ResourcePtr.IncRef, handles_setSlot_same]
    rw [mem_slotIncRef, handles_slotIncRef, handles_setSlot_apply, registered_setSlot, hw s h]
    by_cases hh : h = this
    · subst hh; simp [hn, eq_comm]
    · simp [hh]

theorem consistent_fromSlot {w : World} (hw : w.Consistent) (this : HandleId) (slot : SlotId) :
    (ResourcePtr.fromSlot w this slot).Consistent := by
  unfold ResourcePtr.fromSlot
  split
  · rename_i hn
    exact consistent_incRef_fresh hw this _ hn
  · exact hw

theorem consistent_copy {w : World} (hw : w.Consistent) (this origin : HandleId) :
    (ResourcePtr.copy w this origin).Consistent := by
  unfold ResourcePtr.copy
  split
  · rename_i hn _
    exact consistent_incRef_fresh hw this _ hn
  · exact hw

theorem consistent_copyConv {w : World} (hw : w.Consistent) (this origin : HandleId) :
    (ResourcePtr.copyConv w this origin).Consistent := by
  unfold ResourcePtr.copyConv
  split
  · rename_i hn _
    exact consistent_incRef_fresh hw this _ hn
  · exact hw

theorem consistent_assign {w : World} (hw : w.Consistent) (this origin : HandleId) :
    (ResourcePtr.assign w this origin).Consistent := by
  unfold ResourcePtr.assign
  split
  · rename_i self o hs ho
    split
    · exact hw
    · rename_i hne
      obtain ⟨a⟩ := self
      obtain ⟨b⟩ := o
      simp only at hne
      intro s h
      cases a <;> cases b <;>
        simp only [mem_slotIncRef, mem_slotDecRef, handles_slotIncRef, handles_slotDecRef,
          handles_setSlot_apply, registered_setSlot, hw s h] <;>
        by_cases hh : h = this <;> simp_all
      all_goals first | omega | tauto | aesop
  · exact hw

theorem consistent_assignConv {w : World} (hw : w.Consistent) (this origin : HandleId) :
    (ResourcePtr.assignConv w this origin).Consistent := by
  unfold ResourcePtr.assignConv
  split
  · rename_i self o hs ho
    split
    · exact hw
    · rename_i hne
      obtain ⟨a⟩ := self
      obtain ⟨b⟩ := o
      simp only at hne
      intro s h
      cases a <;> cases b <;>
        simp only [mem_slotIncRef, mem_slotDecRef, handles_slotIncRef, handles_slotDecRef,
          handles_setSlot_apply, registered_setSlot, hw s h] <;>
        by_cases hh : h = this <;> simp_all
      all_goals first | omega | tauto | aesop
  · exact hw

theorem consistent_Swap {w : World} (hw : w.Consistent) (this other : HandleId) :
    (ResourcePtr.Swap w this other).Consistent := by
  unfold ResourcePtr.Swap
  split
  · rename_i self o hs ho
    split
    · exact hw
    · rename_i hne
      obtain ⟨a⟩ := self
      obtain ⟨b⟩ := o
      simp only at hne
      have hto : this ≠ other := by
        rintro rfl
        rw [hs] at ho
        simp only [Option.some.injEq, ResourcePtr.mk.injEq] at ho
        exact hne ho
      intro s h
      cases a <;> cases b <;>
        simp only [mem_slotIncRef, mem_slotDecRef, handles_slotIncRef, handles_slotDecRef,
          handles_setSlot_apply, registered_setSlot, hw s h] <;>
        by_cases hh : h = this <;> by_cases hg : h = other <;> simp_all
      all_goals first | omega | tauto | aesop
  · exact hw

theorem consistent_decRef_then {w : World} (hw : w.Consistent) (this : HandleId)
    (v : Option ResourcePtr) (hv : v = none ∨ v = some ⟨none⟩) (hl : w.handles this ≠ none) :
    ∀ (s : SlotId) (h : HandleId), h ∈ (ResourcePtr.DecRef w this).registered s ↔
      Function.update (ResourcePtr.DecRef w this).handles this v h = some ⟨some s⟩ := by
  intro s h
  unfold ResourcePtr.DecRef
  split
  · rename_i k hk
    rw [mem_slotDecRef, handles_slotDecRef, hw s h, Function.update_apply]
    by_cases hh : h = this
    · subst hh
      rcases hv with rfl | rfl <;> simp [hk]
      all_goals exact fun hks => hks.symm
    · simp [hh]
  · rename_i hnot
    rw [hw s h, Function.update_apply]
    by_cases hh : h = this
    · subst hh
      have : w.handles h ≠ some ⟨some s⟩ := fun hc => hnot s hc
      rcases hv with rfl | rfl <;> simp [this]
    · simp [hh]

theorem consistent_Reset {w : World} (hw : w.Consistent) (this : HandleId) :
    (ResourcePtr.Reset w this).Consistent := by
  unfold ResourcePtr.Reset
  split
  · rename_i p hp
    intro s h
    rw [registered_setSlot, handles_setSlot]
    exact consistent_decRef_then hw this _ (Or.inr rfl) (by simp [hp]) s h
  · exact hw

theorem consistent_dtor {w : World} (hw : w.Consistent) (this : HandleId) :
    (ResourcePtr.dtor w this).Consistent := by
  unfold ResourcePtr.dtor
  split
  · rename_i p hp
    intro s h
    exact consistent_decRef_then hw this _ (Or.inl rfl) (by simp [hp]) s h
  · exact hw

theorem consistent_step {w : World} (hw : w.Consistent) (op : PtrOp) :
    (PtrOp.step w op).Consistent := by
  cases op with
  | ctor h => exact consistent_ctor hw h
  | fromSlot h s => exact consistent_fromSlot hw h s
  | copy h g => exact consistent_copy hw h g
  | copyConv h g => exact consistent_copyConv hw h g
  | assign h g => exact consistent_assign hw h g
  | assignConv h g => exact consistent_assignConv hw h g
  | swap h g => exact consistent_Swap hw h g
  | reset h => exact consistent_Reset hw h
  | dtor h => exact consistent_dtor hw h

theorem consistent_run (ops : List PtrOp) {w : World} (hw : w.Consistent) :
    (PtrOp.run w ops).Consistent := by
  induction ops generalizing w with
  | nil => exact hw
  | cons op ops ih => exact ih (consistent_step hw op)

/-- In a consistent state the reference count of a slot is the number of live
handles whose `mSlot` is that slot. -/
theorem refCount_eq_ncard {w : World} (hw : w.Consistent) (s : SlotId) :
    w.refCount s = Set.ncard {h : HandleId | w.handles h = some ⟨some s⟩} := by
  have : {h : HandleId | w.handles h = some ⟨some s⟩} = ↑(w.registered s) := by
    ext h
    simp [hw s h]
  rw [this, Set.ncard_coe_Finset]
  rfl

/-! ## Claims on `ResourcePtr` -/

/-- C1. Reference count equals live handles: starting from slots with no
handles, after every finite sequence of ResourcePtr operations (default
construction, construction from a slot, copy construction, copy assignment, Swap,
Reset, destruction, also between related resource types) the handles registered
at each slot through IncRef(this)/DecRef(this) are exactly the live handles
whose mSlot is that slot, and the reference count of each slot is the number
of live handles referencing it. -/
theorem refcount_equals_live_handles (w0 : World)
    (hlive : ∀ h : HandleId, w0.handles h = none)
    (hreg : ∀ s : SlotId, w0.registered s = ∅) (ops : List PtrOp) :
    (∀ (s : SlotId) (h : HandleId),
      h ∈ (PtrOp.run w0 ops).registered s ↔ (PtrOp.run w0 ops).handles h = some ⟨some s⟩) ∧
    (∀ s : SlotId, (PtrOp.run w0 ops).refCount s =
      Set.ncard {h : HandleId | (PtrOp.run w0 ops).handles h = some ⟨some s⟩}) := by
  have h0 : w0.Consistent := by
    intro s h
    simp [hlive h, hreg s]
  have hrun := consistent_run ops h0
  exact ⟨hrun, fun s => refCount_eq_ncard hrun s⟩

/-- Witness of C1: two slots, three handles, every kind of operation. -/
theorem refcount_equals_live_handles_witness :
    (∀ (s : SlotId) (h : HandleId),
      h ∈ (PtrOp.run World.init
        [.fromSlot 1 0, .copy 2 1, .fromSlot 3 1, .assign 2 3, .swap 1 3, .reset 2,
          .dtor 1]).registered s ↔
      (PtrOp.run World.init
        [.fromSlot 1 0, .copy 2 1, .fromSlot 3 1, .assign 2 3, .swap 1 3, .reset 2,
          .dtor 1]).handles h = some ⟨some s⟩) ∧
    (∀ s : SlotId, (PtrOp.run World.init
        [.fromSlot 1 0, .copy 2 1, .fromSlot 3 1, .assign 2 3, .swap 1 3, .reset 2,
          .dtor 1]).refCount s =
      Set.ncard {h : HandleId | (PtrOp.run World.init
        [.fromSlot 1 0, .copy 2 1, .fromSlot 3 1, .assign 2 3, .swap 1 3, .reset 2,
          .dtor 1]).handles h = some ⟨some s⟩}) :=
  refcount_equals_live_handles World.init (fun _ => rfl) (fun _ => rfl) _

/-- C2. Self-assignment and aliasing assignment are no-ops: when the live
handles h and g (possibly the same object, possibly both empty) have the same
mSlot, both assignment operators applied as h = g leave the whole state as it
was: no IncRef and no DecRef is recorded, h.mSlot and every registration and
reference count are unchanged, and nothing is evicted. -/
theorem assign_same_slot_noop (w : World) (h g : HandleId) (a b : ResourcePtr)
    (hh : w.handles h = some a) (hg : w.handles g = some b) (hs : b.mSlot = a.mSlot) :
    ResourcePtr.assign w h g = w ∧ ResourcePtr.assignConv w h g = w ∧
    (ResourcePtr.assign w h g).calls = w.calls ∧
    (ResourcePtr.assignConv w h g).calls = w.calls ∧
    (ResourcePtr.assign w h g).handles h = some a ∧
    (ResourcePtr.assignConv w h g).handles h = some a ∧
    (∀ s : SlotId, (ResourcePtr.assign w h g).refCount s = w.refCount s ∧
      (ResourcePtr.assignConv w h g).refCount s = w.refCount s) ∧
    (ResourcePtr.assign w h g).evicted = w.evicted ∧
    (ResourcePtr.assignConv w h g).evicted = w.evicted ∧
    (∀ s : SlotId, (ResourcePtr.assign w h g).present s = w.present s ∧
      (ResourcePtr.assignConv w h g).present s = w.present s) := by
  have h1 : ResourcePtr.assign w h g = w := by
    simp [ResourcePtr.assign, hh, hg, hs]
  have h2 : ResourcePtr.assignConv w h g = w := by
    simp [ResourcePtr.assignConv, hh, hg, hs]
  rw [h1, h2]
  simp [hh]

/-- Witness of C2: two handles on slot 0, one assigned to the other. -/
theorem assign_same_slot_noop_witness :
    ResourcePtr.assign (PtrOp.run World.init [.fromSlot 1 0, .copy 2 1]) 1 2 =
      PtrOp.run World.init [.fromSlot 1 0, .copy 2 1] :=
  (assign_same_slot_noop (PtrOp.run World.init [.fromSlot 1 0, .copy 2 1]) 1 2
    ⟨some 0⟩ ⟨some 0⟩ (by decide) (by decide) rfl).1

/-- C3. Assignment between different slots: in a state where registrations
match the live handles, let h reference A or be empty and g reference a
different B or be empty. After h = g the handle h references what g
references, g and every other handle are unchanged, the reference count of B
(if any) is one higher, that of A (if any) one lower, every other count is
unchanged, and the calls recorded are the IncRef on B followed by the DecRef
on A. -/
theorem assign_different_slots (w : World) (hw : w.Consistent) (h g : HandleId)
    (A B : Option SlotId) (hh : w.handles h = some ⟨A⟩) (hg : w.handles g = some ⟨B⟩)
    (hne : A ≠ B) :
    (ResourcePtr.assign w h g).handles h = some ⟨B⟩ ∧
    (ResourcePtr.assign w h g).handles g = some ⟨B⟩ ∧
    (∀ k : HandleId, k ≠ h → (ResourcePtr.assign w h g).handles k = w.handles k) ∧
    (∀ b : SlotId, B = some b → (ResourcePtr.assign w h g).refCount b = w.refCount b + 1) ∧
    (∀ a : SlotId, A = some a → (ResourcePtr.assign w h g).refCount a + 1 = w.refCount a) ∧
    (∀ s : SlotId, A ≠ some s → B ≠ some s →
      (ResourcePtr.assign w h g).refCount s = w.refCount s) ∧
    (ResourcePtr.assign w h g).calls = w.calls ++ assignCalls h A B := by
  have hgh : g ≠ h := by
    rintro rfl
    rw [hh] at hg
    simp only [Option.some.injEq, ResourcePtr.mk.injEq] at hg
    exact hne hg
  have hA : ∀ a : SlotId, A = some a → h ∈ w.registered a := fun a ha => by
    rw [hw a h, hh, ha]
  have hB : ∀ b : SlotId, B = some b → h ∉ w.registered b := fun b hb => by
    rw [hw b h, hh]
    intro hc
    simp only [Option.some.injEq, ResourcePtr.mk.injEq] at hc
    exact hne (hc.trans hb.symm)
  unfold ResourcePtr.assign
  simp only [hh, hg, if_neg hne]
  cases A with
  | none =>
    cases B with
    | none => exact absurd rfl hne
    | some b =>
      refine ⟨?_, ?_, ?_, ?_, ?_, ?_, ?_⟩
      · simp [handles_setSlot]
      · simp [handles_setSlot, Function.update_apply, hgh, hg]
      · intro k hk; simp [handles_setSlot, Function.update_apply, hk]
      · intro b1 hb1
        cases hb1
        simp [World.refCount, Finset.card_insert_of_not_mem (hB b rfl)]
      · intro a ha; cases ha
      · intro s _ hs
        have : s ≠ b := fun hc => hs (by rw [hc])
        simp [World.refCount, Function.update_apply, this]
      · simp [World.slotIncRef, World.setSlot, assignCalls]
  | some a =>
    cases B with
    | none =>
      refine ⟨?_, ?_, ?_, ?_, ?_, ?_, ?_⟩
      · simp [handles_setSlot]
      · simp [handles_setSlot, Function.update_apply, hgh, hg]
      · intro k hk; simp [handles_setSlot, Function.update_apply, hk]
      · intro b hb; cases hb
      · intro a1 ha1
        cases ha1
        simp only [World.refCount, registered_slotDecRef, registered_setSlot,
          Function.update_same]
        exact Finset.card_erase_add_one (hA a rfl)
      · intro s hs _
        have : s ≠ a := fun hc => hs (by rw [hc])
        simp [World.refCount, Function.update_apply, this]
      · have : (World.slotDecRef (w.setSlot h none) a h).calls =
            w.calls ++ [SlotCall.DecRef a h] := by
          unfold World.slotDecRef
          dsimp only
          split <;> rfl
        simpa [assignCalls] using this
    | some b =>
      have hab : a ≠ b := fun hc => hne (by rw [hc])
      refine ⟨?_, ?_, ?_, ?_, ?_, ?_, ?_⟩
      · simp [handles_setSlot]
      · simp [handles_setSlot, Function.update_apply, hgh, hg]
      · intro k hk; simp [handles_setSlot, Function.update_apply, hk]
      · intro b1 hb1
        cases hb1
        simp [World.refCount, Function.update_apply, hab, hab.symm,
          Finset.card_insert_of_not_mem (hB b rfl)]
      · intro a1 ha1
        cases ha1
        simp only [World.refCount, registered_slotDecRef, registered_slotIncRef,
          registered_setSlot, Function.update_same, Function.update_noteq hab]
        exact Finset.card_erase_add_one (hA a rfl)
      · intro s hs1 hs2
        have h1 : s ≠ a := fun hc => hs1 (by rw [hc])
        have h2 : s ≠ b := fun hc => hs2 (by rw [hc])
        simp [World.refCount, Function.update_apply, h1, h2]
      · have : (World.slotDecRef ((w.setSlot h (some b)).slotIncRef b h) a h).calls =
            (w.calls ++ [SlotCall.IncRef b h]) ++ [SlotCall.DecRef a h] := by
          unfold World.slotDecRef
          dsimp only
          split <;> rfl
        simpa [assignCalls] using this

/-- Witness of C3: handle 1 on slot 0 is assigned handle 2 on slot 1. -/
theorem assign_different_slots_witness :
    (ResourcePtr.assign (PtrOp.run World.init [.fromSlot 1 0, .fromSlot 2 1]) 1 2).handles 1 =
      some ⟨some 1⟩ ∧
    (ResourcePtr.assign (PtrOp.run World.init [.fromSlot 1 0, .fromSlot 2 1]) 1 2).calls =
      (PtrOp.run World.init [.fromSlot 1 0, .fromSlot 2 1]).calls ++
        [SlotCall.IncRef 1 1, SlotCall.DecRef 0 1] :=
  ⟨(assign_different_slots (PtrOp.run World.init [.fromSlot 1 0, .fromSlot 2 1])
      (consistent_run _ (fun s h => by simp [World.init])) 1 2 (some 0) (some 1)
      (by decide) (by decide) (by decide)).1,
    (assign_different_slots (PtrOp.run World.init [.fromSlot 1 0, .fromSlot 2 1])
      (consistent_run _ (fun s h => by simp [World.init])) 1 2 (some 0) (some 1)
      (by decide) (by decide) (by decide)).2.2.2.2.2.2⟩

/-! ## Ownership cells: the invariant is kept by every step -/

theorem owned_init : Heap.init.Owned := by
  constructor <;> simp [Heap.init, Heap.destroyCount]

theorem owned_construct_ctor {H : Heap} (hH : H.Owned) (a : Addr) (k : Kind)
    (ha : H.objs a = none) : (H.construct a k SmartPtrImpl.ctor).Owned := by
  have hobj : ∀ b k1 p f, (H.construct a k SmartPtrImpl.ctor).objs b = some (k1, ⟨p, f⟩) →
      p ≠ NULL → H.objs b = some (k1, ⟨p, f⟩) := by
    intro b k1 p f hb hp
    simp only [Heap.construct, Function.update_apply, SmartPtrImpl.ctor] at hb
    split at hb
    · simp only [Option.some.injEq, Prod.mk.injEq, SmartPtrImpl.mk.injEq] at hb
      exact absurd hb.2.1.symm hp
    · exact hb
  constructor
  · intro x y k1 k2 p f1 f2 hx hy hp
    exact hH.unique x y k1 k2 p f1 f2 (hobj _ _ _ _ hx hp) (hobj _ _ _ _ hy hp) hp
  · intro x k1 p f hx hp
    exact hH.held x k1 p f (hobj _ _ _ _ hx hp) hp
  · exact hH.logged
  · exact hH.once
  · exact hH.released_adopted
  · exact hH.adopted_ne
  · intro p hp
    rcases hH.accounted p hp with ⟨x, k1, f, hx⟩ | h | h
    · left
      refine ⟨x, k1, f, ?_⟩
      have hxa : x ≠ a := by
        rintro rfl
        rw [ha] at hx
        cases hx
      simp [Heap.construct, Function.update_apply, hxa, hx]
    · exact Or.inr (Or.inl h)
    · exact Or.inr (Or.inr h)

theorem owned_ctorPtr {H : Heap} (hH : H.Owned) (a : Addr) (k : Kind) (p : Ptr)
    (ha : H.objs a = none) (hp : p ≠ NULL → p ∉ H.adopted) :
    ((H.adopt p).construct a k (SmartPtrImpl.ctorPtr p)).Owned := by
  have hobj : ∀ b k1 q f,
      ((H.adopt p).construct a k (SmartPtrImpl.ctorPtr p)).objs b = some (k1, ⟨q, f⟩) →
      (b = a ∧ q = p ∧ f = DestroyFn.StaticDestroy) ∨ (b ≠ a ∧ H.objs b = some (k1, ⟨q, f⟩)) := by
    intro b k1 q f hb
    simp only [Heap.construct, Heap.adopt, Function.update_apply, SmartPtrImpl.ctorPtr] at hb
    split at hb
    · simp only [Option.some.injEq, Prod.mk.injEq, SmartPtrImpl.mk.injEq] at hb
      exact Or.inl ⟨by assumption, hb.2.1.symm, hb.2.2.symm⟩
    · exact Or.inr ⟨by assumption, hb⟩
  have hadopt : ∀ q, q ∈ ((H.adopt p).construct a k (SmartPtrImpl.ctorPtr p)).adopted ↔
      q ∈ H.adopted ∨ (q = p ∧ p ≠ NULL) := by
    intro q
    simp only [Heap.construct, Heap.adopt, List.mem_append]
    by_cases hp0 : p = NULL <;> simp [hp0]
  have hlog : ((H.adopt p).construct a k (SmartPtrImpl.ctorPtr p)).destroyLog = H.destroyLog := rfl
  have hrel : ((H.adopt p).construct a k (SmartPtrImpl.ctorPtr p)).released = H.released := rfl
  constructor
  · intro x y k1 k2 q f1 f2 hx hy hq
    rcases hobj _ _ _ _ hx with ⟨rfl, rfl, -⟩ | ⟨hxa, hx1⟩ <;>
      rcases hobj _ _ _ _ hy with ⟨rfl, hyq, -⟩ | ⟨hya, hy1⟩
    · rfl
    · exact absurd (hH.held _ _ _ _ hy1 hq).2.1 (hp hq)
    · subst hyq
      exact absurd (hH.held _ _ _ _ hx1 hq).2.1 (hp hq)
    · exact hH.unique x y k1 k2 q f1 f2 hx1 hy1 hq
  · intro x k1 q f hx hq
    rw [hadopt, hlog, hrel]
    rcases hobj _ _ _ _ hx with ⟨rfl, rfl, rfl⟩ | ⟨hxa, hx1⟩
    · refine ⟨rfl, Or.inr ⟨rfl, hq⟩, ?_, ?_⟩
      · exact fun hc => hp hq (hH.released_adopted _ hc hq)
      · intro hc
        obtain ⟨⟨f, q1⟩, hm, rfl⟩ := List.mem_map.1 hc
        exact hp hq (hH.logged f _ hm hq).2
    · obtain ⟨h1, h2, h3, h4⟩ := hH.held _ _ _ _ hx1 hq
      exact ⟨h1, Or.inl h2, h3, h4⟩
  · intro f q hm hq
    rw [hadopt]
    exact ⟨(hH.logged f q hm hq).1, Or.inl (hH.logged f q hm hq).2⟩
  · exact hH.once
  · intro q hm hq
    rw [hadopt]
    exact Or.inl (hH.released_adopted q hm hq)
  · intro q hm
    rcases (hadopt q).1 hm with h | ⟨rfl, h⟩
    · exact hH.adopted_ne q h
    · exact h
  · intro q hm
    rw [hlog, hrel]
    rcases (hadopt q).1 hm with h | ⟨rfl, h⟩
    · rcases hH.accounted q h with ⟨x, k1, f, hx⟩ | h | h
      · left
        refine ⟨x, k1, f, ?_⟩
        have hxa : x ≠ a := by
          rintro rfl
          rw [ha] at hx
          cases hx
        simp [Heap.construct, Heap.adopt, Function.update_apply, hxa, hx]
      · exact Or.inr (Or.inl h)
      · exact Or.inr (Or.inr h)
    · left
      exact ⟨a, k, DestroyFn.StaticDestroy, by
        simp [Heap.construct, Heap.adopt, SmartPtrImpl.ctorPtr]⟩

/-- What `SmartPtrImpl::Swap` does to two live objects: each keeps its class
and takes the cell of the other. -/
theorem objs_Swap (H : Heap) (a b : Addr) (ka kb : Kind) (ia ib : SmartPtrImpl)
    (ha : H.objs a = some (ka, ia)) (hb : H.objs b = some (kb, ib)) (x : Addr) :
    (SmartPtrImpl.Swap H a b).objs x =
      if x = b then some (kb, ia) else if x = a then some (ka, ib) else H.objs x := by
  simp only [SmartPtrImpl.Swap, ha, hb, Function.update_apply]

theorem owned_Swap {H : Heap} (hH : H.Owned) (a b : Addr) :
    (SmartPtrImpl.Swap H a b).Owned := by
  cases ha : H.objs a with
  | none => simpa [SmartPtrImpl.Swap, ha] using hH
  | some oa =>
    cases hb : H.objs b with
    | none => simpa [SmartPtrImpl.Swap, ha, hb] using hH
    | some ob =>
      obtain ⟨ka, ia⟩ := oa
      obtain ⟨kb, ib⟩ := ob
      have hlog : (SmartPtrImpl.Swap H a b).destroyLog = H.destroyLog := by
        simp [SmartPtrImpl.Swap, ha, hb]
      have hrel : (SmartPtrImpl.Swap H a b).released = H.released := by
        simp [SmartPtrImpl.Swap, ha, hb]
      have hado : (SmartPtrImpl.Swap H a b).adopted = H.adopted := by
        simp [SmartPtrImpl.Swap, ha, hb]
      have hcnt : ∀ p, (SmartPtrImpl.Swap H a b).destroyCount p = H.destroyCount p := by
        intro p; simp [Heap.destroyCount, hlog]
      -- every cell after the swap is the cell of the exchanged address before
      have hfrom : ∀ x k i, (SmartPtrImpl.Swap H a b).objs x = some (k, i) →
          ∃ k1, H.objs (Equiv.swap a b x) = some (k1, i) := by
        intro x k i hx
        rw [objs_Swap H a b ka kb ia ib ha hb] at hx
        by_cases hxb : x = b
        · subst hxb
          simp only [if_true, Option.some.injEq, Prod.mk.injEq] at hx
          exact ⟨ka, by rw [Equiv.swap_apply_right, ha, hx.2]⟩
        · by_cases hxa : x = a
          · subst hxa
            simp only [if_neg hxb, if_true, Option.some.injEq, Prod.mk.injEq] at hx
            exact ⟨kb, by rw [Equiv.swap_apply_left, hb, hx.2]⟩
          · simp only [if_neg hxb, if_neg hxa] at hx
            exact ⟨k, by rw [Equiv.swap_apply_of_ne_of_ne hxa hxb, hx]⟩
      have hto : ∀ y k i, H.objs y = some (k, i) →
          ∃ k1, (SmartPtrImpl.Swap H a b).objs (Equiv.swap a b y) = some (k1, i) := by
        intro y k i hy
        rw [objs_Swap H a b ka kb ia ib ha hb]
        by_cases hya : y = a
        · subst hya
          rw [Equiv.swap_apply_left]
          rw [ha] at hy
          simp only [Option.some.injEq, Prod.mk.injEq] at hy
          exact ⟨kb, by simp [hy.2]⟩
        · by_cases hyb : y = b
          · subst hyb
            rw [Equiv.swap_apply_right]
            rw [hb] at hy
            simp only [Option.some.injEq, Prod.mk.injEq] at hy
            by_cases hab : a = y
            · subst hab
              exact absurd rfl hya
            · exact ⟨ka, by simp [hab, hy.2]⟩
          · rw [Equiv.swap_apply_of_ne_of_ne hya hyb]
            exact ⟨k, by simp [hya, hyb, hy]⟩
      constructor
      · intro x y k1 k2 p f1 f2 hx hy hp
        obtain ⟨k3, hx1⟩ := hfrom _ _ _ hx
        obtain ⟨k4, hy1⟩ := hfrom _ _ _ hy
        exact (Equiv.swap a b).injective (hH.unique _ _ _ _ p f1 f2 hx1 hy1 hp)
      · intro x k p f hx hp
        obtain ⟨k3, hx1⟩ := hfrom _ _ _ hx
        rw [hlog, hrel, hado]
        exact hH.held _ _ _ _ hx1 hp
      · rw [hlog, hado]; exact hH.logged
      · intro p hp; rw [hcnt]; exact hH.once p hp
      · rw [hrel, hado]; exact hH.released_adopted
      · rw [hado]; exact hH.adopted_ne
      · intro p hp
        rw [hado] at hp
        rw [hlog, hrel]
        rcases hH.accounted p hp with ⟨x, k1, f, hx⟩ | h | h
        · obtain ⟨k2, hx2⟩ := hto _ _ _ hx
          exact Or.inl ⟨_, k2, f, hx2⟩
        · exact Or.inr (Or.inl h)
        · exact Or.inr (Or.inr h)

theorem owned_dtor {H : Heap} (hH : H.Owned) (a : Addr) : (SmartPtrImpl.dtor H a).Owned := by
  cases ha : H.objs a with
  | none => simpa [SmartPtrImpl.dtor, ha] using hH
  | some oa =>
    obtain ⟨ka, ⟨p, f⟩⟩ := oa
    have hobjs : ∀ x, (SmartPtrImpl.dtor H a).objs x = if x = a then none else H.objs x := by
      intro x; simp [SmartPtrImpl.dtor, ha, Function.update_apply]
    have hlog : (SmartPtrImpl.dtor H a).destroyLog = H.destroyLog ++ [(f, p)] := by
      simp [SmartPtrImpl.dtor, ha]
    have hrel : (SmartPtrImpl.dtor H a).released = H.released := by
      simp [SmartPtrImpl.dtor, ha]
    have hado : (SmartPtrImpl.dtor H a).adopted = H.adopted := by
      simp [SmartPtrImpl.dtor, ha]
    have hsub : ∀ x k q g, (SmartPtrImpl.dtor H a).objs x = some (k, ⟨q, g⟩) →
        x ≠ a ∧ H.objs x = some (k, ⟨q, g⟩) := by
      intro x k q g hx
      rw [hobjs] at hx
      by_cases hxa : x = a
      · simp [hxa] at hx
      · exact ⟨hxa, by simpa [hxa] using hx⟩
    constructor
    · intro x y k1 k2 q f1 f2 hx hy hq
      exact hH.unique x y k1 k2 q f1 f2 (hsub _ _ _ _ hx).2 (hsub _ _ _ _ hy).2 hq
    · intro x k q g hx hq
      obtain ⟨hxa, hx1⟩ := hsub _ _ _ _ hx
      obtain ⟨h1, h2, h3, h4⟩ := hH.held _ _ _ _ hx1 hq
      rw [hlog, hrel, hado]
      refine ⟨h1, h2, h3, ?_⟩
      simp only [List.map_append, List.map_cons, List.map_nil, List.mem_append,
        List.mem_singleton, not_or]
      refine ⟨h4, ?_⟩
      rintro rfl
      exact hxa (hH.unique _ _ _ _ q g f hx1 ha hq)
    · intro g q hm hq
      rw [hlog] at hm
      rw [hado]
      rcases List.mem_append.1 hm with h | h
      · exact hH.logged g q h hq
      · simp only [List.mem_singleton, Prod.mk.injEq] at h
        obtain ⟨rfl, rfl⟩ := h
        exact ⟨(hH.held _ _ _ _ ha hq).1, (hH.held _ _ _ _ ha hq).2.1⟩
    · intro q hq
      simp only [Heap.destroyCount, hlog, List.map_append, List.map_cons, List.map_nil,
        List.count_append]
      by_cases hqp : q = p
      · subst hqp
        have h0 : (H.destroyLog.map Prod.snd).count q = 0 :=
          List.count_eq_zero_of_not_mem (hH.held _ _ _ _ ha hq).2.2.2
        simp [h0]
      · have h1 := hH.once q hq
        have h2 : List.count q [p] = 0 := by
          simp [List.count_singleton, Ne.symm hqp]
        simp only [Heap.destroyCount] at h1
        omega
    · rw [hrel, hado]; exact hH.released_adopted
    · rw [hado]; exact hH.adopted_ne
    · intro q hq
      rw [hado] at hq
      rw [hlog, hrel]
      rcases hH.accounted q hq with ⟨x, k1, g, hx⟩ | h | h
      · by_cases hxa : x = a
        · subst hxa
          rw [ha] at hx
          simp only [Option.some.injEq, Prod.mk.injEq, SmartPtrImpl.mk.injEq] at hx
          right; right
          simp [hx.2.1]
        · left
          exact ⟨x, k1, g, by rw [hobjs, if_neg hxa, hx]⟩
      · exact Or.inr (Or.inl h)
      · right; right
        simp only [List.map_append, List.mem_append]
        exact Or.inl h

/-- The state after the public `Release()` of a live object. -/
theorem owned_Release {H : Heap} (hH : H.Owned) (a : Addr) :
    (MovedPtr.Release H a).1.Owned := by
  cases ha : H.objs a with
  | none =>
    have hobjs : (MovedPtr.Release H a).1.objs = H.objs := by
      simp [MovedPtr.Release, SmartPtrImpl.Release, ha]
    have hlog : (MovedPtr.Release H a).1.destroyLog = H.destroyLog := by
      simp [MovedPtr.Release, SmartPtrImpl.Release, ha]
    have hado : (MovedPtr.Release H a).1.adopted = H.adopted := by
      simp [MovedPtr.Release, SmartPtrImpl.Release, ha]
    have hrel : ∀ q, q ≠ NULL → (q ∈ (MovedPtr.Release H a).1.released ↔ q ∈ H.released) := by
      intro q hq
      simp only [MovedPtr.Release, SmartPtrImpl.Release, ha, List.mem_append,
        List.mem_singleton]
      exact ⟨fun h => h.elim id (fun h => absurd h hq), Or.inl⟩
    constructor
    · rw [hobjs]; exact hH.unique
    · intro x k q g hx hq
      rw [hobjs] at hx
      rw [hlog, hado, hrel q hq]
      exact hH.held _ _ _ _ hx hq
    · rw [hlog, hado]; exact hH.logged
    · intro q hq
      simp only [Heap.destroyCount, hlog]
      exact hH.once q hq
    · intro q hm hq
      rw [hado]
      exact hH.released_adopted q ((hrel q hq).1 hm) hq
    · rw [hado]; exact hH.adopted_ne
    · intro q hq
      rw [hado] at hq
      rw [hlog, hrel q (hH.adopted_ne q hq)]
      simpa [Heap.holds, hobjs] using hH.accounted q hq
  | some oa =>
    obtain ⟨ka, ⟨p, f⟩⟩ := oa
    have hobjs : ∀ x, (MovedPtr.Release H a).1.objs x =
        if x = a then some (ka, ⟨NULL, DestroyFn.DoNothing⟩) else H.objs x := by
      intro x; simp [MovedPtr.Release, SmartPtrImpl.Release, ha, Function.update_apply]
    have hlog : (MovedPtr.Release H a).1.destroyLog = H.destroyLog := by
      simp [MovedPtr.Release, SmartPtrImpl.Release, ha]
    have hrel : (MovedPtr.Release H a).1.released = H.released ++ [p] := by
      simp [MovedPtr.Release, SmartPtrImpl.Release, ha]
    have hado : (MovedPtr.Release H a).1.adopted = H.adopted := by
      simp [MovedPtr.Release, SmartPtrImpl.Release, ha]
    have hsub : ∀ x k q g, (MovedPtr.Release H a).1.objs x = some (k, ⟨q, g⟩) → q ≠ NULL →
        x ≠ a ∧ H.objs x = some (k, ⟨q, g⟩) := by
      intro x k q g hx hq
      rw [hobjs] at hx
      by_cases hxa : x = a
      · simp only [hxa, if_true, Option.some.injEq, Prod.mk.injEq, SmartPtrImpl.mk.injEq] at hx
        exact absurd hx.2.1.symm hq
      · exact ⟨hxa, by simpa [hxa] using hx⟩
    constructor
    · intro x y k1 k2 q f1 f2 hx hy hq
      exact hH.unique x y k1 k2 q f1 f2 (hsub _ _ _ _ hx hq).2 (hsub _ _ _ _ hy hq).2 hq
    · intro x k q g hx hq
      obtain ⟨hxa, hx1⟩ := hsub _ _ _ _ hx hq
      obtain ⟨h1, h2, h3, h4⟩ := hH.held _ _ _ _ hx1 hq
      rw [hlog, hrel, hado]
      refine ⟨h1, h2, ?_, h4⟩
      simp only [List.mem_append, List.mem_singleton, not_or]
      refine ⟨h3, ?_⟩
      rintro rfl
      exact hxa (hH.unique _ _ _ _ q g f hx1 ha hq)
    · rw [hlog, hado]; exact hH.logged
    · intro q hq
      simp only [Heap.destroyCount, hlog]
      exact hH.once q hq
    · intro q hm hq
      rw [hrel] at hm
      rw [hado]
      rcases List.mem_append.1 hm with h | h
      · exact hH.released_adopted q h hq
      · simp only [List.mem_singleton] at h
        subst h
        exact (hH.held _ _ _ _ ha hq).2.1
    · rw [hado]; exact hH.adopted_ne
    · intro q hq
      rw [hado] at hq
      rw [hlog, hrel]
      rcases hH.accounted q hq with ⟨x, k1, g, hx⟩ | h | h
      · by_cases hxa : x = a
        · subst hxa
          rw [ha] at hx
          simp only [Option.some.injEq, Prod.mk.injEq, SmartPtrImpl.mk.injEq] at hx
          right; left
          simp [hx.2.1]
        · left
          exact ⟨x, k1, g, by rw [hobjs, if_neg hxa, hx]⟩
      · right; left
        exact List.mem_append.2 (Or.inl h)
      · exact Or.inr (Or.inr h)

/-! ### Bookkeeping lemmas for the composite member functions -/

theorem objs_construct (H : Heap) (a : Addr) (k : Kind) (i : SmartPtrImpl) (x : Addr) :
    (H.construct a k i).objs x = if x = a then some (k, i) else H.objs x := by
  simp [Heap.construct, Function.update_apply]

theorem objs_dtor_self (H : Heap) (a : Addr) : (SmartPtrImpl.dtor H a).objs a = none := by
  unfold SmartPtrImpl.dtor
  split
  · simp
  · assumption

theorem objs_dtor_other (H : Heap) (a x : Addr) (hx : x ≠ a) :
    (SmartPtrImpl.dtor H a).objs x = H.objs x := by
  unfold SmartPtrImpl.dtor
  split
  · simp [Function.update_apply, hx]
  · rfl

theorem objs_Swap_other (H : Heap) (a b x : Addr) (hxa : x ≠ a) (hxb : x ≠ b) :
    (SmartPtrImpl.Swap H a b).objs x = H.objs x := by
  unfold SmartPtrImpl.Swap
  split
  · simp [Function.update_apply, hxa, hxb]
  · rfl

theorem objs_Release_other (H : Heap) (a x : Addr) (hx : x ≠ a) :
    (MovedPtr.Release H a).1.objs x = H.objs x := by
  unfold MovedPtr.Release SmartPtrImpl.Release
  split
  · simp [Function.update_apply, hx]
  · rfl

@[simp] theorem adopted_construct (H : Heap) (a : Addr) (k : Kind) (i : SmartPtrImpl) :
    (H.construct a k i).adopted = H.adopted := rfl

@[simp] theorem adopted_adopt (H : Heap) (p : Ptr) :
    (H.adopt p).adopted = H.adopted ++ (if p = NULL then [] else [p]) := rfl

@[simp] theorem adopted_dtor (H : Heap) (a : Addr) :
    (SmartPtrImpl.dtor H a).adopted = H.adopted := by
  unfold SmartPtrImpl.dtor
  split <;> rfl

@[simp] theorem adopted_Swap (H : Heap) (a b : Addr) :
    (SmartPtrImpl.Swap H a b).adopted = H.adopted := by
  unfold SmartPtrImpl.Swap
  split <;> rfl

@[simp] theorem adopted_Release (H : Heap) (a : Addr) :
    (MovedPtr.Release H a).1.adopted = H.adopted := by
  unfold MovedPtr.Release SmartPtrImpl.Release
  split <;> rfl

@[simp] theorem destroyLog_construct (H : Heap) (a : Addr) (k : Kind) (i : SmartPtrImpl) :
    (H.construct a k i).destroyLog = H.destroyLog := rfl

@[simp] theorem released_construct (H : Heap) (a : Addr) (k : Kind) (i : SmartPtrImpl) :
    (H.construct a k i).released = H.released := rfl

@[simp] theorem destroyLog_Swap (H : Heap) (a b : Addr) :
    (SmartPtrImpl.Swap H a b).destroyLog = H.destroyLog := by
  unfold SmartPtrImpl.Swap
  split <;> rfl

@[simp] theorem released_Swap (H : Heap) (a b : Addr) :
    (SmartPtrImpl.Swap H a b).released = H.released := by
  unfold SmartPtrImpl.Swap
  split <;> rfl

@[simp] theorem released_dtor (H : Heap) (a : Addr) :
    (SmartPtrImpl.dtor H a).released = H.released := by
  unfold SmartPtrImpl.dtor
  split <;> rfl

theorem fresh_of_nodup {l : List Ptr} {p : Ptr}
    (h : (l ++ (if p = NULL then [] else [p])).Nodup) : p ≠ NULL → p ∉ l := by
  intro hp hm
  rw [if_neg hp] at h
  exact (List.nodup_append.1 h).2.2 hm (List.mem_singleton.2 rfl) 

theorem scoped_Release_eq (H : Heap) (a : Addr) : ScopedPtr.Release H a = MovedPtr.Release H a :=
  rfl

/-- The carrier round trip into a new object has the effect of the move
constructor. -/
theorem convCtor_eq_moveCtor (H : Heap) (a b : Addr) (ob : Kind × SmartPtrImpl)
    (hb : H.objs b = some ob) (hab : a ≠ b) :
    MovedPtr.convCtor H a b = MovedPtr.moveCtor H a b := by
  obtain ⟨kb, ib⟩ := ob
  have hb1 : (H.construct a Kind.MovedPtr SmartPtrImpl.ctor).objs b = some (kb, ib) := by
    rw [objs_construct, if_neg (Ne.symm hab), hb]
  have ha1 : (H.construct a Kind.MovedPtr SmartPtrImpl.ctor).objs a =
      some (Kind.MovedPtr, SmartPtrImpl.ctor) := by
    rw [objs_construct, if_pos rfl]
  simp only [MovedPtr.convCtor, MovedPtr.toRef, hb, MovedPtr.ctorRef, SmartPtrImpl.Release,
    MovedPtr.moveCtor, SmartPtrImpl.Swap, ha1, hb1]
  simp only [Heap.construct, SmartPtrImpl.ctorPtrFn, SmartPtrImpl.Get,
    SmartPtrImpl.GetDestroyFn, SmartPtrImpl.ctor]
  congr 1
  funext x
  simp only [Function.update_apply]
  by_cases hxa : x = a
  · subst hxa
    simp [hab]
  · by_cases hxb : x = b
    · simp [hxb, Ne.symm hab]
    · simp [hxa, hxb]

/-- The carrier round trip into an existing object has the effect of the move
assignment. -/
theorem convAssign_eq_moveAssign (H : Heap) (a b : Addr) (ob : Kind × SmartPtrImpl)
    (hb : H.objs b = some ob) (hbt : b ≠ Addr.temp) :
    MovedPtr.convAssign H a b = MovedPtr.moveAssign H a b := by
  have h := convCtor_eq_moveCtor H Addr.temp b ob hb (Ne.symm hbt)
  obtain ⟨kb, ib⟩ := ob
  simp only [MovedPtr.convCtor, MovedPtr.toRef, hb] at h
  simp only [MovedPtr.convAssign, MovedPtr.toRef, hb, MovedPtr.assignRef, MovedPtr.moveAssign]
  rw [h]

theorem inv_init : Heap.init.Inv := ⟨owned_init, rfl⟩

theorem isDead_iff (H : Heap) (a : Addr) : H.isDead a = true ↔ H.objs a = none := by
  simp [Heap.isDead]

/-- The tail of every member function with a local variable: swap with it,
then destroy it. -/
theorem inv_swap_dtor_temp {H1 : Heap} (h1 : H1.Owned) (a : Addr) :
    (SmartPtrImpl.dtor (SmartPtrImpl.Swap H1 a Addr.temp) Addr.temp).Inv :=
  ⟨owned_dtor (owned_Swap h1 a Addr.temp) Addr.temp, objs_dtor_self _ _⟩

theorem owned_moveCtor {H : Heap} (hH : H.Owned) (a b : Addr) (ha : H.objs a = none) :
    (MovedPtr.moveCtor H a b).Owned :=
  owned_Swap (owned_construct_ctor hH a Kind.MovedPtr ha) a b

theorem inv_step {H : Heap} (hH : H.Inv) (op : SmartOp)
    (hnd : (SmartOp.step H op).adopted.Nodup) : (SmartOp.step H op).Inv := by
  obtain ⟨hO, hT⟩ := hH
  have hne : ∀ n : Nat, Addr.temp ≠ Addr.obj n := fun n h => by cases h
  cases op with
  | scopedCtor a =>
    simp only [SmartOp.step] at hnd ⊢
    split
    · rename_i hg
      exact ⟨owned_construct_ctor hO _ _ ((isDead_iff _ _).1 hg),
        by rw [ScopedPtr.ctor, objs_construct, if_neg (hne a), hT]⟩
    · exact ⟨hO, hT⟩
  | scopedCtorPtr a p =>
    simp only [SmartOp.step] at hnd ⊢
    split
    · rename_i hg
      rw [if_pos hg] at hnd
      exact ⟨owned_ctorPtr hO _ _ p ((isDead_iff _ _).1 hg) (fresh_of_nodup hnd),
        by rw [ScopedPtr.ctorPtr, objs_construct, if_neg (hne a)]; exact hT⟩
    · exact ⟨hO, hT⟩
  | scopedDtor a =>
    simp only [SmartOp.step] at hnd ⊢
    split
    · exact ⟨owned_dtor hO _, by rw [ScopedPtr.dtor, objs_dtor_other _ _ _ (hne a), hT]⟩
    · exact ⟨hO, hT⟩
  | scopedSwap a b =>
    simp only [SmartOp.step] at hnd ⊢
    split
    · exact ⟨owned_Swap hO _ _, by
        rw [ScopedPtr.Swap, SmartPtrImpl.swap, objs_Swap_other _ _ _ _ (hne a) (hne b), hT]⟩
    · exact ⟨hO, hT⟩
  | scopedReset a =>
    simp only [SmartOp.step] at hnd ⊢
    split
    · exact inv_swap_dtor_temp (owned_construct_ctor hO _ Kind.ScopedPtr hT) _
    · exact ⟨hO, hT⟩
  | scopedResetPtr a p =>
    simp only [SmartOp.step] at hnd ⊢
    split
    · rename_i hg
      rw [if_pos hg] at hnd
      have hnd1 : (H.adopted ++ (if p = NULL then [] else [p])).Nodup := by
        simpa [ScopedPtr.ResetPtr, ScopedPtr.dtor, ScopedPtr.Swap, SmartPtrImpl.swap,
          ScopedPtr.ctorPtr] using hnd
      exact inv_swap_dtor_temp (owned_ctorPtr hO _ Kind.ScopedPtr p hT (fresh_of_nodup hnd1)) _
    · exact ⟨hO, hT⟩
  | scopedRelease a =>
    simp only [SmartOp.step] at hnd ⊢
    split
    · exact ⟨owned_Release hO _, by
        rw [scoped_Release_eq, objs_Release_other _ _ _ (hne a), hT]⟩
    · exact ⟨hO, hT⟩
  | movedCtor a =>
    simp only [SmartOp.step] at hnd ⊢
    split
    · rename_i hg
      exact ⟨owned_construct_ctor hO _ _ ((isDead_iff _ _).1 hg),
        by rw [MovedPtr.ctor, objs_construct, if_neg (hne a), hT]⟩
    · exact ⟨hO, hT⟩
  | movedCtorPtr a p =>
    simp only [SmartOp.step] at hnd ⊢
    split
    · rename_i hg
      rw [if_pos hg] at hnd
      exact ⟨owned_ctorPtr hO _ _ p ((isDead_iff _ _).1 hg) (fresh_of_nodup hnd),
        by rw [MovedPtr.ctorPtr, objs_construct, if_neg (hne a)]; exact hT⟩
    · exact ⟨hO, hT⟩
  | movedMoveCtor a b =>
    simp only [SmartOp.step] at hnd ⊢
    split
    · rename_i hg
      rw [Bool.and_eq_true] at hg
      exact ⟨owned_moveCtor hO _ _ ((isDead_iff _ _).1 hg.1), by
        rw [MovedPtr.moveCtor, objs_Swap_other _ _ _ _ (hne a) (hne b), objs_construct,
          if_neg (hne a), hT]⟩
    · exact ⟨hO, hT⟩
  | movedDtor a =>
    simp only [SmartOp.step] at hnd ⊢
    split
    · exact ⟨owned_dtor hO _, by rw [MovedPtr.dtor, objs_dtor_other _ _ _ (hne a), hT]⟩
    · exact ⟨hO, hT⟩
  | movedAssign a b =>
    simp only [SmartOp.step] at hnd ⊢
    split
    · exact inv_swap_dtor_temp (owned_moveCtor hO _ _ hT) _
    · exact ⟨hO, hT⟩
  | movedSwap a b =>
    simp only [SmartOp.step] at hnd ⊢
    split
    · exact ⟨owned_Swap hO _ _, by
        rw [MovedPtr.Swap, SmartPtrImpl.swap, objs_Swap_other _ _ _ _ (hne a) (hne b), hT]⟩
    · exact ⟨hO, hT⟩
  | movedReset a =>
    simp only [SmartOp.step] at hnd ⊢
    split
    · exact inv_swap_dtor_temp (owned_construct_ctor hO _ Kind.MovedPtr hT) _
    · exact ⟨hO, hT⟩
  | movedResetPtr a p =>
    simp only [SmartOp.step] at hnd ⊢
    split
    · rename_i hg
      rw [if_pos hg] at hnd
      have hnd1 : (H.adopted ++ (if p = NULL then [] else [p])).Nodup := by
        simpa [MovedPtr.ResetPtr, MovedPtr.dtor, MovedPtr.Swap, SmartPtrImpl.swap,
          MovedPtr.ctorPtr] using hnd
      exact inv_swap_dtor_temp (owned_ctorPtr hO _ Kind.MovedPtr p hT (fresh_of_nodup hnd1)) _
    · exact ⟨hO, hT⟩
  | movedRelease a =>
    simp only [SmartOp.step] at hnd ⊢
    split
    · exact ⟨owned_Release hO _, by rw [objs_Release_other _ _ _ (hne a), hT]⟩
    · exact ⟨hO, hT⟩
  | movedConvCtor a b =>
    simp only [SmartOp.step] at hnd ⊢
    split
    · rename_i hg
      rw [Bool.and_eq_true] at hg
      have ha : H.objs (Addr.obj a) = none := (isDead_iff _ _).1 hg.1
      have hb : ∃ ob, H.objs (Addr.obj b) = some ob := by
        have := hg.2
        unfold Heap.isLive at this
        split at this
        · exact ⟨_, by assumption⟩
        · cases this
      obtain ⟨ob, hb⟩ := hb
      have hab : Addr.obj a ≠ Addr.obj b := by
        rintro h
        rw [h, hb] at ha
        cases ha
      rw [convCtor_eq_moveCtor H _ _ ob hb hab]
      exact ⟨owned_moveCtor hO _ _ ha, by
        rw [MovedPtr.moveCtor, objs_Swap_other _ _ _ _ (hne a) (hne b), objs_construct,
          if_neg (hne a), hT]⟩
    · exact ⟨hO, hT⟩
  | movedConvAssign a b =>
    simp only [SmartOp.step] at hnd ⊢
    split
    · rename_i hg
      rw [Bool.and_eq_true] at hg
      have hb : ∃ ob, H.objs (Addr.obj b) = some ob := by
        have := hg.2
        unfold Heap.isLive at this
        split at this
        · exact ⟨_, by assumption⟩
        · cases this
      obtain ⟨ob, hb⟩ := hb
      rw [convAssign_eq_moveAssign H _ _ ob hb (fun h => hne b h.symm)]
      exact inv_swap_dtor_temp (owned_moveCtor hO _ _ hT) _
    · exact ⟨hO, hT⟩

theorem isLive_some {H : Heap} {a : Addr} {k : Kind} (h : H.isLive a k = true) :
    ∃ ob, H.objs a = some ob := by
  unfold Heap.isLive at h
  split at h
  · exact ⟨_, by assumption⟩
  · cases h

theorem adopted_convCtor (H : Heap) (a b : Addr) :
    (MovedPtr.convCtor H a b).adopted = H.adopted := by
  unfold MovedPtr.convCtor MovedPtr.toRef SmartPtrImpl.Release
  cases H.objs b <;> rfl

theorem adopted_convAssign (H : Heap) (a b : Addr) :
    (MovedPtr.convAssign H a b).adopted = H.adopted := by
  unfold MovedPtr.convAssign MovedPtr.toRef SmartPtrImpl.Release
  cases H.objs b with
  | none => rfl
  | some ob =>
    simp [MovedPtr.assignRef, MovedPtr.dtor, MovedPtr.Swap, SmartPtrImpl.swap, MovedPtr.ctorRef]

theorem adopted_step_sublist (H : Heap) (op : SmartOp) :
    H.adopted.Sublist (SmartOp.step H op).adopted := by
  cases op <;> simp only [SmartOp.step] <;> split <;>
    simp [ScopedPtr.ctor, ScopedPtr.ctorPtr, ScopedPtr.dtor, ScopedPtr.Swap, ScopedPtr.Reset,
      ScopedPtr.ResetPtr, scoped_Release_eq, MovedPtr.ctor, MovedPtr.ctorPtr, MovedPtr.dtor,
      MovedPtr.Swap, MovedPtr.Reset, MovedPtr.ResetPtr, MovedPtr.moveCtor, MovedPtr.moveAssign,
      SmartPtrImpl.swap, adopted_convCtor, adopted_convAssign]

theorem adopted_run_sublist (ops : List SmartOp) (H : Heap) :
    H.adopted.Sublist (SmartOp.run H ops).adopted := by
  induction ops generalizing H with
  | nil => exact List.Sublist.refl _
  | cons op ops ih => exact (adopted_step_sublist H op).trans (ih (SmartOp.step H op))

theorem run_append (H : Heap) (l1 l2 : List SmartOp) :
    SmartOp.run H (l1 ++ l2) = SmartOp.run (SmartOp.run H l1) l2 := by
  simp [SmartOp.run, List.foldl_append]

theorem inv_run (ops : List SmartOp) {H : Heap} (hH : H.Inv)
    (hnd : (SmartOp.run H ops).adopted.Nodup) : (SmartOp.run H ops).Inv := by
  induction ops generalizing H with
  | nil => exact hH
  | cons op ops ih =>
    have h1 : (SmartOp.step H op).adopted.Nodup :=
      (adopted_run_sublist ops (SmartOp.step H op)).nodup hnd
    exact ih (inv_step hH op h1) hnd

theorem inv_run_take (ops : List SmartOp) (n : Nat) {H : Heap} (hH : H.Inv)
    (hnd : (SmartOp.run H ops).adopted.Nodup) : (SmartOp.run H (ops.take n)).Inv := by
  apply inv_run _ hH
  have h := adopted_run_sublist (ops.drop n) (SmartOp.run H (ops.take n))
  rw [← run_append, List.take_append_drop] at h
  exact h.nodup hnd

/-! ## Claims on `MovedPtr` and `ScopedPtr` -/

/-- What the move constructor does to two different objects, the origin being
live: the new object takes the cell of the origin, the origin is left with the
cell of a default-constructed object, and no destroy function is called. -/
theorem moveCtor_spec (H : Heap) (a b : Addr) (ka : Kind) (ia : SmartPtrImpl)
    (ha : H.objs a = some (ka, ia)) (hab : a ≠ b) :
    (MovedPtr.moveCtor H b a).objs a = some (ka, ⟨NULL, DestroyFn.DoNothing⟩) ∧
    (MovedPtr.moveCtor H b a).objs b = some (Kind.MovedPtr, ia) ∧
    (∀ x, x ≠ a → x ≠ b → (MovedPtr.moveCtor H b a).objs x = H.objs x) ∧
    (MovedPtr.moveCtor H b a).destroyLog = H.destroyLog ∧
    (MovedPtr.moveCtor H b a).released = H.released ∧
    (MovedPtr.moveCtor H b a).adopted = H.adopted := by
  have ha1 : (H.construct b Kind.MovedPtr SmartPtrImpl.ctor).objs a = some (ka, ia) := by
    rw [objs_construct, if_neg hab, ha]
  have hb1 : (H.construct b Kind.MovedPtr SmartPtrImpl.ctor).objs b =
      some (Kind.MovedPtr, SmartPtrImpl.ctor) := by
    rw [objs_construct, if_pos rfl]
  refine ⟨?_, ?_, ?_, ?_, ?_, ?_⟩
  · rw [MovedPtr.moveCtor, objs_Swap _ _ _ _ _ _ _ hb1 ha1, if_pos rfl]
    rfl
  · rw [MovedPtr.moveCtor, objs_Swap _ _ _ _ _ _ _ hb1 ha1, if_neg (Ne.symm hab), if_pos rfl]
  · intro x hxa hxb
    rw [MovedPtr.moveCtor, objs_Swap _ _ _ _ _ _ _ hb1 ha1, if_neg hxa, if_neg hxb,
      objs_construct, if_neg hxb]
  · simp [MovedPtr.moveCtor]
  · simp [MovedPtr.moveCtor]
  · simp [MovedPtr.moveCtor]

/-- What the move assignment does to two different live objects of the
program: the target takes the cell of the origin, the origin is left empty,
and the destroy function the target had is called once, on the pointer the
target had. -/
theorem moveAssign_spec (H : Heap) (a b : Nat) (ka kb : Kind) (ia ib : SmartPtrImpl)
    (ha : H.objs (Addr.obj a) = some (ka, ia)) (hb : H.objs (Addr.obj b) = some (kb, ib))
    (hab : a ≠ b) :
    (MovedPtr.moveAssign H (Addr.obj b) (Addr.obj a)).objs (Addr.obj a) =
      some (ka, ⟨NULL, DestroyFn.DoNothing⟩) ∧
    (MovedPtr.moveAssign H (Addr.obj b) (Addr.obj a)).objs (Addr.obj b) = some (kb, ia) ∧
    (MovedPtr.moveAssign H (Addr.obj b) (Addr.obj a)).destroyLog =
      H.destroyLog ++ [(ib.mDestroyFn, ib.mPointer)] ∧
    (MovedPtr.moveAssign H (Addr.obj b) (Addr.obj a)).released = H.released ∧
    (MovedPtr.moveAssign H (Addr.obj b) (Addr.obj a)).adopted = H.adopted := by
  have hat : Addr.obj a ≠ Addr.temp := fun h => by cases h
  have hbt : Addr.obj b ≠ Addr.temp := fun h => by cases h
  have hab1 : Addr.obj a ≠ Addr.obj b := fun h => hab (by cases h; rfl)
  obtain ⟨h1, h2, h3, h4, h5, h6⟩ := moveCtor_spec H (Addr.obj a) Addr.temp ka ia ha hat
  have hb2 : (MovedPtr.moveCtor H Addr.temp (Addr.obj a)).objs (Addr.obj b) = some (kb, ib) := by
    rw [h3 _ (Ne.symm hab1) hbt, hb]
  have hsw := objs_Swap _ _ _ _ _ _ _ hb2 h2
  have hswlog : (SmartPtrImpl.Swap (MovedPtr.moveCtor H Addr.temp (Addr.obj a)) (Addr.obj b)
      Addr.temp).destroyLog = H.destroyLog := by
    simp [h4]
  have hswrel : (SmartPtrImpl.Swap (MovedPtr.moveCtor H Addr.temp (Addr.obj a)) (Addr.obj b)
      Addr.temp).released = H.released := by
    simp [h5]
  have htemp : (SmartPtrImpl.Swap (MovedPtr.moveCtor H Addr.temp (Addr.obj a)) (Addr.obj b)
      Addr.temp).objs Addr.temp = some (Kind.MovedPtr, ib) := by
    rw [hsw, if_pos rfl]
  refine ⟨?_, ?_, ?_, ?_, ?_⟩
  · show (SmartPtrImpl.dtor (SmartPtrImpl.Swap (MovedPtr.moveCtor H Addr.temp (Addr.obj a))
      (Addr.obj b) Addr.temp) Addr.temp).objs (Addr.obj a) = _
    rw [objs_dtor_other _ _ _ hat, hsw, if_neg hat, if_neg hab1, h1]
  · show (SmartPtrImpl.dtor (SmartPtrImpl.Swap (MovedPtr.moveCtor H Addr.temp (Addr.obj a))
      (Addr.obj b) Addr.temp) Addr.temp).objs (Addr.obj b) = _
    rw [objs_dtor_other _ _ _ hbt, hsw, if_neg hbt, if_pos rfl]
  · show (SmartPtrImpl.dtor (SmartPtrImpl.Swap (MovedPtr.moveCtor H Addr.temp (Addr.obj a))
      (Addr.obj b) Addr.temp) Addr.temp).destroyLog = _
    simp only [SmartPtrImpl.dtor, htemp, hswlog]
  · show (SmartPtrImpl.dtor (SmartPtrImpl.Swap (MovedPtr.moveCtor H Addr.temp (Addr.obj a))
      (Addr.obj b) Addr.temp) Addr.temp).released = _
    simp [h5]
  · show (SmartPtrImpl.dtor (SmartPtrImpl.Swap (MovedPtr.moveCtor H Addr.temp (Addr.obj a))
      (Addr.obj b) Addr.temp) Addr.temp).adopted = _
    simp [h6]

/-- In a state whose ownership is in order, two different live objects hold
different pointers, unless both hold the null pointer. -/
theorem owned_distinct {H : Heap} (hH : H.Owned) (a b : Addr) (ka kb : Kind) (p q : Ptr)
    (d dq : DestroyFn) (ha : H.objs a = some (ka, ⟨p, d⟩))
    (hb : H.objs b = some (kb, ⟨q, dq⟩)) (hab : a ≠ b) (hn : p ≠ NULL ∨ q ≠ NULL) :
    q ≠ p := by
  intro h
  subst h
  have hq : q ≠ NULL := by
    rcases hn with h1 | h1 <;> exact h1
  exact hab (hH.unique a b ka kb q d dq ha hb hq)

/-- In a state whose ownership is in order, a held resource has the destroy
function `StaticDestroy` and no destroy function has been called on it. -/
theorem owned_held_fresh {H : Heap} (hH : H.Owned) (a : Addr) (k : Kind) (p : Ptr)
    (f : DestroyFn) (ha : H.objs a = some (k, ⟨p, f⟩)) (hp : p ≠ NULL) :
    f = DestroyFn.StaticDestroy ∧ H.destroyCount p = 0 := by
  obtain ⟨h1, -, -, h4⟩ := hH.held a k p f ha hp
  exact ⟨h1, List.count_eq_zero_of_not_mem h4⟩

/-- One more destroy call, on another pointer, leaves the count of a pointer as
it was. -/
theorem destroyCount_append_ne (H1 H : Heap) (f : DestroyFn) (p q : Ptr)
    (hlog : H1.destroyLog = H.destroyLog ++ [(f, q)]) (hqp : q ≠ p) :
    H1.destroyCount p = H.destroyCount p := by
  simp [Heap.destroyCount, hlog, List.count_singleton, hqp]

/-- One more destroy call, on the pointer itself, raises its count by one. -/
theorem destroyCount_append_self (H1 H : Heap) (f : DestroyFn) (q : Ptr)
    (hlog : H1.destroyLog = H.destroyLog ++ [(f, q)]) :
    H1.destroyCount q = H.destroyCount q + 1 := by
  simp [Heap.destroyCount, hlog, List.count_singleton]

/-- C4. Transfer on copy: in a state whose ownership is in order, let a and b be
two different objects of the program, a being a MovedPtr that holds the pair
(p, d), p possibly null. After the move construction b(a) the source a is
empty (Get() is null, the validity check is false), b holds exactly (p, d) and
no destroy function has been called. After the move assignment b = a, where b
held (q, dq), the source a is empty, b holds exactly (p, d), and the only
destroy call made is dq on q, which is not p unless both are the null pointer.
The resource p itself is not destroyed: when p is not null, no destroy
function has been called on it, neither by the operation nor before. -/
theorem transfer_on_copy (H : Heap) (hH : H.Owned) (a b : Nat) (p : Ptr) (d : DestroyFn)
    (ha : H.objs (Addr.obj a) = some (Kind.MovedPtr, ⟨p, d⟩)) (hab : a ≠ b) :
    ((MovedPtr.moveCtor H (Addr.obj b) (Addr.obj a)).Get (Addr.obj a) = some NULL ∧
      (MovedPtr.moveCtor H (Addr.obj b) (Addr.obj a)).valid (Addr.obj a) = some false ∧
      (MovedPtr.moveCtor H (Addr.obj b) (Addr.obj a)).objs (Addr.obj b) =
        some (Kind.MovedPtr, ⟨p, d⟩) ∧
      (MovedPtr.moveCtor H (Addr.obj b) (Addr.obj a)).destroyLog = H.destroyLog ∧
      (p ≠ NULL → (MovedPtr.moveCtor H (Addr.obj b) (Addr.obj a)).destroyCount p = 0)) ∧
    (∀ (q : Ptr) (dq : DestroyFn), H.objs (Addr.obj b) = some (Kind.MovedPtr, ⟨q, dq⟩) →
      (MovedPtr.moveAssign H (Addr.obj b) (Addr.obj a)).Get (Addr.obj a) = some NULL ∧
      (MovedPtr.moveAssign H (Addr.obj b) (Addr.obj a)).valid (Addr.obj a) = some false ∧
      (MovedPtr.moveAssign H (Addr.obj b) (Addr.obj a)).objs (Addr.obj b) =
        some (Kind.MovedPtr, ⟨p, d⟩) ∧
      (MovedPtr.moveAssign H (Addr.obj b) (Addr.obj a)).destroyLog =
        H.destroyLog ++ [(dq, q)] ∧
      (p ≠ NULL ∨ q ≠ NULL →
        q ≠ p ∧
        (MovedPtr.moveAssign H (Addr.obj b) (Addr.obj a)).destroyCount p =
          H.destroyCount p) ∧
      (p ≠ NULL → (MovedPtr.moveAssign H (Addr.obj b) (Addr.obj a)).destroyCount p = 0)) := by
  have hab1 : Addr.obj a ≠ Addr.obj b := fun h => hab (by cases h; rfl)
  constructor
  · obtain ⟨h1, h2, -, h4, -, -⟩ := moveCtor_spec H _ _ _ _ ha hab1
    refine ⟨?_, ?_, h2, h4, ?_⟩
    · simp [Heap.Get, h1, SmartPtrImpl.Get]
    · simp [Heap.valid, h1, SmartPtrImpl.IsNull]
    · intro hp
      have h0 := (owned_held_fresh hH _ _ _ _ ha hp).2
      simp only [Heap.destroyCount] at h0 ⊢
      rw [h4]
      exact h0
  · intro q dq hb
    obtain ⟨h1, h2, h3, -, -⟩ := moveAssign_spec H a b _ _ _ _ ha hb hab
    have hne : p ≠ NULL ∨ q ≠ NULL → q ≠ p :=
      owned_distinct hH _ _ _ _ _ _ _ _ ha hb hab1
    refine ⟨?_, ?_, h2, h3, ?_, ?_⟩
    · simp [Heap.Get, h1, SmartPtrImpl.Get]
    · simp [Heap.valid, h1, SmartPtrImpl.IsNull]
    · intro hn
      exact ⟨hne hn, destroyCount_append_ne _ H dq p q h3 (hne hn)⟩
    · intro hp
      rw [destroyCount_append_ne _ H dq p q h3 (hne (Or.inl hp))]
      exact (owned_held_fresh hH _ _ _ _ ha hp).2

/-- Witness of C4: object 0 holds resource 7; object 2 is constructed from it,
and object 1, holding resource 8, is assigned from it. -/
theorem transfer_on_copy_witness :
    (MovedPtr.moveCtor (SmartOp.run Heap.init [.movedCtorPtr 0 7, .movedCtorPtr 1 8])
        (Addr.obj 2) (Addr.obj 0)).objs (Addr.obj 2) =
      some (Kind.MovedPtr, ⟨7, DestroyFn.StaticDestroy⟩) ∧
    (MovedPtr.moveAssign (SmartOp.run Heap.init [.movedCtorPtr 0 7, .movedCtorPtr 1 8])
        (Addr.obj 1) (Addr.obj 0)).destroyLog =
      (SmartOp.run Heap.init [.movedCtorPtr 0 7, .movedCtorPtr 1 8]).destroyLog ++
        [(DestroyFn.StaticDestroy, 8)] ∧
    (MovedPtr.moveAssign (SmartOp.run Heap.init [.movedCtorPtr 0 7, .movedCtorPtr 1 8])
        (Addr.obj 1) (Addr.obj 0)).destroyCount 7 = 0 :=
  ⟨(transfer_on_copy (SmartOp.run Heap.init [.movedCtorPtr 0 7, .movedCtorPtr 1 8])
      (inv_run [.movedCtorPtr 0 7, .movedCtorPtr 1 8] inv_init (by decide)).1 0 2 7
      DestroyFn.StaticDestroy (by decide) (by decide)).1.2.2.1,
    ((transfer_on_copy (SmartOp.run Heap.init [.movedCtorPtr 0 7, .movedCtorPtr 1 8])
      (inv_run [.movedCtorPtr 0 7, .movedCtorPtr 1 8] inv_init (by decide)).1 0 1 7
      DestroyFn.StaticDestroy (by decide) (by decide)).2 8 DestroyFn.StaticDestroy
      (by decide)).2.2.2.1,
    ((transfer_on_copy (SmartOp.run Heap.init [.movedCtorPtr 0 7, .movedCtorPtr 1 8])
      (inv_run [.movedCtorPtr 0 7, .movedCtorPtr 1 8] inv_init (by decide)).1 0 1 7
      DestroyFn.StaticDestroy (by decide) (by decide)).2 8 DestroyFn.StaticDestroy
      (by decide)).2.2.2.2.2 (by decide)⟩

/-- C5. Exactly-once destruction: after any finite sequence of ScopedPtr and
MovedPtr operations in which every non-null raw pointer is adopted at most
once, no destroy function has been called more than once on any resource; and
once every object has been destroyed, StaticDestroy has been called exactly
once on every adopted resource that Release() did not hand back. -/
theorem exactly_once_destruction (ops : List SmartOp)
    (hadopt : (SmartOp.run Heap.init ops).adopted.Nodup) :
    (∀ p : Ptr, p ≠ NULL → (SmartOp.run Heap.init ops).destroyCount p ≤ 1) ∧
    ((∀ a : Addr, (SmartOp.run Heap.init ops).objs a = none) →
      ∀ p : Ptr, p ∈ (SmartOp.run Heap.init ops).adopted →
        p ∉ (SmartOp.run Heap.init ops).released →
          (SmartOp.run Heap.init ops).destroyCount p = 1 ∧
          (DestroyFn.StaticDestroy, p) ∈ (SmartOp.run Heap.init ops).destroyLog) := by
  obtain ⟨hO, -⟩ := inv_run ops inv_init hadopt
  refine ⟨hO.once, ?_⟩
  intro hdead p hp hrel
  have hne := hO.adopted_ne p hp
  rcases hO.accounted p hp with ⟨a, k, f, ha⟩ | h | h
  · rw [hdead a] at ha
    cases ha
  · exact absurd h hrel
  · have h1 : 0 < (SmartOp.run Heap.init ops).destroyCount p := List.count_pos_iff.2 h
    have h2 := hO.once p hne
    obtain ⟨⟨f, q⟩, hm, rfl⟩ := List.mem_map.1 h
    have h3 := (hO.logged f q hm hne).1
    subst h3
    exact ⟨by omega, hm⟩

/-- Witness of C5: three resources; one is moved, reset away, one is released,
one is destroyed with its owner. -/
theorem exactly_once_destruction_witness :
    (SmartOp.run Heap.init
      [.movedCtorPtr 0 5, .movedMoveCtor 1 0, .scopedCtorPtr 2 6, .scopedResetPtr 2 7,
        .movedConvAssign 0 1, .scopedRelease 2, .movedDtor 0, .movedDtor 1,
        .scopedDtor 2]).destroyCount 5 = 1 ∧
    (SmartOp.run Heap.init
      [.movedCtorPtr 0 5, .movedMoveCtor 1 0, .scopedCtorPtr 2 6, .scopedResetPtr 2 7,
        .movedConvAssign 0 1, .scopedRelease 2, .movedDtor 0, .movedDtor 1,
        .scopedDtor 2]).destroyCount 7 ≤ 1 :=
  ⟨((exactly_once_destruction
      [.movedCtorPtr 0 5, .movedMoveCtor 1 0, .scopedCtorPtr 2 6, .scopedResetPtr 2 7,
        .movedConvAssign 0 1, .scopedRelease 2, .movedDtor 0, .movedDtor 1,
        .scopedDtor 2] (by decide)).2
      (fun a => by
        cases a with
        | temp => rfl
        | obj n => rcases n with _ | _ | _ | n <;> rfl) 5 (by decide) (by decide)).1,
    (exactly_once_destruction
      [.movedCtorPtr 0 5, .movedMoveCtor 1 0, .scopedCtorPtr 2 6, .scopedResetPtr 2 7,
        .movedConvAssign 0 1, .scopedRelease 2, .movedDtor 0, .movedDtor 1,
        .scopedDtor 2] (by decide)).1 7 (by decide)⟩

/-- C6. Uniqueness of ownership: at every point of a finite sequence of
MovedPtr (and ScopedPtr) operations in which every non-null raw pointer is
adopted at most once, two different live MovedPtr objects never hold the same
non-null pointer. -/
theorem unique_ownership (ops : List SmartOp)
    (hadopt : (SmartOp.run Heap.init ops).adopted.Nodup) (n : Nat) (a b : Nat)
    (ia ib : SmartPtrImpl)
    (ha : (SmartOp.run Heap.init (ops.take n)).objs (Addr.obj a) = some (Kind.MovedPtr, ia))
    (hb : (SmartOp.run Heap.init (ops.take n)).objs (Addr.obj b) = some (Kind.MovedPtr, ib))
    (hab : a ≠ b) :
    ia.mPointer ≠ ib.mPointer ∨ ia.mPointer = NULL := by
  obtain ⟨hO, -⟩ := inv_run_take ops n inv_init hadopt
  by_cases hp : ia.mPointer = NULL
  · exact Or.inr hp
  · left
    intro heq
    obtain ⟨pa, fa⟩ := ia
    obtain ⟨pb, fb⟩ := ib
    simp only at heq hp
    subst heq
    have := hO.unique _ _ _ _ pa fa fb ha hb hp
    exact hab (by cases this; rfl)

/-- Witness of C6: two owners after a construction, a move and a swap. -/
theorem unique_ownership_witness : (6 : Ptr) ≠ 5 ∨ (6 : Ptr) = NULL :=
  unique_ownership
    [.movedCtorPtr 0 5, .movedCtorPtr 1 6, .movedMoveCtor 2 0, .movedSwap 2 1, .movedDtor 0]
    (by decide) 4 2 1 ⟨6, DestroyFn.StaticDestroy⟩ ⟨5, DestroyFn.StaticDestroy⟩
    (by decide) (by decide) (by decide)

/-! ## The resource manager: lookup -/

theorem equivalent_iff (a b : ResourceKey) : Equivalent a b = true ↔ a.mKey = b.mKey := by
  simp only [Equivalent, ResourceKey.lt, Bool.and_eq_true, Bool.not_eq_true',
    decide_eq_false_iff_not, not_lt]
  constructor
  · rintro ⟨h1, h2⟩
    exact le_antisymm h2 h1
  · intro h
    rw [h]
    exact ⟨le_refl _, le_refl _⟩

theorem mem_insertEntry (e x : Entry) (l : List Entry) :
    x ∈ insertEntry e l ↔ x = e ∨ x ∈ l := by
  induction l with
  | nil => simp [insertEntry]
  | cons y ys ih =>
    unfold insertEntry
    split
    · simp
    · simp only [List.mem_cons, ih]
      tauto

theorem find_insertEntry (p : Entry → Bool) (e : Entry) (l : List Entry) (he : p e = true)
    (hl : ∀ x ∈ l, p x = false) : (insertEntry e l).find? p = some e := by
  induction l with
  | nil => simp [insertEntry, he]
  | cons y ys ih =>
    have hy : p y = false := hl y (List.mem_cons_self _ _)
    unfold insertEntry
    split
    · simp [List.find?, he]
    · rw [List.find?_cons, hy]
      exact ih (fun x hx => hl x (List.mem_cons_of_mem _ hx))

theorem find_congr (w : World) (d1 d2 : ResourceKey) (h : Equivalent d1 d2 = true) :
    w.find d2 = w.find d1 := by
  have hk := (equivalent_iff d1 d2).1 h
  unfold World.find
  congr 1
  funext e
  have h1 := equivalent_iff e.key d1
  have h2 := equivalent_iff e.key d2
  rw [Bool.eq_iff_iff, h1, h2, hk]

theorem find_none_iff (w : World) (d : ResourceKey) :
    w.Contains d = false ↔ ∀ e ∈ w.map, Equivalent e.key d = false := by
  unfold World.Contains World.find
  cases h : w.map.find? (fun e => Equivalent e.key d) with
  | none =>
    simp only [Option.isSome_none, true_iff]
    intro e he
    have := List.find?_eq_none.1 h e he
    simpa using this
  | some e =>
    simp only [Option.isSome_some, Bool.true_eq_false, false_iff]
    intro hc
    have h1 := List.find?_some h
    have h2 := hc e (List.mem_of_find?_eq_some h)
    simp only at h1
    rw [h1] at h2
    cases h2

theorem fromSlot_fresh (w : World) (h : HandleId) (s : SlotId) (hf : w.handles h = none) :
    ResourcePtr.fromSlot w h s = (w.setSlot h (some s)).slotIncRef s h := by
  simp [ResourcePtr.fromSlot, hf, ResourcePtr.IncRef, handles_setSlot_same]

theorem acquire_found (w : World) (h : HandleId) (d : ResourceKey) (e : Entry)
    (he : w.find d = some e) :
    ResourceManager.Acquire w h d = (ResourcePtr.fromSlot w h e.slot, Except.ok ⟨some e.slot⟩) := by
  simp [ResourceManager.Acquire, he]

theorem acquire_loaded (w : World) (h : HandleId) (d : ResourceKey) (r : Resource)
    (hn : w.Contains d = false) (hr : d.mLoader () = Except.ok r) :
    ResourceManager.Acquire w h d =
      (ResourcePtr.fromSlot ((w.logLoad d).addSlot d r) h w.nextSlot,
        Except.ok ⟨some w.nextSlot⟩) := by
  have hfind : w.find d = none := by
    simpa [World.Contains] using hn
  simp [ResourceManager.Acquire, hfind, hr, World.logLoad]

theorem acquire_failed (w : World) (h : HandleId) (d : ResourceKey) (msg : String)
    (hn : w.Contains d = false) (hr : d.mLoader () = Except.error msg) :
    ResourceManager.Acquire w h d =
      (w.logLoad d, Except.error msg) := by
  have hfind : w.find d = none := by
    simpa [World.Contains] using hn
  simp [ResourceManager.Acquire, hfind, hr]

/-! ## Claims on the resource manager -/

/-- C9. Failure rollback: when no slot with an equivalent key is in the cache and
the loader of the key fails, Acquire reports the load error to the caller, the
slot map is the one before the call, Contains for the key is false afterwards,
no handle has come to life and no registration, reference count or slot call
has changed; the loader was invoked once. -/
theorem acquire_failure_rollback (w : World) (h : HandleId) (d : ResourceKey) (msg : String)
    (hn : w.Contains d = false) (hr : d.mLoader () = Except.error msg) :
    (ResourceManager.Acquire w h d).2 = Except.error msg ∧
    (ResourceManager.Acquire w h d).1.map = w.map ∧
    (ResourceManager.Acquire w h d).1.Contains d = false ∧
    (ResourceManager.Acquire w h d).1.handles = w.handles ∧
    (ResourceManager.Acquire w h d).1.registered = w.registered ∧
    (∀ s : SlotId, (ResourceManager.Acquire w h d).1.refCount s = w.refCount s) ∧
    (ResourceManager.Acquire w h d).1.calls = w.calls ∧
    (ResourceManager.Acquire w h d).1.evicted = w.evicted ∧
    (ResourceManager.Acquire w h d).1.loads = w.loads ++ [d.mKey] := by
  rw [acquire_failed w h d msg hn hr]
  refine ⟨rfl, rfl, ?_, rfl, rfl, fun _ => rfl, rfl, rfl, rfl⟩
  exact hn

/-- Witness of C9 (scenario C): the loader of the key fails on the empty cache. -/
theorem acquire_failure_rollback_witness :
    (ResourceManager.Acquire World.init 1 missingKey).2 =
      Except.error "Failed to load resource" ∧
    (ResourceManager.Acquire World.init 1 missingKey).1.Contains missingKey = false :=
  ⟨(acquire_failure_rollback World.init 1 missingKey "Failed to load resource" rfl rfl).1,
    (acquire_failure_rollback World.init 1 missingKey "Failed to load resource" rfl rfl).2.2.1⟩

/-- C7. Dedup: let d1 and d2 be equivalent under operator<, and let the loader
of d1 succeed in case no equivalent slot is in the cache. Then Acquire(d1)
followed by Acquire(d2), the first handle being alive, returns two handles
that reference the same slot and compare equal with operator==; the loader is
invoked exactly once across both calls when no equivalent slot existed
beforehand, and not at all otherwise. -/
theorem acquire_dedup (w : World) (d1 d2 : ResourceKey) (h1 h2 : HandleId)
    (heq : Equivalent d1 d2 = true)
    (hf1 : w.handles h1 = none) (hf2 : w.handles h2 = none) (h12 : h1 ≠ h2)
    (hload : w.Contains d1 = false → ∃ r, d1.mLoader () = Except.ok r) :
    ∃ p1 p2 : ResourcePtr,
      (ResourceManager.Acquire w h1 d1).2 = Except.ok p1 ∧
      (ResourceManager.Acquire (ResourceManager.Acquire w h1 d1).1 h2 d2).2 = Except.ok p2 ∧
      (ResourceManager.Acquire (ResourceManager.Acquire w h1 d1).1 h2 d2).1.handles h1 =
        some p1 ∧
      (ResourceManager.Acquire (ResourceManager.Acquire w h1 d1).1 h2 d2).1.handles h2 =
        some p2 ∧
      p1.mSlot ≠ none ∧ p1.mSlot = p2.mSlot ∧ ResourcePtr.eq p1 p2 = true ∧
      (w.Contains d1 = false →
        (ResourceManager.Acquire (ResourceManager.Acquire w h1 d1).1 h2 d2).1.loads =
          w.loads ++ [d1.mKey]) ∧
      (w.Contains d1 = true →
        (ResourceManager.Acquire (ResourceManager.Acquire w h1 d1).1 h2 d2).1.loads =
          w.loads) := by
  have hfresh : ∀ (v : World) (s : SlotId), v.handles h1 = none → v.handles h2 = none →
      (ResourcePtr.fromSlot v h1 s).handles h2 = none ∧
      (ResourcePtr.fromSlot v h1 s).handles h1 = some ⟨some s⟩ ∧
      (ResourcePtr.fromSlot v h1 s).map = v.map ∧
      (ResourcePtr.fromSlot v h1 s).loads = v.loads := by
    intro v s hv1 hv2
    rw [fromSlot_fresh v h1 s hv1]
    refine ⟨?_, ?_, rfl, rfl⟩
    · rw [handles_slotIncRef, handles_setSlot_apply, if_neg (Ne.symm h12), hv2]
    · rw [handles_slotIncRef, handles_setSlot_same]
  have hsecond : ∀ (v : World) (s : SlotId), v.handles h2 = none →
      v.handles h1 = some ⟨some s⟩ →
      (ResourcePtr.fromSlot v h2 s).handles h1 = some ⟨some s⟩ ∧
      (ResourcePtr.fromSlot v h2 s).handles h2 = some ⟨some s⟩ ∧
      (ResourcePtr.fromSlot v h2 s).loads = v.loads := by
    intro v s hv2 hv1
    rw [fromSlot_fresh v h2 s hv2]
    refine ⟨?_, ?_, rfl⟩
    · rw [handles_slotIncRef, handles_setSlot_apply, if_neg h12, hv1]
    · rw [handles_slotIncRef, handles_setSlot_same]
  cases hc : w.Contains d1 with
  | true =>
    obtain ⟨e, he⟩ : ∃ e, w.find d1 = some e := by
      simpa [World.Contains, Option.isSome_iff_exists] using hc
    refine ⟨⟨some e.slot⟩, ⟨some e.slot⟩, ?_⟩
    rw [acquire_found w h1 d1 e he]
    obtain ⟨g1, g2, g3, g4⟩ := hfresh w e.slot hf1 hf2
    have he2 : (ResourcePtr.fromSlot w h1 e.slot).find d2 = some e := by
      have := find_congr (ResourcePtr.fromSlot w h1 e.slot) d1 d2 heq
      rw [this]
      unfold World.find at he ⊢
      rw [g3, he]
    rw [acquire_found _ h2 d2 e he2]
    obtain ⟨k1, k2, k3⟩ := hsecond _ e.slot g1 g2
    refine ⟨rfl, rfl, k1, k2, (by simp), rfl, (by simp [ResourcePtr.eq]), (fun h => by cases h),
      fun _ => ?_⟩
    rw [k3, g4]
  | false =>
    obtain ⟨r, hr⟩ := hload hc
    refine ⟨⟨some w.nextSlot⟩, ⟨some w.nextSlot⟩, ?_⟩
    rw [acquire_loaded w h1 d1 r hc hr]
    obtain ⟨g1, g2, g3, g4⟩ := hfresh ((w.logLoad d1).addSlot d1 r) w.nextSlot hf1 hf2
    have hnone := (find_none_iff w d1).1 hc
    have he2 : (ResourcePtr.fromSlot ((w.logLoad d1).addSlot d1 r) h1 w.nextSlot).find d2 =
        some ⟨d1, w.nextSlot, r⟩ := by
      unfold World.find
      rw [g3]
      apply find_insertEntry
      · exact heq
      · intro x hx
        have h1 := hnone x hx
        have h2 := equivalent_iff x.key d1
        have h3 := equivalent_iff x.key d2
        have h4 := (equivalent_iff d1 d2).1 heq
        rw [Bool.eq_false_iff, Ne, h3, ← h4, ← h2, ← Ne, ← Bool.eq_false_iff]
        exact h1
    rw [acquire_found _ h2 d2 _ he2]
    obtain ⟨k1, k2, k3⟩ := hsecond _ w.nextSlot g1 g2
    refine ⟨rfl, rfl, k1, k2, (by simp), rfl, (by simp [ResourcePtr.eq]), (fun _ => ?_),
      fun h => by cases h⟩
    rw [k3, g4]
    rfl

/-- Witness of C7 (scenario A): the same size key acquired twice on the empty
cache. -/
theorem acquire_dedup_witness :
    ∃ p1 p2 : ResourcePtr,
      (ResourceManager.Acquire World.init 1 sizeKey).2 = Except.ok p1 ∧
      (ResourceManager.Acquire (ResourceManager.Acquire World.init 1 sizeKey).1 2
        sizeKeyAgain).2 = Except.ok p2 ∧
      ResourcePtr.eq p1 p2 = true ∧
      (ResourceManager.Acquire (ResourceManager.Acquire World.init 1 sizeKey).1 2
        sizeKeyAgain).1.loads = World.init.loads ++ [sizeKey.mKey] := by
  obtain ⟨p1, p2, h1, h2, -, -, -, -, h3, h4, -⟩ :=
    acquire_dedup World.init sizeKey sizeKeyAgain 1 2
      ((equivalent_iff sizeKey sizeKeyAgain).2 rfl) rfl rfl (by decide)
      (fun _ => ⟨64, rfl⟩)
  exact ⟨p1, p2, h1, h2, h3, h4 rfl⟩

/-- The state after the only handle of a newly loaded slot has been destroyed:
the slot has left the map. -/
theorem dtor_after_acquire (w : World) (d : ResourceKey) (h : HandleId) (r : Resource)
    (hn : w.Contains d = false) (hr : d.mLoader () = Except.ok r) (hf : w.handles h = none) :
    (ResourcePtr.dtor (ResourceManager.Acquire w h d).1 h).map =
      (insertEntry ⟨d, w.nextSlot, r⟩ w.map).filter (fun e => decide (e.slot ≠ w.nextSlot)) ∧
    (ResourcePtr.dtor (ResourceManager.Acquire w h d).1 h).loads = w.loads ++ [d.mKey] ∧
    (ResourcePtr.dtor (ResourceManager.Acquire w h d).1 h).handles h = none ∧
    (ResourcePtr.dtor (ResourceManager.Acquire w h d).1 h).registered w.nextSlot = ∅ := by
  rw [acquire_loaded w h d r hn hr]
  simp only
  rw [fromSlot_fresh ((w.logLoad d).addSlot d r) h _ hf]
  have hh : (World.slotIncRef (World.setSlot ((w.logLoad d).addSlot d r) h (some w.nextSlot))
      w.nextSlot h).handles h = some ⟨some w.nextSlot⟩ := by
    rw [handles_slotIncRef, handles_setSlot_same]
  simp only [ResourcePtr.dtor, hh, ResourcePtr.DecRef]
  simp [World.slotDecRef, World.slotIncRef, World.setSlot, World.addSlot, World.logLoad]

/-- C10. Reload after eviction: for a key that is not in the cache and whose
loader succeeds, the sequence Acquire, destruction of the only handle, Acquire
invokes the loader exactly twice in total, both acquisitions return a handle,
and between them Contains for the key is false. -/
theorem reload_after_eviction (w : World) (d : ResourceKey) (h h2 : HandleId) (r : Resource)
    (hn : w.Contains d = false) (hr : d.mLoader () = Except.ok r) (hf : w.handles h = none) :
    (∃ s, (ResourceManager.Acquire w h d).2 = Except.ok ⟨some s⟩ ∧
      (ResourceManager.Acquire w h d).1.Contains d = true) ∧
    (ResourcePtr.dtor (ResourceManager.Acquire w h d).1 h).Contains d = false ∧
    (∃ s, (ResourceManager.Acquire
      (ResourcePtr.dtor (ResourceManager.Acquire w h d).1 h) h2 d).2 = Except.ok ⟨some s⟩) ∧
    (ResourceManager.Acquire
      (ResourcePtr.dtor (ResourceManager.Acquire w h d).1 h) h2 d).1.loads =
      w.loads ++ [d.mKey, d.mKey] := by
  obtain ⟨g1, g2, -, -⟩ := dtor_after_acquire w d h r hn hr hf
  have hnone := (find_none_iff w d).1 hn
  have hgone : (ResourcePtr.dtor (ResourceManager.Acquire w h d).1 h).Contains d = false := by
    rw [find_none_iff, g1]
    intro e he
    rw [List.mem_filter, mem_insertEntry] at he
    rcases he.1 with rfl | hm
    · simp at he
    · exact hnone e hm
  refine ⟨⟨w.nextSlot, ?_, ?_⟩, hgone, ⟨(ResourcePtr.dtor (ResourceManager.Acquire w h d).1 h).nextSlot, ?_⟩, ?_⟩
  · rw [acquire_loaded w h d r hn hr]
  · rw [acquire_loaded w h d r hn hr]
    simp only
    rw [fromSlot_fresh ((w.logLoad d).addSlot d r) h _ hf]
    have : (World.slotIncRef (World.setSlot ((w.logLoad d).addSlot d r) h (some w.nextSlot))
        w.nextSlot h).find d = some ⟨d, w.nextSlot, r⟩ := by
      unfold World.find
      exact find_insertEntry _ _ _ ((equivalent_iff d d).2 rfl) hnone
    simp [World.Contains, this]
  · rw [acquire_loaded _ h2 d r hgone hr]
  · rw [acquire_loaded _ h2 d r hgone hr]
    simp only
    have hl : ∀ (v : World) (s : SlotId), (ResourcePtr.fromSlot v h2 s).loads = v.loads := by
      intro v s
      unfold ResourcePtr.fromSlot ResourcePtr.IncRef
      split
      · split <;> rfl
      · rfl
    rw [hl]
    simp [g2, World.addSlot, World.logLoad]

/-- Witness of C10 (scenario B): a key acquired, dropped and acquired again on
the empty cache. -/
theorem reload_after_eviction_witness :
    (ResourcePtr.dtor (ResourceManager.Acquire World.init 1 sizeKey).1 1).Contains sizeKey =
      false ∧
    (ResourceManager.Acquire
      (ResourcePtr.dtor (ResourceManager.Acquire World.init 1 sizeKey).1 1) 2 sizeKey).1.loads =
      World.init.loads ++ [sizeKey.mKey, sizeKey.mKey] :=
  ⟨(reload_after_eviction World.init sizeKey 1 2 64 rfl rfl rfl).2.1,
    (reload_after_eviction World.init sizeKey 1 2 64 rfl rfl rfl).2.2.2⟩

/-! ## The cache membership invariant -/

theorem moves_refl (w : World) : w.Moves w :=
  ⟨id, fun _ he => Or.inl he, fun _ hx => hx⟩

theorem moves_trans {w w1 w2 : World} (h1 : w.Moves w1) (h2 : w1.Moves w2) : w.Moves w2 := by
  refine ⟨fun hc => h2.1 (h1.1 hc), ?_, fun x hx => h2.2.2 x (h1.2.2 x hx)⟩
  intro e he
  rcases h1.2.1 e he with h | h
  · exact h2.2.1 e h
  · exact Or.inr (h2.2.2 _ h)

theorem moves_setSlot (w : World) (h : HandleId) (o : Option SlotId) : w.Moves (w.setSlot h o) :=
  ⟨fun hc => ⟨hc.present_iff, hc.bound, hc.gone⟩, fun _ he => Or.inl he, fun _ hx => hx⟩

theorem moves_kill (w : World) (h : HandleId) :
    w.Moves { w with handles := Function.update w.handles h none } :=
  ⟨fun hc => ⟨hc.present_iff, hc.bound, hc.gone⟩, fun _ he => Or.inl he, fun _ hx => hx⟩

theorem moves_slotIncRef (w : World) (s : SlotId) (t : HandleId)
    (hp : ∃ e ∈ w.map, e.slot = s) : w.Moves (w.slotIncRef s t) := by
  refine ⟨fun hc => ⟨?_, hc.bound, hc.gone⟩, fun _ he => Or.inl he, fun _ hx => hx⟩
  intro k
  show (∃ e ∈ w.map, e.slot = k) ↔ _
  rw [registered_slotIncRef, Function.update_apply]
  split
  · subst_vars
    exact ⟨fun _ => ⟨t, Finset.mem_insert_self _ _⟩, fun _ => hp⟩
  · exact hc.present_iff k

theorem map_slotDecRef (w : World) (s : SlotId) (t : HandleId) :
    (w.slotDecRef s t).map =
      if (w.registered s).erase t = ∅ then w.map.filter (fun e => decide (e.slot ≠ s))
      else w.map := by
  unfold World.slotDecRef
  dsimp only
  split <;> rfl

theorem evicted_slotDecRef (w : World) (s : SlotId) (t : HandleId) :
    (w.slotDecRef s t).evicted =
      if (w.registered s).erase t = ∅ then
        w.evicted ++ (w.map.filter (fun e => decide (e.slot = s))).map
          (fun e => (e.slot, e.resource))
      else w.evicted := by
  unfold World.slotDecRef
  dsimp only
  split <;> rfl

theorem nextSlot_slotDecRef (w : World) (s : SlotId) (t : HandleId) :
    (w.slotDecRef s t).nextSlot = w.nextSlot := by
  unfold World.slotDecRef
  dsimp only
  split <;> rfl

theorem moves_slotDecRef (w : World) (s : SlotId) (t : HandleId) :
    w.Moves (w.slotDecRef s t) := by
  by_cases hreg : (w.registered s).erase t = ∅
  · refine ⟨fun hc => ⟨?_, ?_, ?_⟩, ?_, ?_⟩
    · intro k
      rw [map_slotDecRef, if_pos hreg, registered_slotDecRef, Function.update_apply]
      split
      · subst_vars
        rw [hreg]
        simp
      · rename_i hks
        rw [← hc.present_iff k]
        constructor
        · rintro ⟨e, he, rfl⟩
          exact ⟨e, (List.mem_filter.1 he).1, rfl⟩
        · rintro ⟨e, he, rfl⟩
          exact ⟨e, List.mem_filter.2 ⟨he, by simpa using hks⟩, rfl⟩
    · intro e he
      rw [map_slotDecRef, if_pos hreg] at he
      rw [nextSlot_slotDecRef]
      exact hc.bound e (List.mem_filter.1 he).1
    · intro x hx
      rw [evicted_slotDecRef, if_pos hreg] at hx
      rw [nextSlot_slotDecRef, map_slotDecRef, if_pos hreg]
      rcases List.mem_append.1 hx with h | h
      · exact ⟨(hc.gone x h).1, fun e he => (hc.gone x h).2 e (List.mem_filter.1 he).1⟩
      · obtain ⟨e0, he0, rfl⟩ := List.mem_map.1 h
        have h0 := List.mem_filter.1 he0
        refine ⟨hc.bound e0 h0.1, fun e he => ?_⟩
        have h1 := (List.mem_filter.1 he).2
        have h2 : e0.slot = s := by simpa using h0.2
        simpa [h2] using h1
    · intro e he
      rw [map_slotDecRef, if_pos hreg, evicted_slotDecRef, if_pos hreg]
      by_cases hes : e.slot = s
      · right
        apply List.mem_append.2
        right
        exact List.mem_map.2 ⟨e, List.mem_filter.2 ⟨he, by simpa using hes⟩, rfl⟩
      · left
        exact List.mem_filter.2 ⟨he, by simpa using hes⟩
    · intro x hx
      rw [evicted_slotDecRef, if_pos hreg]
      exact List.mem_append.2 (Or.inl hx)
  · refine ⟨fun hc => ⟨?_, ?_, ?_⟩, ?_, ?_⟩
    · intro k
      rw [map_slotDecRef, if_neg hreg, registered_slotDecRef, Function.update_apply]
      split
      · subst_vars
        rw [hc.present_iff]
        constructor
        · intro _
          exact Finset.nonempty_iff_ne_empty.2 hreg
        · rintro ⟨x, hx⟩
          exact ⟨x, (Finset.mem_erase.1 hx).2⟩
      · exact hc.present_iff k
    · intro e he
      rw [map_slotDecRef, if_neg hreg] at he
      rw [nextSlot_slotDecRef]
      exact hc.bound e he
    · intro x hx
      rw [evicted_slotDecRef, if_neg hreg] at hx
      rw [nextSlot_slotDecRef, map_slotDecRef, if_neg hreg]
      exact hc.gone x hx
    · intro e he
      rw [map_slotDecRef, if_neg hreg]
      exact Or.inl he
    · intro x hx
      rw [evicted_slotDecRef, if_neg hreg]
      exact hx

theorem present_of_live {w : World} (hw : w.Consistent) (hc : w.Cached) {h : HandleId}
    {s : SlotId} (hl : w.handles h = some ⟨some s⟩) : ∃ e ∈ w.map, e.slot = s :=
  (hc.present_iff s).2 ⟨h, (hw s h).2 hl⟩

theorem moves_DecRef (w : World) (this : HandleId) : w.Moves (ResourcePtr.DecRef w this) := by
  unfold ResourcePtr.DecRef
  split
  · exact moves_slotDecRef _ _ _
  · exact moves_refl _

theorem moves_init_copy {w : World} (hw : w.Consistent) (hc : w.Cached) (this origin : HandleId)
    (o : ResourcePtr) (ho : w.handles origin = some o) :
    w.Moves (ResourcePtr.IncRef (w.setSlot this o.mSlot) this) := by
  apply moves_trans (moves_setSlot w this o.mSlot)
  unfold ResourcePtr.IncRef
  rw [handles_setSlot_same]
  obtain ⟨_ | s⟩ := o
  · exact moves_refl _
  · exact moves_slotIncRef _ _ _ (present_of_live hw hc ho)

theorem moves_copy {w : World} (hw : w.Consistent) (hc : w.Cached) (this origin : HandleId) :
    w.Moves (ResourcePtr.copy w this origin) := by
  unfold ResourcePtr.copy
  split
  · rename_i o _ ho
    exact moves_init_copy hw hc this origin o ho
  · exact moves_refl _

theorem moves_copyConv {w : World} (hw : w.Consistent) (hc : w.Cached) (this origin : HandleId) :
    w.Moves (ResourcePtr.copyConv w this origin) := by
  unfold ResourcePtr.copyConv
  split
  · rename_i o _ ho
    exact moves_init_copy hw hc this origin o ho
  · exact moves_refl _

theorem moves_assign {w : World} (hw : w.Consistent) (hc : w.Cached) (this origin : HandleId) :
    w.Moves (ResourcePtr.assign w this origin) := by
  unfold ResourcePtr.assign
  split
  · rename_i self o hs ho
    split
    · exact moves_refl _
    · obtain ⟨a⟩ := self
      obtain ⟨b⟩ := o
      cases a <;> cases b <;> dsimp only <;>
        repeat first
          | exact moves_setSlot _ _ _
          | refine moves_trans ?_ (moves_slotDecRef _ _ _)
          | refine moves_trans ?_ (moves_slotIncRef _ _ _ (present_of_live hw hc ho))
  · exact moves_refl _

theorem moves_assignConv {w : World} (hw : w.Consistent) (hc : w.Cached)
    (this origin : HandleId) : w.Moves (ResourcePtr.assignConv w this origin) := by
  unfold ResourcePtr.assignConv
  split
  · rename_i self o hs ho
    split
    · exact moves_refl _
    · obtain ⟨a⟩ := self
      obtain ⟨b⟩ := o
      cases a <;> cases b <;> dsimp only <;>
        repeat first
          | exact moves_setSlot _ _ _
          | refine moves_trans ?_ (moves_slotDecRef _ _ _)
          | refine moves_trans ?_ (moves_slotIncRef _ _ _ (present_of_live hw hc ho))
  · exact moves_refl _

theorem moves_Swap {w : World} (hw : w.Consistent) (hc : w.Cached) (this other : HandleId) :
    w.Moves (ResourcePtr.Swap w this other) := by
  unfold ResourcePtr.Swap
  split
  · rename_i self o hs ho
    split
    · exact moves_refl _
    · obtain ⟨a⟩ := self
      obtain ⟨b⟩ := o
      cases a <;> cases b <;> dsimp only <;>
        refine moves_trans (moves_trans ?_ (moves_setSlot _ _ _)) (moves_setSlot _ _ _) <;>
        repeat first
          | exact moves_refl _
          | exact moves_slotIncRef _ _ _ (present_of_live hw hc hs)
          | exact moves_slotIncRef _ _ _ (present_of_live hw hc ho)
          | refine moves_trans ?_ (moves_slotDecRef _ _ _)
          | refine moves_trans ?_ (moves_slotIncRef _ _ _ (present_of_live hw hc ho))
  · exact moves_refl _

theorem moves_Reset (w : World) (this : HandleId) : w.Moves (ResourcePtr.Reset w this) := by
  unfold ResourcePtr.Reset
  split
  · exact moves_trans (moves_DecRef w this) (moves_setSlot _ _ _)
  · exact moves_refl _

theorem moves_dtor (w : World) (this : HandleId) : w.Moves (ResourcePtr.dtor w this) := by
  unfold ResourcePtr.dtor
  split
  · exact moves_trans (moves_DecRef w this) (moves_kill _ _)
  · exact moves_refl _

theorem moves_ctor (w : World) (this : HandleId) : w.Moves (ResourcePtr.ctor w this) := by
  unfold ResourcePtr.ctor
  split
  · exact moves_setSlot _ _ _
  · exact moves_refl _

theorem no_handle_at_nextSlot {w : World} (hw : w.Consistent) (hc : w.Cached) (h : HandleId) :
    w.handles h ≠ some ⟨some w.nextSlot⟩ := by
  intro hl
  obtain ⟨e, he, hes⟩ := present_of_live hw hc hl
  have := hc.bound e he
  rw [hes] at this
  exact Nat.lt_irrefl _ this

theorem consistent_addSlot {w : World} (hw : w.Consistent) (hc : w.Cached) (d : ResourceKey)
    (r : Resource) : ((w.logLoad d).addSlot d r).Consistent := by
  intro k h
  show h ∈ Function.update w.registered w.nextSlot ∅ k ↔ w.handles h = some ⟨some k⟩
  rw [Function.update_apply]
  split
  · subst_vars
    simp only [Finset.not_mem_empty, false_iff]
    exact no_handle_at_nextSlot hw hc h
  · exact hw k h

theorem acquire_keeps {w : World} (hw : w.Consistent) (hc : w.Cached) (h : HandleId)
    (d : ResourceKey) (hf : w.handles h = none) :
    (ResourceManager.Acquire w h d).1.Consistent ∧ (ResourceManager.Acquire w h d).1.Cached ∧
      w.Kept (ResourceManager.Acquire w h d).1 := by
  cases hfind : w.find d with
  | some e =>
    rw [acquire_found w h d e hfind]
    refine ⟨consistent_fromSlot hw h e.slot, ?_⟩
    have hm : w.Moves (ResourcePtr.fromSlot w h e.slot) := by
      rw [fromSlot_fresh w h e.slot hf]
      exact moves_trans (moves_setSlot _ _ _)
        (moves_slotIncRef _ _ _ ⟨e, List.mem_of_find?_eq_some hfind, rfl⟩)
    exact ⟨hm.1 hc, hm.2⟩
  | none =>
    have hn : w.Contains d = false := by simp [World.Contains, hfind]
    cases hr : d.mLoader () with
    | error msg =>
      rw [acquire_failed w h d msg hn hr]
      exact ⟨hw, ⟨hc.present_iff, hc.bound, hc.gone⟩, fun _ he => Or.inl he, fun _ hx => hx⟩
    | ok r =>
      rw [acquire_loaded w h d r hn hr]
      refine ⟨consistent_fromSlot (consistent_addSlot hw hc d r) h _, ?_, ?_⟩
      · rw [fromSlot_fresh ((w.logLoad d).addSlot d r) h _ hf]
        refine ⟨?_, ?_, ?_⟩
        · intro k
          show (∃ e ∈ insertEntry ⟨d, w.nextSlot, r⟩ w.map, e.slot = k) ↔
            (Function.update (Function.update w.registered w.nextSlot ∅) w.nextSlot
              (insert h (Function.update w.registered w.nextSlot ∅ w.nextSlot)) k).Nonempty
          rw [Function.update_apply]
          split
          · subst_vars
            exact ⟨fun _ => ⟨h, Finset.mem_insert_self _ _⟩,
              fun _ => ⟨_, (mem_insertEntry _ _ _).2 (Or.inl rfl), rfl⟩⟩
          · rename_i hk
            rw [Function.update_noteq hk, ← hc.present_iff k]
            constructor
            · rintro ⟨e, he, rfl⟩
              rcases (mem_insertEntry _ _ _).1 he with rfl | he1
              · exact absurd rfl hk
              · exact ⟨e, he1, rfl⟩
            · rintro ⟨e, he, rfl⟩
              exact ⟨e, (mem_insertEntry _ _ _).2 (Or.inr he), rfl⟩
        · intro e he
          show e.slot < w.nextSlot + 1
          rcases (mem_insertEntry _ _ _).1 he with rfl | he1
          · exact Nat.lt_succ_self _
          · exact Nat.lt_succ_of_lt (hc.bound e he1)
        · intro x hx
          have hx1 := hc.gone x hx
          refine ⟨Nat.lt_succ_of_lt hx1.1, fun e he => ?_⟩
          rcases (mem_insertEntry _ _ _).1 he with rfl | he1
          · intro hcon
            have h1 := hx1.1
            rw [← hcon] at h1
            exact Nat.lt_irrefl _ h1
          · exact hx1.2 e he1
      · rw [fromSlot_fresh ((w.logLoad d).addSlot d r) h _ hf]
        exact ⟨fun e he => Or.inl ((mem_insertEntry _ _ _).2 (Or.inr he)), fun _ hx => hx⟩

/-- Every operation of a program keeps the registrations and the bookkeeping
of the manager in order, and loses no slot without destroying it. -/
theorem cache_step {w : World} (hw : w.Consistent) (hc : w.Cached) (op : CacheOp) :
    (CacheOp.step w op).Consistent ∧ (CacheOp.step w op).Cached ∧ w.Kept (CacheOp.step w op) := by
  have hrefl : w.Consistent ∧ w.Cached ∧ w.Kept w := ⟨hw, hc, (moves_refl w).2⟩
  cases op with
  | acquire h d =>
    simp only [CacheOp.step]
    split
    · rename_i hf
      exact acquire_keeps hw hc h d hf
    · exact hrefl
  | handle op =>
    cases op with
    | fromSlot h s => exact hrefl
    | ctor h => exact ⟨consistent_ctor hw h, (moves_ctor w h).1 hc, (moves_ctor w h).2⟩
    | copy h g => exact ⟨consistent_copy hw h g, (moves_copy hw hc h g).1 hc, (moves_copy hw hc h g).2⟩
    | copyConv h g =>
      exact ⟨consistent_copyConv hw h g, (moves_copyConv hw hc h g).1 hc,
        (moves_copyConv hw hc h g).2⟩
    | assign h g =>
      exact ⟨consistent_assign hw h g, (moves_assign hw hc h g).1 hc, (moves_assign hw hc h g).2⟩
    | assignConv h g =>
      exact ⟨consistent_assignConv hw h g, (moves_assignConv hw hc h g).1 hc,
        (moves_assignConv hw hc h g).2⟩
    | swap h g => exact ⟨consistent_Swap hw h g, (moves_Swap hw hc h g).1 hc, (moves_Swap hw hc h g).2⟩
    | reset h => exact ⟨consistent_Reset hw h, (moves_Reset w h).1 hc, (moves_Reset w h).2⟩
    | dtor h => exact ⟨consistent_dtor hw h, (moves_dtor w h).1 hc, (moves_dtor w h).2⟩

theorem consistent_init : World.init.Consistent := by
  intro s h
  simp [World.init]

theorem cached_init : World.init.Cached := by
  refine ⟨fun s => ?_, fun e he => ?_, fun x hx => ?_⟩
  · simp [World.init]
  · simp [World.init] at he
  · simp [World.init] at hx

theorem cache_run (ops : List CacheOp) {w : World} (hw : w.Consistent) (hc : w.Cached) :
    (CacheOp.run w ops).Consistent ∧ (CacheOp.run w ops).Cached := by
  induction ops generalizing w with
  | nil => exact ⟨hw, hc⟩
  | cons op ops ih =>
    obtain ⟨h1, h2, -⟩ := cache_step hw hc op
    exact ih h1 h2

theorem present_iff_any (w : World) (s : SlotId) :
    w.present s = true ↔ ∃ e ∈ w.map, e.slot = s := by
  simp [World.present]

/-- C8. Cache membership invariant (I1): in every state reached from the empty
cache by Acquire and by copying, assigning, swapping, resetting and destroying
handles, a slot is in the cache exactly when a live handle references it; and
an operation after which no live handle references a slot that was referenced
before has removed that slot from the cache and destroyed its resource, within
that operation. -/
theorem cache_membership (ops : List CacheOp) :
    (∀ s : SlotId, (CacheOp.run World.init ops).present s = true ↔
      ∃ h : HandleId, (CacheOp.run World.init ops).handles h = some ⟨some s⟩) ∧
    (∀ (op : CacheOp) (s : SlotId),
      (∃ h : HandleId, (CacheOp.run World.init ops).handles h = some ⟨some s⟩) →
      (∀ h : HandleId,
        (CacheOp.step (CacheOp.run World.init ops) op).handles h ≠ some ⟨some s⟩) →
      (CacheOp.step (CacheOp.run World.init ops) op).present s = false ∧
      ∃ e ∈ (CacheOp.run World.init ops).map, e.slot = s ∧
        (s, e.resource) ∈ (CacheOp.step (CacheOp.run World.init ops) op).evicted ∧
        (s, e.resource) ∉ (CacheOp.run World.init ops).evicted) := by
  have hiff : ∀ w : World, w.Consistent → w.Cached → ∀ s : SlotId,
      (w.present s = true ↔ ∃ h : HandleId, w.handles h = some ⟨some s⟩) := by
    intro w hw hc s
    rw [present_iff_any, hc.present_iff]
    constructor
    · rintro ⟨h, hh⟩
      exact ⟨h, (hw s h).1 hh⟩
    · rintro ⟨h, hh⟩
      exact ⟨h, (hw s h).2 hh⟩
  obtain ⟨hw, hc⟩ := cache_run ops consistent_init cached_init
  refine ⟨hiff _ hw hc, ?_⟩
  intro op s hbefore hafter
  obtain ⟨hw1, hc1, hk⟩ := cache_step hw hc op
  have hnot : ¬ (CacheOp.step (CacheOp.run World.init ops) op).present s = true := by
    rw [hiff _ hw1 hc1 s]
    rintro ⟨h, hh⟩
    exact hafter h hh
  refine ⟨by simpa using hnot, ?_⟩
  obtain ⟨e, he, hes⟩ := (present_iff_any _ s).1 ((hiff _ hw hc s).2 hbefore)
  refine ⟨e, he, hes, ?_, ?_⟩
  · rcases hk.1 e he with h | h
    · exact absurd ((present_iff_any _ s).2 ⟨e, h, hes⟩) hnot
    · rw [← hes]
      exact h
  · intro hx
    exact (hc.gone _ hx).2 e he hes

/-! ## Further claims on `ResourcePtr` -/

/-- C11. Swap of aliasing handles is a no-op: when the live handles h1 and h2
(possibly the same object, possibly both empty) have the same mSlot,
h1.Swap(h2) and swap(h1, h2) leave the whole state as it was: no IncRef and no
DecRef is recorded, both handles reference what they referenced, and every
registration and reference count is unchanged. When h1 and h2 are different
handles, registrations match the live handles and no other handle references
their slot, its reference count is 2 before and after. -/
theorem swap_same_slot_noop (w : World) (h1 h2 : HandleId) (a b : ResourcePtr)
    (hh1 : w.handles h1 = some a) (hh2 : w.handles h2 = some b) (hs : a.mSlot = b.mSlot) :
    ResourcePtr.Swap w h1 h2 = w ∧ ResourcePtr.swap w h1 h2 = w ∧
    (ResourcePtr.Swap w h1 h2).calls = w.calls ∧
    (ResourcePtr.Swap w h1 h2).handles h1 = some a ∧
    (ResourcePtr.Swap w h1 h2).handles h2 = some b ∧
    (∀ s : SlotId, (ResourcePtr.Swap w h1 h2).refCount s = w.refCount s) ∧
    (∀ s : SlotId, w.Consistent → h1 ≠ h2 → a.mSlot = some s →
      (∀ k : HandleId, w.handles k = some ⟨some s⟩ → k = h1 ∨ k = h2) →
      (ResourcePtr.Swap w h1 h2).refCount s = 2) := by
  have h0 : ResourcePtr.Swap w h1 h2 = w := by
    simp [ResourcePtr.Swap, hh1, hh2, hs]
  have h0s : ResourcePtr.swap w h1 h2 = w := h0
  rw [h0s, h0]
  refine ⟨rfl, rfl, rfl, hh1, hh2, fun _ => rfl, ?_⟩
  intro s hw hne has honly
  have hreg : w.registered s = {h1, h2} := by
    ext k
    rw [hw s k]
    simp only [Finset.mem_insert, Finset.mem_singleton]
    constructor
    · exact honly k
    · rintro (rfl | rfl)
      · rw [hh1]
        obtain ⟨x⟩ := a
        simp only at has
        rw [has]
      · rw [hh2]
        obtain ⟨x⟩ := b
        simp only at hs
        rw [← hs, has]
  rw [World.refCount, hreg]
  exact Finset.card_pair hne

/-- Witness of C11 (scenario D): two handles on slot 0 are swapped. -/
theorem swap_same_slot_noop_witness :
    ResourcePtr.Swap (PtrOp.run World.init [.fromSlot 1 0, .copy 2 1]) 1 2 =
      PtrOp.run World.init [.fromSlot 1 0, .copy 2 1] ∧
    (ResourcePtr.Swap (PtrOp.run World.init [.fromSlot 1 0, .copy 2 1]) 1 2).refCount 0 = 2 :=
  ⟨(swap_same_slot_noop (PtrOp.run World.init [.fromSlot 1 0, .copy 2 1]) 1 2
      ⟨some 0⟩ ⟨some 0⟩ (by decide) (by decide) rfl).1,
    (swap_same_slot_noop (PtrOp.run World.init [.fromSlot 1 0, .copy 2 1]) 1 2
      ⟨some 0⟩ ⟨some 0⟩ (by decide) (by decide) rfl).2.2.2.2.2.2 0
      (consistent_run _ consistent_init) (by decide) rfl (by
        intro k hk
        have hk1 : k ∈ (PtrOp.run World.init [.fromSlot 1 0, .copy 2 1]).registered 0 :=
          (consistent_run _ consistent_init 0 k).2 hk
        have hreg : (PtrOp.run World.init [.fromSlot 1 0, .copy 2 1]).registered 0 =
            {2, 1} := by decide
        rw [hreg] at hk1
        simp only [Finset.mem_insert, Finset.mem_singleton] at hk1
        exact hk1.symm)⟩

theorem card_insert_ge (S : Finset HandleId) (x : HandleId) : S.card ≤ (insert x S).card :=
  Finset.card_le_card (Finset.subset_insert x S)

theorem card_erase_insert (S : Finset HandleId) (x y : HandleId) (hx : x ∈ S) (hy : y ∉ S) :
    ((insert y S).erase x).card = S.card := by
  have hxy : x ∈ insert y S := Finset.mem_insert_of_mem hx
  rw [Finset.card_erase_of_mem hxy, Finset.card_insert_of_not_mem hy]
  rfl

theorem calls_slotDecRef (w : World) (s : SlotId) (t : HandleId) :
    (w.slotDecRef s t).calls = w.calls ++ [SlotCall.DecRef s t] := by
  unfold World.slotDecRef
  dsimp only
  split <;> rfl

theorem calls_slotIncRef (w : World) (s : SlotId) (t : HandleId) :
    (w.slotIncRef s t).calls = w.calls ++ [SlotCall.IncRef s t] := rfl

theorem calls_setSlot (w : World) (h : HandleId) (o : Option SlotId) :
    (w.setSlot h o).calls = w.calls := rfl

/-- What `Swap` does when the slots differ: the handles exchange their slots,
the calls of `swapCalls` are recorded, and the registrations are those calls
replayed. -/
theorem Swap_spec (w : World) (h1 h2 : HandleId) (A B : Option SlotId)
    (hh1 : w.handles h1 = some ⟨A⟩) (hh2 : w.handles h2 = some ⟨B⟩) (hne : A ≠ B) :
    (ResourcePtr.Swap w h1 h2).handles =
      Function.update (Function.update w.handles h1 (some ⟨B⟩)) h2 (some ⟨A⟩) ∧
    (ResourcePtr.Swap w h1 h2).calls = w.calls ++ swapCalls h1 h2 A B ∧
    (ResourcePtr.Swap w h1 h2).registered = replay w.registered (swapCalls h1 h2 A B) := by
  unfold ResourcePtr.Swap
  simp only [hh1, hh2, if_neg hne]
  cases A <;> cases B <;>
    simp [handles_setSlot, registered_setSlot, calls_setSlot, calls_slotDecRef,
      calls_slotIncRef, swapCalls, replay, SlotCall.apply] at hne ⊢

theorem replay_nil (reg : SlotId → Finset HandleId) : replay reg [] = reg := rfl

theorem replay_cons (reg : SlotId → Finset HandleId) (c : SlotCall) (cs : List SlotCall) :
    replay reg (c :: cs) = replay (SlotCall.apply reg c) cs := rfl

theorem apply_IncRef (reg : SlotId → Finset HandleId) (s k : SlotId) (t : HandleId) :
    SlotCall.apply reg (SlotCall.IncRef s t) k = if k = s then insert t (reg s) else reg k := by
  simp [SlotCall.apply, Function.update_apply]

theorem apply_DecRef (reg : SlotId → Finset HandleId) (s k : SlotId) (t : HandleId) :
    SlotCall.apply reg (SlotCall.DecRef s t) k = if k = s then (reg s).erase t else reg k := by
  simp [SlotCall.apply, Function.update_apply]

/-- While an IncRef and then the DecRef of another handle are replayed on one
slot, no slot has fewer registered handles than before, and at the end each
slot has as many as before. -/
theorem incDec_counts (reg : SlotId → Finset HandleId) (a : SlotId) (x y : HandleId)
    (hx : x ∈ reg a) (hy : y ∉ reg a) :
    (∀ (n : Nat) (s : SlotId), (reg s).card ≤
      (replay reg ([SlotCall.IncRef a y, SlotCall.DecRef a x].take n) s).card) ∧
    (∀ s : SlotId,
      (replay reg [SlotCall.IncRef a y, SlotCall.DecRef a x] s).card = (reg s).card) := by
  have e1 := card_insert_ge (reg a) y
  have e2 := card_erase_insert (reg a) x y hx hy
  have hfin : ∀ s : SlotId,
      (replay reg [SlotCall.IncRef a y, SlotCall.DecRef a x] s).card = (reg s).card := by
    intro s
    rw [replay_cons, replay_cons, replay_nil, apply_DecRef, apply_IncRef, if_pos rfl]
    by_cases hs : s = a
    · subst hs
      rw [if_pos rfl, e2]
    · rw [if_neg hs, apply_IncRef, if_neg hs]
  refine ⟨?_, hfin⟩
  intro n s
  rcases n with _ | _ | n
  · exact le_refl _
  · show _ ≤ (replay reg [SlotCall.IncRef a y] s).card
    rw [replay_cons, replay_nil, apply_IncRef]
    by_cases hs : s = a
    · subst hs
      rw [if_pos rfl]
      exact e1
    · rw [if_neg hs]
  · rw [List.take_of_length_le (by simp), hfin s]

/-- While the calls of `Swap` are replayed one after the other, no slot has
fewer registered handles than before, and at the end each slot has as many as
before. -/
theorem swapCalls_counts (reg : SlotId → Finset HandleId) (h1 h2 : HandleId)
    (A B : Option SlotId) (hne : A ≠ B)
    (hA1 : ∀ a, A = some a → h1 ∈ reg a) (hA2 : ∀ a, A = some a → h2 ∉ reg a)
    (hB1 : ∀ b, B = some b → h2 ∈ reg b) (hB2 : ∀ b, B = some b → h1 ∉ reg b) :
    (∀ (n : Nat) (s : SlotId),
      (reg s).card ≤ (replay reg ((swapCalls h1 h2 A B).take n) s).card) ∧
    (∀ s : SlotId, (replay reg (swapCalls h1 h2 A B) s).card = (reg s).card) := by
  cases A with
  | none =>
    cases B with
    | none => exact absurd rfl hne
    | some b => exact incDec_counts reg b h2 h1 (hB1 b rfl) (hB2 b rfl)
  | some a =>
    cases B with
    | none => exact incDec_counts reg a h1 h2 (hA1 a rfl) (hA2 a rfl)
    | some b =>
      have hab : a ≠ b := fun h => hne (by rw [h])
      have hba : b ≠ a := Ne.symm hab
      have e1 := card_insert_ge (reg a) h2
      have e2 := card_erase_insert (reg a) h1 h2 (hA1 a rfl) (hA2 a rfl)
      have e3 := card_insert_ge (reg b) h1
      have e4 := card_erase_insert (reg b) h2 h1 (hB1 b rfl) (hB2 b rfl)
      -- the four stages, slot by slot
      have s1 : ∀ s, SlotCall.apply reg (SlotCall.IncRef a h2) s =
          if s = a then insert h2 (reg a) else reg s := fun s => apply_IncRef reg a s h2
      have s2 : ∀ s, SlotCall.apply (SlotCall.apply reg (SlotCall.IncRef a h2))
          (SlotCall.IncRef b h1) s =
          if s = b then insert h1 (reg b) else if s = a then insert h2 (reg a) else reg s := by
        intro s
        rw [apply_IncRef, s1 b, if_neg hba]
        by_cases hs : s = b
        · rw [if_pos hs, if_pos hs]
        · rw [if_neg hs, if_neg hs, s1 s]
      have s3 : ∀ s, SlotCall.apply (SlotCall.apply (SlotCall.apply reg (SlotCall.IncRef a h2))
          (SlotCall.IncRef b h1)) (SlotCall.DecRef a h1) s =
          if s = a then (insert h2 (reg a)).erase h1
          else if s = b then insert h1 (reg b) else reg s := by
        intro s
        rw [apply_DecRef, s2 a, if_neg hab, if_pos rfl]
        by_cases hs : s = a
        · rw [if_pos hs, if_pos hs]
        · rw [if_neg hs, if_neg hs, s2 s, if_neg hs]
      have s4 : ∀ s, SlotCall.apply (SlotCall.apply (SlotCall.apply (SlotCall.apply reg
          (SlotCall.IncRef a h2)) (SlotCall.IncRef b h1)) (SlotCall.DecRef a h1))
          (SlotCall.DecRef b h2) s =
          if s = b then (insert h1 (reg b)).erase h2
          else if s = a then (insert h2 (reg a)).erase h1 else reg s := by
        intro s
        rw [apply_DecRef, s3 b, if_neg hba, if_pos rfl]
        by_cases hs : s = b
        · rw [if_pos hs, if_pos hs]
        · rw [if_neg hs, if_neg hs, s3 s]
          by_cases hs2 : s = a
          · rw [if_pos hs2, if_pos hs2]
          · rw [if_neg hs2, if_neg hs2, if_neg hs]
      have hfin : ∀ s : SlotId,
          (replay reg (swapCalls h1 h2 (some a) (some b)) s).card = (reg s).card := by
        intro s
        show (replay reg [SlotCall.IncRef a h2, SlotCall.IncRef b h1, SlotCall.DecRef a h1,
          SlotCall.DecRef b h2] s).card = _
        rw [replay_cons, replay_cons, replay_cons, replay_cons, replay_nil, s4]
        by_cases hsb : s = b
        · subst hsb
          rw [if_pos rfl, e4]
        · rw [if_neg hsb]
          by_cases hsa : s = a
          · subst hsa
            rw [if_pos rfl, e2]
          · rw [if_neg hsa]
      refine ⟨?_, hfin⟩
      intro n s
      rcases n with _ | _ | _ | _ | n
      · exact le_refl _
      · show _ ≤ (replay reg [SlotCall.IncRef a h2] s).card
        rw [replay_cons, replay_nil, s1]
        by_cases hsa : s = a
        · subst hsa
          rw [if_pos rfl]
          exact e1
        · rw [if_neg hsa]
      · show _ ≤ (replay reg [SlotCall.IncRef a h2, SlotCall.IncRef b h1] s).card
        rw [replay_cons, replay_cons, replay_nil, s2]
        by_cases hsb : s = b
        · subst hsb
          rw [if_pos rfl]
          exact e3
        · rw [if_neg hsb]
          by_cases hsa : s = a
          · subst hsa
            rw [if_pos rfl]
            exact e1
          · rw [if_neg hsa]
      · show _ ≤ (replay reg [SlotCall.IncRef a h2, SlotCall.IncRef b h1,
          SlotCall.DecRef a h1] s).card
        rw [replay_cons, replay_cons, replay_cons, replay_nil, s3]
        by_cases hsa : s = a
        · subst hsa
          rw [if_pos rfl, e2]
        · rw [if_neg hsa]
          by_cases hsb : s = b
          · subst hsb
            rw [if_pos rfl]
            exact e3
          · rw [if_neg hsb]
      · rw [List.take_of_length_le (by simp [swapCalls]), hfin s]

theorem swapCalls_split (h1 h2 : HandleId) (A B : Option SlotId) :
    ∃ incs decs : List SlotCall, swapCalls h1 h2 A B = incs ++ decs ∧
      (∀ c ∈ incs, c.isIncRef = true) ∧ (∀ c ∈ decs, c.isIncRef = false) := by
  refine ⟨(match A with
      | some s => [SlotCall.IncRef s h2]
      | none => []) ++
    (match B with
      | some s => [SlotCall.IncRef s h1]
      | none => []),
    (match A with
      | some s => [SlotCall.DecRef s h1]
      | none => []) ++
    (match B with
      | some s => [SlotCall.DecRef s h2]
      | none => []), ?_, ?_, ?_⟩
  · simp [swapCalls, List.append_assoc]
  · cases A <;> cases B <;> simp [SlotCall.isIncRef]
  · cases A <;> cases B <;> simp [SlotCall.isIncRef]

/-- C12. Swap of handles on different slots: in a state where registrations
match the live handles, let the live handles h1 and h2 have different mSlot
(either may be empty). After h1.Swap(h2) h1 references the former slot of h2
and h2 the former slot of h1, every other handle and every reference count is
as before; the calls recorded are IncRef calls followed by DecRef calls, and
while they are made one after the other no slot has a lower count than before
the call; a second Swap restores all handles. -/
theorem swap_different_slots (w : World) (hw : w.Consistent) (h1 h2 : HandleId)
    (A B : Option SlotId) (hh1 : w.handles h1 = some ⟨A⟩) (hh2 : w.handles h2 = some ⟨B⟩)
    (hne : A ≠ B) :
    (ResourcePtr.Swap w h1 h2).handles h1 = some ⟨B⟩ ∧
    (ResourcePtr.Swap w h1 h2).handles h2 = some ⟨A⟩ ∧
    (∀ k : HandleId, k ≠ h1 → k ≠ h2 → (ResourcePtr.Swap w h1 h2).handles k = w.handles k) ∧
    (∀ s : SlotId, (ResourcePtr.Swap w h1 h2).refCount s = w.refCount s) ∧
    (ResourcePtr.Swap w h1 h2).calls = w.calls ++ swapCalls h1 h2 A B ∧
    (∃ incs decs : List SlotCall, swapCalls h1 h2 A B = incs ++ decs ∧
      (∀ c ∈ incs, c.isIncRef = true) ∧ (∀ c ∈ decs, c.isIncRef = false)) ∧
    (ResourcePtr.Swap w h1 h2).registered = replay w.registered (swapCalls h1 h2 A B) ∧
    (∀ (n : Nat) (s : SlotId), w.refCount s ≤
      (replay w.registered ((swapCalls h1 h2 A B).take n) s).card) ∧
    (ResourcePtr.Swap (ResourcePtr.Swap w h1 h2) h1 h2).handles = w.handles := by
  have h12 : h1 ≠ h2 := by
    rintro rfl
    rw [hh1] at hh2
    simp only [Option.some.injEq, ResourcePtr.mk.injEq] at hh2
    exact hne hh2
  obtain ⟨g1, g2, g3⟩ := Swap_spec w h1 h2 A B hh1 hh2 hne
  have hA1 : ∀ a, A = some a → h1 ∈ w.registered a := fun a ha => by
    rw [hw a h1, hh1, ha]
  have hA2 : ∀ a, A = some a → h2 ∉ w.registered a := fun a ha => by
    rw [hw a h2, hh2]
    intro hc
    simp only [Option.some.injEq, ResourcePtr.mk.injEq] at hc
    exact hne (ha.trans hc.symm)
  have hB1 : ∀ b, B = some b → h2 ∈ w.registered b := fun b hb => by
    rw [hw b h2, hh2, hb]
  have hB2 : ∀ b, B = some b → h1 ∉ w.registered b := fun b hb => by
    rw [hw b h1, hh1]
    intro hc
    simp only [Option.some.injEq, ResourcePtr.mk.injEq] at hc
    exact hne (hc.trans hb.symm)
  obtain ⟨c1, c2⟩ := swapCalls_counts w.registered h1 h2 A B hne hA1 hA2 hB1 hB2
  have k1 : (ResourcePtr.Swap w h1 h2).handles h1 = some ⟨B⟩ := by
    rw [g1, Function.update_noteq h12, Function.update_same]
  have k2 : (ResourcePtr.Swap w h1 h2).handles h2 = some ⟨A⟩ := by
    rw [g1, Function.update_same]
  refine ⟨k1, k2, ?_, ?_, g2, swapCalls_split h1 h2 A B, g3, c1, ?_⟩
  · intro k hk1 hk2
    rw [g1, Function.update_noteq hk2, Function.update_noteq hk1]
  · intro s
    rw [World.refCount, g3, c2 s]
    rfl
  · obtain ⟨g4, -, -⟩ := Swap_spec (ResourcePtr.Swap w h1 h2) h1 h2 B A k1 k2 (Ne.symm hne)
    rw [g4, g1]
    funext k
    by_cases hk2 : k = h2
    · subst hk2
      rw [Function.update_same, hh2]
    · rw [Function.update_noteq hk2]
      by_cases hk1 : k = h1
      · subst hk1
        rw [Function.update_same, hh1]
      · rw [Function.update_noteq hk1, Function.update_noteq hk2, Function.update_noteq hk1]

/-- Witness of C12: handle 1 on slot 0 and handle 2 on slot 1 are swapped. -/
theorem swap_different_slots_witness :
    (ResourcePtr.Swap (PtrOp.run World.init [.fromSlot 1 0, .fromSlot 2 1]) 1 2).handles 1 =
      some ⟨some 1⟩ ∧
    (ResourcePtr.Swap (PtrOp.run World.init [.fromSlot 1 0, .fromSlot 2 1]) 1 2).calls =
      (PtrOp.run World.init [.fromSlot 1 0, .fromSlot 2 1]).calls ++
        [SlotCall.IncRef 0 2, SlotCall.IncRef 1 1, SlotCall.DecRef 0 1, SlotCall.DecRef 1 2] :=
  ⟨(swap_different_slots (PtrOp.run World.init [.fromSlot 1 0, .fromSlot 2 1])
      (consistent_run _ consistent_init) 1 2 (some 0) (some 1)
      (by decide) (by decide) (by decide)).1,
    (swap_different_slots (PtrOp.run World.init [.fromSlot 1 0, .fromSlot 2 1])
      (consistent_run _ consistent_init) 1 2 (some 0) (some 1)
      (by decide) (by decide) (by decide)).2.2.2.2.1⟩

/-- A handle that comes to life on a slot raises the count of that slot by one
and leaves the other slots alone. -/
theorem refCount_incRef_fresh (w : World) (hw : w.Consistent) (this : HandleId) (S : SlotId)
    (hn : w.handles this = none) :
    (ResourcePtr.IncRef (w.setSlot this (some S)) this).refCount S = w.refCount S + 1 ∧
    (∀ s : SlotId, s ≠ S →
      (ResourcePtr.IncRef (w.setSlot this (some S)) this).refCount s = w.refCount s) := by
  have hnot : this ∉ w.registered S := by
    rw [hw S this, hn]
    simp
  simp only [ResourcePtr.IncRef, handles_setSlot_same, World.refCount, registered_slotIncRef,
    registered_setSlot]
  refine ⟨?_, fun s hs => ?_⟩
  · rw [Function.update_same, Finset.card_insert_of_not_mem hnot]
  · rw [Function.update_noteq hs]

/-- C13. One count per handle event: in a state where registrations match the
live handles, copy-constructing a handle from a handle g that references slot
S (with either copy constructor) or constructing a handle from S raises the
reference count of S by exactly one and changes no other count; destroying a
handle that references S lowers the count of S by exactly one and changes no
other count. -/
theorem one_count_per_event (w : World) (hw : w.Consistent) (S : SlotId) :
    (∀ this g : HandleId, w.handles this = none → w.handles g = some ⟨some S⟩ →
      (ResourcePtr.copy w this g).refCount S = w.refCount S + 1 ∧
      (ResourcePtr.copyConv w this g).refCount S = w.refCount S + 1 ∧
      (∀ s : SlotId, s ≠ S → (ResourcePtr.copy w this g).refCount s = w.refCount s ∧
        (ResourcePtr.copyConv w this g).refCount s = w.refCount s)) ∧
    (∀ this : HandleId, w.handles this = none →
      (ResourcePtr.fromSlot w this S).refCount S = w.refCount S + 1 ∧
      (∀ s : SlotId, s ≠ S → (ResourcePtr.fromSlot w this S).refCount s = w.refCount s)) ∧
    (∀ h : HandleId, w.handles h = some ⟨some S⟩ →
      (ResourcePtr.dtor w h).refCount S + 1 = w.refCount S ∧
      (∀ s : SlotId, s ≠ S → (ResourcePtr.dtor w h).refCount s = w.refCount s)) := by
  refine ⟨?_, ?_, ?_⟩
  · intro this g hn hg
    obtain ⟨e1, e2⟩ := refCount_incRef_fresh w hw this S hn
    have hc : ResourcePtr.copy w this g =
        ResourcePtr.IncRef (w.setSlot this (some S)) this := by
      simp [ResourcePtr.copy, hn, hg]
    have hcc : ResourcePtr.copyConv w this g =
        ResourcePtr.IncRef (w.setSlot this (some S)) this := by
      simp [ResourcePtr.copyConv, hn, hg]
    rw [hc, hcc]
    exact ⟨e1, e1, fun s hs => ⟨e2 s hs, e2 s hs⟩⟩
  · intro this hn
    have hc : ResourcePtr.fromSlot w this S =
        ResourcePtr.IncRef (w.setSlot this (some S)) this := by
      simp [ResourcePtr.fromSlot, hn]
    rw [hc]
    exact refCount_incRef_fresh w hw this S hn
  · intro h hh
    have hin : h ∈ w.registered S := (hw S h).2 hh
    simp only [ResourcePtr.dtor, hh, ResourcePtr.DecRef, World.refCount, registered_slotDecRef]
    refine ⟨?_, fun s hs => ?_⟩
    · rw [Function.update_same]
      exact Finset.card_erase_add_one hin
    · rw [Function.update_noteq hs]

/-- Witness of C13: slot 0 with one handle gets a second one, which is then
destroyed. -/
theorem one_count_per_event_witness :
    (ResourcePtr.copy (PtrOp.run World.init [.fromSlot 1 0]) 2 1).refCount 0 =
      (PtrOp.run World.init [.fromSlot 1 0]).refCount 0 + 1 ∧
    (ResourcePtr.dtor (PtrOp.run World.init [.fromSlot 1 0]) 1).refCount 0 + 1 =
      (PtrOp.run World.init [.fromSlot 1 0]).refCount 0 :=
  ⟨((one_count_per_event (PtrOp.run World.init [.fromSlot 1 0])
      (consistent_run _ consistent_init) 0).1 2 1 (by decide) (by decide)).1,
    ((one_count_per_event (PtrOp.run World.init [.fromSlot 1 0])
      (consistent_run _ consistent_init) 0).2.2 1 (by decide)).1⟩

/-- C14. Empty handles are inert (I4): a default-constructed ResourcePtr is empty
and its validity check is false; a copy of an empty handle is empty; and
copy-constructing from, assigning between, swapping, resetting and destroying
empty handles records no IncRef and no DecRef and changes no registration. -/
theorem empty_handles_inert (w : World) :
    (∀ h : HandleId, w.handles h = none →
      (ResourcePtr.ctor w h).handles h = some ⟨none⟩ ∧
      ResourcePtr.valid ⟨none⟩ = false ∧
      (ResourcePtr.ctor w h).calls = w.calls ∧
      (ResourcePtr.ctor w h).registered = w.registered) ∧
    (∀ this g : HandleId, w.handles this = none → w.handles g = some ⟨none⟩ →
      (ResourcePtr.copy w this g).handles this = some ⟨none⟩ ∧
      (ResourcePtr.copy w this g).calls = w.calls ∧
      (ResourcePtr.copy w this g).registered = w.registered ∧
      (ResourcePtr.copyConv w this g).handles this = some ⟨none⟩ ∧
      (ResourcePtr.copyConv w this g).calls = w.calls ∧
      (ResourcePtr.copyConv w this g).registered = w.registered) ∧
    (∀ h g : HandleId, w.handles h = some ⟨none⟩ → w.handles g = some ⟨none⟩ →
      ResourcePtr.assign w h g = w ∧ ResourcePtr.assignConv w h g = w ∧
      ResourcePtr.Swap w h g = w) ∧
    (∀ h : HandleId, w.handles h = some ⟨none⟩ →
      (ResourcePtr.Reset w h).handles h = some ⟨none⟩ ∧
      (ResourcePtr.Reset w h).calls = w.calls ∧
      (ResourcePtr.Reset w h).registered = w.registered ∧
      (ResourcePtr.dtor w h).handles h = none ∧
      (ResourcePtr.dtor w h).calls = w.calls ∧
      (ResourcePtr.dtor w h).registered = w.registered) := by
  refine ⟨?_, ?_, ?_, ?_⟩
  · intro h hn
    simp [ResourcePtr.ctor, hn, handles_setSlot, ResourcePtr.valid, calls_setSlot]
  · intro this g hn hg
    simp [ResourcePtr.copy, ResourcePtr.copyConv, hn, hg, ResourcePtr.IncRef,
      handles_setSlot, calls_setSlot]
  · intro h g hh hg
    simp [ResourcePtr.assign, ResourcePtr.assignConv, ResourcePtr.Swap, hh, hg]
  · intro h hh
    simp [ResourcePtr.Reset, ResourcePtr.dtor, ResourcePtr.DecRef, hh, handles_setSlot,
      calls_setSlot]

/-- Witness of C14: an empty handle is made, copied, assigned, swapped, reset and
destroyed; no slot call is recorded. -/
theorem empty_handles_inert_witness :
    (PtrOp.run World.init [.ctor 1, .copy 2 1, .assign 1 2, .swap 1 2, .reset 1,
      .dtor 2]).calls = [] ∧
    (ResourcePtr.ctor World.init 1).handles 1 = some ⟨none⟩ ∧
    (ResourcePtr.dtor (PtrOp.run World.init [.ctor 1]) 1).calls =
      (PtrOp.run World.init [.ctor 1]).calls :=
  ⟨by decide, ((empty_handles_inert World.init).1 1 rfl).1,
    ((empty_handles_inert (PtrOp.run World.init [.ctor 1])).2.2.2 1 (by decide)).2.2.2.2.1⟩

/-- C15. Equality is slot identity: h1 == h2 holds exactly when both handles
have the same mSlot (the same slot, or both none), whatever the resources are;
h1 != h2 is the negation; == is reflexive, symmetric and transitive; and a
handle copy-constructed from a live handle compares equal to it. -/
theorem equality_is_slot_identity :
    (∀ h1 h2 : ResourcePtr, ResourcePtr.eq h1 h2 = true ↔ h1.mSlot = h2.mSlot) ∧
    (∀ h1 h2 : ResourcePtr, ResourcePtr.ne h1 h2 = !(ResourcePtr.eq h1 h2)) ∧
    (∀ h : ResourcePtr, ResourcePtr.eq h h = true) ∧
    (∀ h1 h2 : ResourcePtr, ResourcePtr.eq h1 h2 = ResourcePtr.eq h2 h1) ∧
    (∀ h1 h2 h3 : ResourcePtr, ResourcePtr.eq h1 h2 = true → ResourcePtr.eq h2 h3 = true →
      ResourcePtr.eq h1 h3 = true) ∧
    (∀ (w : World) (this g : HandleId) (p : ResourcePtr), w.handles this = none →
      w.handles g = some p →
      ∃ q : ResourcePtr, (ResourcePtr.copy w this g).handles this = some q ∧
        (ResourcePtr.copy w this g).handles g = some p ∧ ResourcePtr.eq q p = true ∧
        ResourcePtr.ne q p = false) := by
  refine ⟨?_, ?_, ?_, ?_, ?_, ?_⟩
  · intro h1 h2
    simp [ResourcePtr.eq]
  · intro h1 h2
    rfl
  · intro h
    simp [ResourcePtr.eq]
  · intro h1 h2
    simp only [ResourcePtr.eq]
    rw [Bool.eq_iff_iff]
    simp only [decide_eq_true_eq]
    exact eq_comm
  · intro h1 h2 h3 h12 h23
    simp only [ResourcePtr.eq, decide_eq_true_eq] at h12 h23 ⊢
    exact h12.trans h23
  · intro w this g p hn hg
    have hgt : g ≠ this := by
      rintro rfl
      rw [hn] at hg
      cases hg
    refine ⟨p, ?_, ?_, by simp [ResourcePtr.eq], by simp [ResourcePtr.ne, ResourcePtr.eq]⟩
    · obtain ⟨_ | s⟩ := p <;>
        simp [ResourcePtr.copy, hn, hg, ResourcePtr.IncRef, handles_setSlot]
    · obtain ⟨_ | s⟩ := p <;>
        simp [ResourcePtr.copy, hn, hg, ResourcePtr.IncRef, handles_setSlot,
          Function.update_apply, hgt]

/-- Witness of C15: a copy of a handle on slot 0 compares equal to it. -/
theorem equality_is_slot_identity_witness :
    ∃ q : ResourcePtr,
      (ResourcePtr.copy (PtrOp.run World.init [.fromSlot 1 0]) 2 1).handles 2 = some q ∧
      ResourcePtr.eq q ⟨some 0⟩ = true := by
  obtain ⟨q, h1, -, h2, -⟩ :=
    equality_is_slot_identity.2.2.2.2.2 (PtrOp.run World.init [.fromSlot 1 0]) 2 1
      ⟨some 0⟩ (by decide) (by decide)
  exact ⟨q, h1, h2⟩

/-! ## Further claims on the ownership cells -/

/-- C16. Dereference precondition: for SmartPtrImpl, and through it for ScopedPtr
and MovedPtr, operator* and operator-> return the held resource when the
pointer is non-null, and the assertion fails exactly when it is null; for
ResourcePtr they return the resource of the referenced slot when the handle
references one, and the assertion fails exactly when it is empty; Get() never
fails and returns the held pointer, null included. -/
theorem dereference_precondition :
    (∀ impl : SmartPtrImpl,
      (impl.mPointer ≠ NULL → impl.operatorStar = Except.ok impl.mPointer ∧
        impl.operatorArrow = Except.ok impl.mPointer) ∧
      (impl.mPointer = NULL ↔ impl.operatorStar = Except.error "assert(!IsNull())") ∧
      (impl.mPointer = NULL ↔ impl.operatorArrow = Except.error "assert(!IsNull())") ∧
      impl.Get = impl.mPointer) ∧
    (∀ (H : Heap) (a : Addr) (k : Kind) (impl : SmartPtrImpl), H.objs a = some (k, impl) →
      ScopedPtr.operatorStar H a = some impl.operatorStar ∧
      ScopedPtr.operatorArrow H a = some impl.operatorArrow ∧
      ScopedPtr.Get H a = some impl.mPointer ∧
      MovedPtr.operatorStar H a = some impl.operatorStar ∧
      MovedPtr.operatorArrow H a = some impl.operatorArrow ∧
      MovedPtr.Get H a = some impl.mPointer) ∧
    (∀ (GetResourcePointer : SlotId → Nat) (self : ResourcePtr),
      (∀ s : SlotId, self.mSlot = some s →
        ResourcePtr.operatorStar GetResourcePointer self = Except.ok (GetResourcePointer s) ∧
        ResourcePtr.operatorArrow GetResourcePointer self =
          Except.ok (GetResourcePointer s)) ∧
      (self.mSlot = none ↔
        ResourcePtr.operatorStar GetResourcePointer self = Except.error "assert(mSlot)") ∧
      (self.mSlot = none ↔
        ResourcePtr.operatorArrow GetResourcePointer self = Except.error "assert(mSlot)")) := by
  refine ⟨?_, ?_, ?_⟩
  · intro impl
    by_cases hp : impl.mPointer = NULL
    · simp [SmartPtrImpl.operatorStar, SmartPtrImpl.operatorArrow, SmartPtrImpl.IsNull,
        SmartPtrImpl.Get, hp]
    · simp [SmartPtrImpl.operatorStar, SmartPtrImpl.operatorArrow, SmartPtrImpl.IsNull,
        SmartPtrImpl.Get, hp]
  · intro H a k impl ha
    simp [ScopedPtr.operatorStar, ScopedPtr.operatorArrow, ScopedPtr.Get,
      MovedPtr.operatorStar, MovedPtr.operatorArrow, MovedPtr.Get, ha, SmartPtrImpl.Get]
  · intro get self
    obtain ⟨_ | s⟩ := self <;>
      simp [ResourcePtr.operatorStar, ResourcePtr.operatorArrow]

/-- Witness of C16: a MovedPtr holding resource 5 and an empty one. -/
theorem dereference_precondition_witness :
    MovedPtr.operatorStar (SmartOp.run Heap.init [.movedCtorPtr 0 5]) (Addr.obj 0) =
      some (Except.ok 5) ∧
    (SmartPtrImpl.ctor.mPointer = NULL ↔
      SmartPtrImpl.ctor.operatorStar = Except.error "assert(!IsNull())") :=
  ⟨by
    have h := (dereference_precondition.2.1 (SmartOp.run Heap.init [.movedCtorPtr 0 5])
      (Addr.obj 0) Kind.MovedPtr ⟨5, DestroyFn.StaticDestroy⟩ (by decide)).2.2.2.1
    have h5 := (dereference_precondition.1 ⟨5, DestroyFn.StaticDestroy⟩).1 (by decide)
    rw [h, h5.1],
    (dereference_precondition.1 SmartPtrImpl.ctor).2.1⟩

@[simp] theorem destroyLog_adopt (H : Heap) (p : Ptr) : (H.adopt p).destroyLog = H.destroyLog :=
  rfl

@[simp] theorem released_adopt (H : Heap) (p : Ptr) : (H.adopt p).released = H.released := rfl

@[simp] theorem objs_adopt (H : Heap) (p : Ptr) : (H.adopt p).objs = H.objs := rfl

/-- The tail of `Reset`: the object takes the cell of the local variable, and
the destroy function the object had is called once, on the pointer the object
had, when the local variable goes out of scope. -/
theorem swap_dtor_temp_spec (H1 : Heap) (n : Nat) (k kt : Kind) (i it : SmartPtrImpl)
    (hn : H1.objs (Addr.obj n) = some (k, i)) (ht : H1.objs Addr.temp = some (kt, it)) :
    (SmartPtrImpl.dtor (SmartPtrImpl.Swap H1 (Addr.obj n) Addr.temp) Addr.temp).objs
      (Addr.obj n) = some (k, it) ∧
    (SmartPtrImpl.dtor (SmartPtrImpl.Swap H1 (Addr.obj n) Addr.temp) Addr.temp).objs
      Addr.temp = none ∧
    (∀ m : Nat, m ≠ n →
      (SmartPtrImpl.dtor (SmartPtrImpl.Swap H1 (Addr.obj n) Addr.temp) Addr.temp).objs
        (Addr.obj m) = H1.objs (Addr.obj m)) ∧
    (SmartPtrImpl.dtor (SmartPtrImpl.Swap H1 (Addr.obj n) Addr.temp) Addr.temp).destroyLog =
      H1.destroyLog ++ [(i.mDestroyFn, i.mPointer)] ∧
    (SmartPtrImpl.dtor (SmartPtrImpl.Swap H1 (Addr.obj n) Addr.temp) Addr.temp).released =
      H1.released ∧
    (SmartPtrImpl.dtor (SmartPtrImpl.Swap H1 (Addr.obj n) Addr.temp) Addr.temp).adopted =
      H1.adopted := by
  have hnt : Addr.obj n ≠ Addr.temp := fun h => by cases h
  have hsw := objs_Swap H1 _ _ _ _ _ _ hn ht
  have htemp : (SmartPtrImpl.Swap H1 (Addr.obj n) Addr.temp).objs Addr.temp = some (kt, i) := by
    rw [hsw, if_pos rfl]
  refine ⟨?_, objs_dtor_self _ _, ?_, ?_, by simp, by simp⟩
  · rw [objs_dtor_other _ _ _ hnt, hsw, if_neg hnt, if_pos rfl]
  · intro m hm
    have hmt : Addr.obj m ≠ Addr.temp := fun h => by cases h
    have hmn : Addr.obj m ≠ Addr.obj n := fun h => hm (by cases h; rfl)
    rw [objs_dtor_other _ _ _ hmt, hsw, if_neg hmt, if_neg hmn]
  · simp only [SmartPtrImpl.dtor, htemp, destroyLog_Swap]

/-- What `Reset()` does to a live object of the program, for both classes. -/
theorem Reset_spec (H : Heap) (n : Nat) (k : Kind) (i : SmartPtrImpl)
    (hn : H.objs (Addr.obj n) = some (k, i)) :
    ((ScopedPtr.Reset H (Addr.obj n)).objs (Addr.obj n) = some (k, SmartPtrImpl.ctor) ∧
      (ScopedPtr.Reset H (Addr.obj n)).destroyLog =
        H.destroyLog ++ [(i.mDestroyFn, i.mPointer)] ∧
      (∀ m : Nat, m ≠ n → (ScopedPtr.Reset H (Addr.obj n)).objs (Addr.obj m) =
        H.objs (Addr.obj m))) ∧
    ((MovedPtr.Reset H (Addr.obj n)).objs (Addr.obj n) = some (k, SmartPtrImpl.ctor) ∧
      (MovedPtr.Reset H (Addr.obj n)).destroyLog =
        H.destroyLog ++ [(i.mDestroyFn, i.mPointer)] ∧
      (∀ m : Nat, m ≠ n → (MovedPtr.Reset H (Addr.obj n)).objs (Addr.obj m) =
        H.objs (Addr.obj m))) := by
  have hnt : Addr.obj n ≠ Addr.temp := fun h => by cases h
  constructor
  · have h1 : (ScopedPtr.ctor H Addr.temp).objs (Addr.obj n) = some (k, i) := by
      rw [ScopedPtr.ctor, objs_construct, if_neg hnt, hn]
    have h2 : (ScopedPtr.ctor H Addr.temp).objs Addr.temp =
        some (Kind.ScopedPtr, SmartPtrImpl.ctor) := by
      rw [ScopedPtr.ctor, objs_construct, if_pos rfl]
    obtain ⟨g1, -, g3, g4, -, -⟩ := swap_dtor_temp_spec _ n _ _ _ _ h1 h2
    refine ⟨g1, g4, fun m hm => ?_⟩
    have hmt : Addr.obj m ≠ Addr.temp := fun h => by cases h
    exact (g3 m hm).trans (by rw [ScopedPtr.ctor, objs_construct, if_neg hmt])
  · have h1 : (MovedPtr.ctor H Addr.temp).objs (Addr.obj n) = some (k, i) := by
      rw [MovedPtr.ctor, objs_construct, if_neg hnt, hn]
    have h2 : (MovedPtr.ctor H Addr.temp).objs Addr.temp =
        some (Kind.MovedPtr, SmartPtrImpl.ctor) := by
      rw [MovedPtr.ctor, objs_construct, if_pos rfl]
    obtain ⟨g1, -, g3, g4, -, -⟩ := swap_dtor_temp_spec _ n _ _ _ _ h1 h2
    refine ⟨g1, g4, fun m hm => ?_⟩
    have hmt : Addr.obj m ≠ Addr.temp := fun h => by cases h
    exact (g3 m hm).trans (by rw [MovedPtr.ctor, objs_construct, if_neg hmt])

/-- What `Reset(pointer)` does to a live object of the program, for both
classes. -/
theorem ResetPtr_spec (H : Heap) (n : Nat) (k : Kind) (i : SmartPtrImpl) (p : Ptr)
    (hn : H.objs (Addr.obj n) = some (k, i)) :
    ((ScopedPtr.ResetPtr H (Addr.obj n) p).objs (Addr.obj n) =
        some (k, SmartPtrImpl.ctorPtr p) ∧
      (ScopedPtr.ResetPtr H (Addr.obj n) p).destroyLog =
        H.destroyLog ++ [(i.mDestroyFn, i.mPointer)] ∧
      (∀ m : Nat, m ≠ n → (ScopedPtr.ResetPtr H (Addr.obj n) p).objs (Addr.obj m) =
        H.objs (Addr.obj m))) ∧
    ((MovedPtr.ResetPtr H (Addr.obj n) p).objs (Addr.obj n) =
        some (k, SmartPtrImpl.ctorPtr p) ∧
      (MovedPtr.ResetPtr H (Addr.obj n) p).destroyLog =
        H.destroyLog ++ [(i.mDestroyFn, i.mPointer)] ∧
      (∀ m : Nat, m ≠ n → (MovedPtr.ResetPtr H (Addr.obj n) p).objs (Addr.obj m) =
        H.objs (Addr.obj m))) := by
  have hnt : Addr.obj n ≠ Addr.temp := fun h => by cases h
  constructor
  · have h1 : (ScopedPtr.ctorPtr H Addr.temp p).objs (Addr.obj n) = some (k, i) := by
      rw [ScopedPtr.ctorPtr, objs_construct, if_neg hnt, objs_adopt, hn]
    have h2 : (ScopedPtr.ctorPtr H Addr.temp p).objs Addr.temp =
        some (Kind.ScopedPtr, SmartPtrImpl.ctorPtr p) := by
      rw [ScopedPtr.ctorPtr, objs_construct, if_pos rfl]
    obtain ⟨g1, -, g3, g4, -, -⟩ := swap_dtor_temp_spec _ n _ _ _ _ h1 h2
    refine ⟨g1, g4, fun m hm => ?_⟩
    have hmt : Addr.obj m ≠ Addr.temp := fun h => by cases h
    exact (g3 m hm).trans (by rw [ScopedPtr.ctorPtr, objs_construct, if_neg hmt, objs_adopt])
  · have h1 : (MovedPtr.ctorPtr H Addr.temp p).objs (Addr.obj n) = some (k, i) := by
      rw [MovedPtr.ctorPtr, objs_construct, if_neg hnt, objs_adopt, hn]
    have h2 : (MovedPtr.ctorPtr H Addr.temp p).objs Addr.temp =
        some (Kind.MovedPtr, SmartPtrImpl.ctorPtr p) := by
      rw [MovedPtr.ctorPtr, objs_construct, if_pos rfl]
    obtain ⟨g1, -, g3, g4, -, -⟩ := swap_dtor_temp_spec _ n _ _ _ _ h1 h2
    refine ⟨g1, g4, fun m hm => ?_⟩
    have hmt : Addr.obj m ≠ Addr.temp := fun h => by cases h
    exact (g3 m hm).trans (by rw [MovedPtr.ctorPtr, objs_construct, if_neg hmt, objs_adopt])

/-- What `SmartPtrImpl::Release` does to a live object. -/
theorem Release_spec (H : Heap) (a : Addr) (k : Kind) (i : SmartPtrImpl)
    (ha : H.objs a = some (k, i)) :
    (SmartPtrImpl.Release H a).2 = i.mPointer ∧
    (SmartPtrImpl.Release H a).1.objs a = some (k, SmartPtrImpl.ctor) ∧
    (∀ x : Addr, x ≠ a → (SmartPtrImpl.Release H a).1.objs x = H.objs x) ∧
    (SmartPtrImpl.Release H a).1.destroyLog = H.destroyLog ∧
    (SmartPtrImpl.Release H a).1.released = H.released ∧
    (SmartPtrImpl.Release H a).1.adopted = H.adopted := by
  simp only [SmartPtrImpl.Release, ha, SmartPtrImpl.ctor, Function.update_same, true_and,
    and_true]
  intro x hx
  rw [Function.update_noteq hx]

/-- C17. Validity check: for every live ScopedPtr and MovedPtr the validity
conversion is true exactly when the held pointer is non-null, and for every
ResourcePtr exactly when it references a slot. It is false after default
construction, after Reset(), after Release(), and for the source of a move
into another object. -/
theorem validity_check :
    (∀ (H : Heap) (a : Addr) (k : Kind) (impl : SmartPtrImpl), H.objs a = some (k, impl) →
      (ScopedPtr.valid H a = some true ↔ impl.mPointer ≠ NULL) ∧
      (ScopedPtr.valid H a = some false ↔ impl.mPointer = NULL) ∧
      (MovedPtr.valid H a = some true ↔ impl.mPointer ≠ NULL) ∧
      (MovedPtr.valid H a = some false ↔ impl.mPointer = NULL)) ∧
    (∀ self : ResourcePtr, (self.valid = true ↔ ∃ s : SlotId, self.mSlot = some s) ∧
      (self.valid = false ↔ self.mSlot = none)) ∧
    (∀ (H : Heap) (a : Addr), ScopedPtr.valid (ScopedPtr.ctor H a) a = some false ∧
      MovedPtr.valid (MovedPtr.ctor H a) a = some false) ∧
    (∀ (w : World) (h : HandleId), w.handles h = none →
      ∃ p : ResourcePtr, (ResourcePtr.ctor w h).handles h = some p ∧ p.valid = false) ∧
    (∀ (H : Heap) (n : Nat) (k : Kind) (impl : SmartPtrImpl),
      H.objs (Addr.obj n) = some (k, impl) →
      ScopedPtr.valid (ScopedPtr.Reset H (Addr.obj n)) (Addr.obj n) = some false ∧
      MovedPtr.valid (MovedPtr.Reset H (Addr.obj n)) (Addr.obj n) = some false ∧
      ScopedPtr.valid (ScopedPtr.Release H (Addr.obj n)).1 (Addr.obj n) = some false ∧
      MovedPtr.valid (MovedPtr.Release H (Addr.obj n)).1 (Addr.obj n) = some false) ∧
    (∀ (w : World) (h : HandleId) (p : ResourcePtr), w.handles h = some p →
      ∃ q : ResourcePtr, (ResourcePtr.Reset w h).handles h = some q ∧ q.valid = false) ∧
    (∀ (H : Heap) (a b : Nat) (k : Kind) (impl : SmartPtrImpl),
      H.objs (Addr.obj a) = some (k, impl) → a ≠ b →
      MovedPtr.valid (MovedPtr.moveCtor H (Addr.obj b) (Addr.obj a)) (Addr.obj a) =
        some false ∧
      (∀ (kb : Kind) (ib : SmartPtrImpl), H.objs (Addr.obj b) = some (kb, ib) →
        MovedPtr.valid (MovedPtr.moveAssign H (Addr.obj b) (Addr.obj a)) (Addr.obj a) =
          some false)) := by
  refine ⟨?_, ?_, ?_, ?_, ?_, ?_, ?_⟩
  · intro H a k impl ha
    by_cases hp : impl.mPointer = NULL <;>
      simp [ScopedPtr.valid, MovedPtr.valid, ha, SmartPtrImpl.IsNull, hp]
  · intro self
    obtain ⟨_ | s⟩ := self <;> simp [ResourcePtr.valid]
  · intro H a
    simp [ScopedPtr.valid, MovedPtr.valid, ScopedPtr.ctor, MovedPtr.ctor, objs_construct,
      SmartPtrImpl.IsNull, SmartPtrImpl.ctor]
  · intro w h hn
    exact ⟨⟨none⟩, by simp [ResourcePtr.ctor, hn, handles_setSlot], by simp [ResourcePtr.valid]⟩
  · intro H n k impl hn
    obtain ⟨⟨r1, -, -⟩, ⟨r2, -, -⟩⟩ := Reset_spec H n k impl hn
    obtain ⟨-, r3, -⟩ := Release_spec H (Addr.obj n) k impl hn
    have r4 : (ScopedPtr.Release H (Addr.obj n)).1.objs (Addr.obj n) =
        some (k, SmartPtrImpl.ctor) := r3
    have r5 : (MovedPtr.Release H (Addr.obj n)).1.objs (Addr.obj n) =
        some (k, SmartPtrImpl.ctor) := r3
    simp [ScopedPtr.valid, MovedPtr.valid, r1, r2, r4, r5, SmartPtrImpl.IsNull,
      SmartPtrImpl.ctor]
  · intro w h p hp
    refine ⟨⟨none⟩, ?_, by simp [ResourcePtr.valid]⟩
    simp [ResourcePtr.Reset, hp, handles_setSlot]
  · intro H a b k impl ha hab
    have hab1 : Addr.obj a ≠ Addr.obj b := fun h => hab (by cases h; rfl)
    obtain ⟨h1, -⟩ := moveCtor_spec H _ _ _ _ ha hab1
    refine ⟨by simp [MovedPtr.valid, h1, SmartPtrImpl.IsNull], ?_⟩
    intro kb ib hb
    obtain ⟨h2, -⟩ := moveAssign_spec H a b _ _ _ _ ha hb hab
    simp [MovedPtr.valid, h2, SmartPtrImpl.IsNull]

/-- Witness of C17: a MovedPtr holding resource 5 is valid, and no longer
after it has been moved from. -/
theorem validity_check_witness :
    (MovedPtr.valid (SmartOp.run Heap.init [.movedCtorPtr 0 5]) (Addr.obj 0) = some true ↔
      (5 : Ptr) ≠ NULL) ∧
    MovedPtr.valid (MovedPtr.moveCtor (SmartOp.run Heap.init [.movedCtorPtr 0 5])
      (Addr.obj 1) (Addr.obj 0)) (Addr.obj 0) = some false :=
  ⟨(validity_check.1 (SmartOp.run Heap.init [.movedCtorPtr 0 5]) (Addr.obj 0) Kind.MovedPtr
      ⟨5, DestroyFn.StaticDestroy⟩ (by decide)).2.2.1,
    (validity_check.2.2.2.2.2.2 (SmartOp.run Heap.init [.movedCtorPtr 0 5]) 0 1 Kind.MovedPtr
      ⟨5, DestroyFn.StaticDestroy⟩ (by decide) (by decide)).1⟩

/-- C18. Release hands ownership out: for a live cell, ScopedPtr or MovedPtr
holding (p, d), p possibly null, Release() returns p, calls no destroy
function, and leaves the object with the cell of a default-constructed one
(null pointer, DoNothing); its later destruction calls only DoNothing on the
null pointer, and a second Release() returns null. -/
theorem release_hands_out (H : Heap) (a : Addr) (k : Kind) (p : Ptr) (d : DestroyFn)
    (ha : H.objs a = some (k, ⟨p, d⟩)) :
    ((SmartPtrImpl.Release H a).2 = p ∧
      (SmartPtrImpl.Release H a).1.objs a = some (k, SmartPtrImpl.ctor) ∧
      (SmartPtrImpl.Release H a).1.destroyLog = H.destroyLog ∧
      (SmartPtrImpl.dtor (SmartPtrImpl.Release H a).1 a).destroyLog =
        H.destroyLog ++ [(DestroyFn.DoNothing, NULL)] ∧
      (SmartPtrImpl.Release (SmartPtrImpl.Release H a).1 a).2 = NULL) ∧
    ((ScopedPtr.Release H a).2 = p ∧
      (ScopedPtr.Release H a).1.objs a = some (k, SmartPtrImpl.ctor) ∧
      (ScopedPtr.Release H a).1.destroyLog = H.destroyLog ∧
      (ScopedPtr.Release H a).1.released = H.released ++ [p] ∧
      (ScopedPtr.dtor (ScopedPtr.Release H a).1 a).destroyLog =
        H.destroyLog ++ [(DestroyFn.DoNothing, NULL)] ∧
      (ScopedPtr.Release (ScopedPtr.Release H a).1 a).2 = NULL) ∧
    ((MovedPtr.Release H a).2 = p ∧
      (MovedPtr.Release H a).1.objs a = some (k, SmartPtrImpl.ctor) ∧
      (MovedPtr.Release H a).1.destroyLog = H.destroyLog ∧
      (MovedPtr.Release H a).1.released = H.released ++ [p] ∧
      (MovedPtr.dtor (MovedPtr.Release H a).1 a).destroyLog =
        H.destroyLog ++ [(DestroyFn.DoNothing, NULL)] ∧
      (MovedPtr.Release (MovedPtr.Release H a).1 a).2 = NULL) := by
  obtain ⟨r1, r2, -, r4, r5, -⟩ := Release_spec H a k ⟨p, d⟩ ha
  have hd : (SmartPtrImpl.dtor (SmartPtrImpl.Release H a).1 a).destroyLog =
      H.destroyLog ++ [(DestroyFn.DoNothing, NULL)] := by
    simp only [SmartPtrImpl.dtor, r2, r4, SmartPtrImpl.ctor]
  have h2 : (SmartPtrImpl.Release (SmartPtrImpl.Release H a).1 a).2 = NULL :=
    (Release_spec _ a k SmartPtrImpl.ctor r2).1
  have m2 : (MovedPtr.Release H a).1.objs a = some (k, SmartPtrImpl.ctor) := r2
  have md : (SmartPtrImpl.dtor (MovedPtr.Release H a).1 a).destroyLog =
      H.destroyLog ++ [(DestroyFn.DoNothing, NULL)] := by
    have m4 : (MovedPtr.Release H a).1.destroyLog = H.destroyLog := r4
    simp only [SmartPtrImpl.dtor, m2, m4, SmartPtrImpl.ctor]
  have mm : (MovedPtr.Release (MovedPtr.Release H a).1 a).2 = NULL :=
    (Release_spec _ a k SmartPtrImpl.ctor m2).1
  have mr : (MovedPtr.Release H a).1.released = H.released ++ [p] := by
    show (SmartPtrImpl.Release H a).1.released ++ [(SmartPtrImpl.Release H a).2] = _
    rw [r5, r1]
  exact ⟨⟨r1, r2, r4, hd, h2⟩, ⟨r1, m2, r4, mr, md, mm⟩, ⟨r1, m2, r4, mr, md, mm⟩⟩

/-- Witness of C18: a ScopedPtr holding resource 5 releases it. -/
theorem release_hands_out_witness :
    (ScopedPtr.Release (SmartOp.run Heap.init [.scopedCtorPtr 0 5]) (Addr.obj 0)).2 = 5 ∧
    (ScopedPtr.dtor (ScopedPtr.Release (SmartOp.run Heap.init [.scopedCtorPtr 0 5])
      (Addr.obj 0)).1 (Addr.obj 0)).destroyLog =
      (SmartOp.run Heap.init [.scopedCtorPtr 0 5]).destroyLog ++
        [(DestroyFn.DoNothing, NULL)] :=
  ⟨(release_hands_out (SmartOp.run Heap.init [.scopedCtorPtr 0 5]) (Addr.obj 0)
      Kind.ScopedPtr 5 DestroyFn.StaticDestroy (by decide)).2.1.1,
    (release_hands_out (SmartOp.run Heap.init [.scopedCtorPtr 0 5]) (Addr.obj 0)
      Kind.ScopedPtr 5 DestroyFn.StaticDestroy (by decide)).2.1.2.2.2.2.1⟩

/-- C19, as amended. Reset: for a live ScopedPtr or MovedPtr of the program holding
(q, d), q possibly null, Reset() calls d on q exactly once and leaves the
handle with the cell of a default-constructed one; Reset(p) calls d on q
exactly once and leaves the handle holding p with StaticDestroy; no other
destroy call is made, so that no destroy function is called on p unless p is
the pointer q the handle held. -/
theorem reset_destroys_old (H : Heap) (n : Nat) (k : Kind) (q : Ptr) (d : DestroyFn)
    (hn : H.objs (Addr.obj n) = some (k, ⟨q, d⟩)) :
    ((ScopedPtr.Reset H (Addr.obj n)).objs (Addr.obj n) =
        some (k, ⟨NULL, DestroyFn.DoNothing⟩) ∧
      (ScopedPtr.Reset H (Addr.obj n)).destroyLog = H.destroyLog ++ [(d, q)] ∧
      (MovedPtr.Reset H (Addr.obj n)).objs (Addr.obj n) =
        some (k, ⟨NULL, DestroyFn.DoNothing⟩) ∧
      (MovedPtr.Reset H (Addr.obj n)).destroyLog = H.destroyLog ++ [(d, q)]) ∧
    (∀ p : Ptr,
      (ScopedPtr.ResetPtr H (Addr.obj n) p).objs (Addr.obj n) =
        some (k, ⟨p, DestroyFn.StaticDestroy⟩) ∧
      (ScopedPtr.ResetPtr H (Addr.obj n) p).destroyLog = H.destroyLog ++ [(d, q)] ∧
      (MovedPtr.ResetPtr H (Addr.obj n) p).objs (Addr.obj n) =
        some (k, ⟨p, DestroyFn.StaticDestroy⟩) ∧
      (MovedPtr.ResetPtr H (Addr.obj n) p).destroyLog = H.destroyLog ++ [(d, q)] ∧
      (q ≠ p →
        (ScopedPtr.ResetPtr H (Addr.obj n) p).destroyCount p = H.destroyCount p ∧
        (MovedPtr.ResetPtr H (Addr.obj n) p).destroyCount p = H.destroyCount p)) := by
  obtain ⟨⟨r1, r2, -⟩, ⟨r3, r4, -⟩⟩ := Reset_spec H n k ⟨q, d⟩ hn
  refine ⟨⟨r1, r2, r3, r4⟩, ?_⟩
  intro p
  obtain ⟨⟨s1, s2, -⟩, ⟨s3, s4, -⟩⟩ := ResetPtr_spec H n k ⟨q, d⟩ p hn
  refine ⟨s1, s2, s3, s4, ?_⟩
  intro hqp
  simp [Heap.destroyCount, s2, s4, List.count_singleton, hqp]

/-- Witness of the amended C19: a ScopedPtr holding resource 5 is reset to
resource 6. -/
theorem reset_destroys_old_witness :
    (ScopedPtr.ResetPtr (SmartOp.run Heap.init [.scopedCtorPtr 0 5]) (Addr.obj 0) 6).objs
      (Addr.obj 0) = some (Kind.ScopedPtr, ⟨6, DestroyFn.StaticDestroy⟩) ∧
    (ScopedPtr.ResetPtr (SmartOp.run Heap.init [.scopedCtorPtr 0 5]) (Addr.obj 0)
      6).destroyLog =
      (SmartOp.run Heap.init [.scopedCtorPtr 0 5]).destroyLog ++
        [(DestroyFn.StaticDestroy, 5)] :=
  ⟨((reset_destroys_old (SmartOp.run Heap.init [.scopedCtorPtr 0 5]) 0 Kind.ScopedPtr 5
      DestroyFn.StaticDestroy (by decide)).2 6).1,
    ((reset_destroys_old (SmartOp.run Heap.init [.scopedCtorPtr 0 5]) 0 Kind.ScopedPtr 5
      DestroyFn.StaticDestroy (by decide)).2 6).2.1⟩

/-- Counterexample to C19 as stated: a ScopedPtr that holds resource 7 is reset
to the pointer 7 it already holds. StaticDestroy is called on resource 7, and
the handle holds 7 afterwards. -/
theorem reset_to_own_pointer_destroys_it :
    (SmartOp.run Heap.init [.scopedCtorPtr 0 7]).objs (Addr.obj 0) =
      some (Kind.ScopedPtr, ⟨7, DestroyFn.StaticDestroy⟩) ∧
    (SmartOp.run Heap.init [.scopedCtorPtr 0 7]).destroyLog = [] ∧
    (ScopedPtr.ResetPtr (SmartOp.run Heap.init [.scopedCtorPtr 0 7]) (Addr.obj 0) 7).objs
      (Addr.obj 0) = some (Kind.ScopedPtr, ⟨7, DestroyFn.StaticDestroy⟩) ∧
    (ScopedPtr.ResetPtr (SmartOp.run Heap.init [.scopedCtorPtr 0 7]) (Addr.obj 0)
      7).destroyLog = [(DestroyFn.StaticDestroy, 7)] := by
  decide

/-- Swapping the cells of two objects twice gives back the state before. -/
theorem Swap_Swap (H : Heap) (a b : Addr) :
    SmartPtrImpl.Swap (SmartPtrImpl.Swap H a b) a b = H := by
  cases ha : H.objs a with
  | none => simp [SmartPtrImpl.Swap, ha]
  | some oa =>
    cases hb : H.objs b with
    | none => simp [SmartPtrImpl.Swap, ha, hb]
    | some ob =>
      obtain ⟨ka, ia⟩ := oa
      obtain ⟨kb, ib⟩ := ob
      have h1 := objs_Swap H a b ka kb ia ib ha hb
      have ha1 : (SmartPtrImpl.Swap H a b).objs a = some (if a = b then kb else ka,
          if a = b then ia else ib) := by
        rw [h1]
        by_cases hab : a = b <;> simp [hab]
      have hb1 : (SmartPtrImpl.Swap H a b).objs b = some (kb, ia) := by
        rw [h1, if_pos rfl]
      have hobjs : (SmartPtrImpl.Swap (SmartPtrImpl.Swap H a b) a b).objs = H.objs := by
        funext x
        rw [objs_Swap _ a b _ _ _ _ ha1 hb1, h1]
        by_cases hxb : x = b
        · subst hxb
          by_cases hab : a = x
          · subst hab
            rw [ha] at hb
            simp only [Option.some.injEq, Prod.mk.injEq] at hb
            simp [ha, hb.1, hb.2]
          · simp [hab, hb]
        · by_cases hxa : x = a
          · subst hxa
            simp [hxb, ha]
          · simp [hxb, hxa]
      have hlog : (SmartPtrImpl.Swap (SmartPtrImpl.Swap H a b) a b).destroyLog =
          H.destroyLog := by simp
      have hrel : (SmartPtrImpl.Swap (SmartPtrImpl.Swap H a b) a b).released =
          H.released := by simp
      have hado : (SmartPtrImpl.Swap (SmartPtrImpl.Swap H a b) a b).adopted = H.adopted := by
        simp
      generalize SmartPtrImpl.Swap (SmartPtrImpl.Swap H a b) a b = R at hobjs hlog hrel hado
      cases R
      cases H
      simp only at hobjs hlog hrel hado
      subst hobjs hlog hrel hado
      rfl

/-- Swapping the cell of an object with itself changes nothing. -/
theorem Swap_self (H : Heap) (a : Addr) : SmartPtrImpl.Swap H a a = H := by
  cases ha : H.objs a with
  | none => simp [SmartPtrImpl.Swap, ha]
  | some oa =>
    obtain ⟨ka, ia⟩ := oa
    have hobjs : (SmartPtrImpl.Swap H a a).objs = H.objs := by
      funext x
      rw [objs_Swap H a a ka ka ia ia ha ha]
      by_cases hx : x = a
      · subst hx
        simp [ha]
      · simp [hx]
    have hlog : (SmartPtrImpl.Swap H a a).destroyLog = H.destroyLog := by simp
    have hrel : (SmartPtrImpl.Swap H a a).released = H.released := by simp
    have hado : (SmartPtrImpl.Swap H a a).adopted = H.adopted := by simp
    generalize SmartPtrImpl.Swap H a a = R at hobjs hlog hrel hado
    cases R
    cases H
    simp only at hobjs hlog hrel hado
    subst hobjs hlog hrel hado
    rfl

/-- C20. Cell swap: for two different live cells a and b holding (pa, da) and
(pb, db), after a.Swap(b) the cell a holds (pb, db) and b holds (pa, da), every
other cell is as before and no destroy function has been called; swapping
twice, or swapping a cell with itself, gives back the state before. The
members ScopedPtr::Swap and MovedPtr::Swap and the free swap functions are
this swap of the cells. -/
theorem cell_swap (H : Heap) (a b : Addr) (ka kb : Kind) (pa pb : Ptr) (da db : DestroyFn)
    (ha : H.objs a = some (ka, ⟨pa, da⟩)) (hb : H.objs b = some (kb, ⟨pb, db⟩))
    (hab : a ≠ b) :
    (SmartPtrImpl.Swap H a b).objs a = some (ka, ⟨pb, db⟩) ∧
    (SmartPtrImpl.Swap H a b).objs b = some (kb, ⟨pa, da⟩) ∧
    (∀ x : Addr, x ≠ a → x ≠ b → (SmartPtrImpl.Swap H a b).objs x = H.objs x) ∧
    (SmartPtrImpl.Swap H a b).destroyLog = H.destroyLog ∧
    (SmartPtrImpl.Swap H a b).released = H.released ∧
    (SmartPtrImpl.Swap H a b).adopted = H.adopted ∧
    SmartPtrImpl.Swap (SmartPtrImpl.Swap H a b) a b = H ∧
    SmartPtrImpl.Swap H a a = H ∧
    SmartPtrImpl.swap H a b = SmartPtrImpl.Swap H a b ∧
    ScopedPtr.Swap H a b = SmartPtrImpl.Swap H a b ∧
    MovedPtr.Swap H a b = SmartPtrImpl.Swap H a b ∧
    ScopedPtr.swap H a b = SmartPtrImpl.Swap H a b ∧
    MovedPtr.swap H a b = SmartPtrImpl.Swap H a b := by
  have h1 := objs_Swap H a b _ _ _ _ ha hb
  refine ⟨?_, ?_, ?_, by simp, by simp, by simp, Swap_Swap H a b, Swap_self H a,
    rfl, rfl, rfl, rfl, rfl⟩
  · rw [h1, if_neg hab, if_pos rfl]
  · rw [h1, if_pos rfl]
  · intro x hxa hxb
    rw [h1, if_neg hxb, if_neg hxa]

/-- Witness of C20: two MovedPtr objects holding resources 5 and 6 are
swapped. -/
theorem cell_swap_witness :
    (SmartPtrImpl.Swap (SmartOp.run Heap.init [.movedCtorPtr 0 5, .movedCtorPtr 1 6])
      (Addr.obj 0) (Addr.obj 1)).objs (Addr.obj 0) =
      some (Kind.MovedPtr, ⟨6, DestroyFn.StaticDestroy⟩) ∧
    (SmartPtrImpl.Swap (SmartOp.run Heap.init [.movedCtorPtr 0 5, .movedCtorPtr 1 6])
      (Addr.obj 0) (Addr.obj 1)).destroyLog =
      (SmartOp.run Heap.init [.movedCtorPtr 0 5, .movedCtorPtr 1 6]).destroyLog :=
  ⟨(cell_swap (SmartOp.run Heap.init [.movedCtorPtr 0 5, .movedCtorPtr 1 6])
      (Addr.obj 0) (Addr.obj 1) Kind.MovedPtr Kind.MovedPtr 5 6 DestroyFn.StaticDestroy
      DestroyFn.StaticDestroy (by decide) (by decide) (by decide)).1,
    (cell_swap (SmartOp.run Heap.init [.movedCtorPtr 0 5, .movedCtorPtr 1 6])
      (Addr.obj 0) (Addr.obj 1) Kind.MovedPtr Kind.MovedPtr 5 6 DestroyFn.StaticDestroy
      DestroyFn.StaticDestroy (by decide) (by decide) (by decide)).2.2.2.1⟩

/-! ## Destruction, carrier round trip, self-assignment -/

theorem dtor_spec (H : Heap) (a : Addr) (k : Kind) (i : SmartPtrImpl)
    (ha : H.objs a = some (k, i)) :
    (SmartPtrImpl.dtor H a).destroyLog = H.destroyLog ++ [(i.mDestroyFn, i.mPointer)] ∧
    (SmartPtrImpl.dtor H a).objs a = none ∧
    (∀ x : Addr, x ≠ a → (SmartPtrImpl.dtor H a).objs x = H.objs x) := by
  refine ⟨?_, objs_dtor_self H a, fun x hx => objs_dtor_other H a x hx⟩
  simp only [SmartPtrImpl.dtor, ha]

/-- C21, as amended. Cell destruction: the destructor of a live cell holding (p, d)
calls d exactly once, on p, whether p is null or not, and makes no other
call. For an empty cell this call is DoNothing on the null pointer after
default construction, Release or a move out of the cell, which deletes
nothing; it is StaticDestroy on the null pointer after construction from a
null pointer, which deletes nothing; and it is the custom destroy function,
called with the null pointer, after construction from a null pointer with a
custom destroy function. -/
theorem cell_destruction (H : Heap) (a : Addr) (k : Kind) (p : Ptr) (d : DestroyFn)
    (ha : H.objs a = some (k, ⟨p, d⟩)) :
    ((SmartPtrImpl.dtor H a).destroyLog = H.destroyLog ++ [(d, p)] ∧
      (SmartPtrImpl.dtor H a).objs a = none ∧
      (∀ x : Addr, x ≠ a → (SmartPtrImpl.dtor H a).objs x = H.objs x)) ∧
    ((SmartPtrImpl.dtor (H.construct a k SmartPtrImpl.ctor) a).destroyLog =
        H.destroyLog ++ [(DestroyFn.DoNothing, NULL)] ∧
      (SmartPtrImpl.dtor (SmartPtrImpl.Release H a).1 a).destroyLog =
        H.destroyLog ++ [(DestroyFn.DoNothing, NULL)] ∧
      (∀ b : Addr, a ≠ b →
        (SmartPtrImpl.dtor (MovedPtr.moveCtor H b a) a).destroyLog =
          H.destroyLog ++ [(DestroyFn.DoNothing, NULL)]) ∧
      DoNothing NULL = []) ∧
    ((SmartPtrImpl.dtor (H.construct a k (SmartPtrImpl.ctorPtr NULL)) a).destroyLog =
        H.destroyLog ++ [(DestroyFn.StaticDestroy, NULL)] ∧
      StaticDestroy NULL = []) ∧
    (∀ f : DestroyFn,
      (SmartPtrImpl.dtor (H.construct a k (SmartPtrImpl.ctorPtrFn NULL f)) a).destroyLog =
        H.destroyLog ++ [(f, NULL)]) := by
  have hc : ∀ i : SmartPtrImpl, (SmartPtrImpl.dtor (H.construct a k i) a).destroyLog =
      H.destroyLog ++ [(i.mDestroyFn, i.mPointer)] := by
    intro i
    have h1 : (H.construct a k i).objs a = some (k, i) := by
      rw [objs_construct, if_pos rfl]
    exact (dtor_spec _ a k i h1).1
  refine ⟨dtor_spec H a k ⟨p, d⟩ ha, ⟨hc SmartPtrImpl.ctor, ?_, ?_, rfl⟩,
    ⟨hc (SmartPtrImpl.ctorPtr NULL), by simp [StaticDestroy]⟩,
    fun f => hc (SmartPtrImpl.ctorPtrFn NULL f)⟩
  · obtain ⟨-, r2, -, r4, -, -⟩ := Release_spec H a k ⟨p, d⟩ ha
    rw [(dtor_spec _ a k SmartPtrImpl.ctor r2).1, r4]
    rfl
  · intro b hab
    obtain ⟨m1, -, -, m4, -, -⟩ := moveCtor_spec H a b k ⟨p, d⟩ ha hab
    rw [(dtor_spec _ a k _ m1).1, m4]

/-- Witness of the amended C21: the destructor of a ScopedPtr holding resource 5
calls StaticDestroy on it. -/
theorem cell_destruction_witness :
    (SmartPtrImpl.dtor (SmartOp.run Heap.init [.scopedCtorPtr 0 5]) (Addr.obj 0)).destroyLog =
      (SmartOp.run Heap.init [.scopedCtorPtr 0 5]).destroyLog ++
        [(DestroyFn.StaticDestroy, 5)] :=
  (cell_destruction (SmartOp.run Heap.init [.scopedCtorPtr 0 5]) (Addr.obj 0) Kind.ScopedPtr 5
    DestroyFn.StaticDestroy (by decide)).1.1

/-- Counterexample to C21 as stated: a cell constructed from the null pointer
with the custom destroy function number 1 is empty, and its destructor calls
that function, with the null pointer. -/
theorem dtor_calls_custom_fn_on_null :
    (Heap.init.construct (Addr.obj 0) Kind.MovedPtr
      (SmartPtrImpl.ctorPtrFn NULL (DestroyFn.custom 1))).objs (Addr.obj 0) =
      some (Kind.MovedPtr, ⟨NULL, DestroyFn.custom 1⟩) ∧
    (SmartPtrImpl.ctorPtrFn NULL (DestroyFn.custom 1)).IsNull = true ∧
    (SmartPtrImpl.dtor (Heap.init.construct (Addr.obj 0) Kind.MovedPtr
      (SmartPtrImpl.ctorPtrFn NULL (DestroyFn.custom 1))) (Addr.obj 0)).destroyLog =
      [(DestroyFn.custom 1, NULL)] := by
  decide

/-- C22, as amended. Loader return channel round trip: in a state whose ownership
is in order, let a and b be two different objects of the program, a being a
live MovedPtr that holds (p, d). The conversion of a to MovedPtrRef yields
the carrier (p, d) and leaves a empty. Constructing b from the carrier leaves
b holding exactly (p, d) and calls no destroy function. Assigning the carrier
to b, which held (q, dq), leaves b holding exactly (p, d), and the only
destroy call made is dq on q, once: no destroy function is called on p,
unless p and q are both the null pointer, when dq is called on the null
pointer; and when b held a resource q, that resource is destroyed exactly
once, by StaticDestroy. -/
theorem carrier_round_trip (H : Heap) (hH : H.Owned) (a b : Nat) (k : Kind) (p : Ptr)
    (d : DestroyFn) (ha : H.objs (Addr.obj a) = some (k, ⟨p, d⟩)) (hab : a ≠ b) :
    ((MovedPtr.toRef H (Addr.obj a)).2 = some ⟨p, d⟩ ∧
      (MovedPtr.toRef H (Addr.obj a)).1.objs (Addr.obj a) =
        some (k, ⟨NULL, DestroyFn.DoNothing⟩) ∧
      (MovedPtr.toRef H (Addr.obj a)).1.destroyLog = H.destroyLog) ∧
    ((MovedPtr.convCtor H (Addr.obj b) (Addr.obj a)).objs (Addr.obj a) =
        some (k, ⟨NULL, DestroyFn.DoNothing⟩) ∧
      (MovedPtr.convCtor H (Addr.obj b) (Addr.obj a)).objs (Addr.obj b) =
        some (Kind.MovedPtr, ⟨p, d⟩) ∧
      (MovedPtr.convCtor H (Addr.obj b) (Addr.obj a)).destroyLog = H.destroyLog) ∧
    (∀ (kb : Kind) (q : Ptr) (dq : DestroyFn), H.objs (Addr.obj b) = some (kb, ⟨q, dq⟩) →
      (MovedPtr.convAssign H (Addr.obj b) (Addr.obj a)).objs (Addr.obj a) =
        some (k, ⟨NULL, DestroyFn.DoNothing⟩) ∧
      (MovedPtr.convAssign H (Addr.obj b) (Addr.obj a)).objs (Addr.obj b) =
        some (kb, ⟨p, d⟩) ∧
      (MovedPtr.convAssign H (Addr.obj b) (Addr.obj a)).destroyLog =
        H.destroyLog ++ [(dq, q)] ∧
      (p ≠ NULL ∨ q ≠ NULL →
        q ≠ p ∧
        (MovedPtr.convAssign H (Addr.obj b) (Addr.obj a)).destroyCount p =
          H.destroyCount p) ∧
      (p = NULL → q = NULL →
        (MovedPtr.convAssign H (Addr.obj b) (Addr.obj a)).destroyCount p =
          H.destroyCount p + 1) ∧
      (q ≠ NULL →
        dq = DestroyFn.StaticDestroy ∧ H.destroyCount q = 0 ∧
        (MovedPtr.convAssign H (Addr.obj b) (Addr.obj a)).destroyCount q = 1)) := by
  have hab1 : Addr.obj a ≠ Addr.obj b := fun h => hab (by cases h; rfl)
  have hat : Addr.obj a ≠ Addr.temp := fun h => by cases h
  refine ⟨?_, ?_, ?_⟩
  · obtain ⟨-, r2, -, r4, -, -⟩ := Release_spec H (Addr.obj a) k ⟨p, d⟩ ha
    refine ⟨?_, ?_, ?_⟩
    · simp only [MovedPtr.toRef, ha, SmartPtrImpl.Get, SmartPtrImpl.GetDestroyFn]
    · simp only [MovedPtr.toRef, ha]
      exact r2
    · simp only [MovedPtr.toRef, ha]
      exact r4
  · rw [convCtor_eq_moveCtor H _ _ _ ha (Ne.symm hab1)]
    obtain ⟨h1, h2, -, h4, -, -⟩ := moveCtor_spec H _ _ _ _ ha hab1
    exact ⟨h1, h2, h4⟩
  · intro kb q dq hb
    rw [convAssign_eq_moveAssign H _ _ _ ha hat]
    obtain ⟨h1, h2, h3, -, -⟩ := moveAssign_spec H a b _ _ _ _ ha hb hab
    refine ⟨h1, h2, h3, ?_, ?_, ?_⟩
    · intro hn
      have hne := owned_distinct hH _ _ _ _ _ _ _ _ ha hb hab1 hn
      exact ⟨hne, destroyCount_append_ne _ H dq p q h3 hne⟩
    · intro hp hq
      rw [hp, ← hq]
      exact destroyCount_append_self _ H dq q h3
    · intro hq
      obtain ⟨g1, g2⟩ := owned_held_fresh hH _ _ _ _ hb hq
      refine ⟨g1, g2, ?_⟩
      rw [destroyCount_append_self _ H dq q h3, g2]

/-- Witness of the amended C22: object 0 holding resource 7 is passed by value
into the new object 2 and into object 1, which holds resource 8. -/
theorem carrier_round_trip_witness :
    (MovedPtr.convCtor (SmartOp.run Heap.init [.movedCtorPtr 0 7, .movedCtorPtr 1 8])
      (Addr.obj 2) (Addr.obj 0)).objs (Addr.obj 2) =
      some (Kind.MovedPtr, ⟨7, DestroyFn.StaticDestroy⟩) ∧
    (MovedPtr.convAssign (SmartOp.run Heap.init [.movedCtorPtr 0 7, .movedCtorPtr 1 8])
      (Addr.obj 1) (Addr.obj 0)).destroyLog =
      (SmartOp.run Heap.init [.movedCtorPtr 0 7, .movedCtorPtr 1 8]).destroyLog ++
        [(DestroyFn.StaticDestroy, 8)] ∧
    (MovedPtr.convAssign (SmartOp.run Heap.init [.movedCtorPtr 0 7, .movedCtorPtr 1 8])
      (Addr.obj 1) (Addr.obj 0)).destroyCount 7 =
      (SmartOp.run Heap.init [.movedCtorPtr 0 7, .movedCtorPtr 1 8]).destroyCount 7 :=
  ⟨(carrier_round_trip (SmartOp.run Heap.init [.movedCtorPtr 0 7, .movedCtorPtr 1 8])
      (inv_run [.movedCtorPtr 0 7, .movedCtorPtr 1 8] inv_init (by decide)).1 0 2
      Kind.MovedPtr 7 DestroyFn.StaticDestroy (by decide) (by decide)).2.1.2.1,
    ((carrier_round_trip (SmartOp.run Heap.init [.movedCtorPtr 0 7, .movedCtorPtr 1 8])
      (inv_run [.movedCtorPtr 0 7, .movedCtorPtr 1 8] inv_init (by decide)).1 0 1
      Kind.MovedPtr 7 DestroyFn.StaticDestroy (by decide) (by decide)).2.2 Kind.MovedPtr 8
      DestroyFn.StaticDestroy (by decide)).2.2.1,
    (((carrier_round_trip (SmartOp.run Heap.init [.movedCtorPtr 0 7, .movedCtorPtr 1 8])
      (inv_run [.movedCtorPtr 0 7, .movedCtorPtr 1 8] inv_init (by decide)).1 0 1
      Kind.MovedPtr 7 DestroyFn.StaticDestroy (by decide) (by decide)).2.2 Kind.MovedPtr 8
      DestroyFn.StaticDestroy (by decide)).2.2.2.1 (Or.inl (by decide))).2⟩

/-- Counterexample to C22 as stated: objects 0 and 1 are default-constructed
MovedPtr, a state whose ownership is in order. Object 0 holds the null
pointer p with DoNothing. Converting it to a carrier and assigning the carrier
to object 1 calls the destroy function of object 1, DoNothing, on the null
pointer, which is p. -/
theorem carrier_assign_between_empty_calls_destroy_fn :
    (SmartOp.run Heap.init [.movedCtor 0, .movedCtor 1]).Owned ∧
    (SmartOp.run Heap.init [.movedCtor 0, .movedCtor 1]).objs (Addr.obj 0) =
      some (Kind.MovedPtr, ⟨NULL, DestroyFn.DoNothing⟩) ∧
    (SmartOp.run Heap.init [.movedCtor 0, .movedCtor 1]).objs (Addr.obj 1) =
      some (Kind.MovedPtr, ⟨NULL, DestroyFn.DoNothing⟩) ∧
    (SmartOp.run Heap.init [.movedCtor 0, .movedCtor 1]).destroyCount NULL = 0 ∧
    (MovedPtr.convAssign (SmartOp.run Heap.init [.movedCtor 0, .movedCtor 1])
      (Addr.obj 1) (Addr.obj 0)).destroyLog = [(DestroyFn.DoNothing, NULL)] ∧
    (MovedPtr.convAssign (SmartOp.run Heap.init [.movedCtor 0, .movedCtor 1])
      (Addr.obj 1) (Addr.obj 0)).destroyCount NULL = 1 :=
  ⟨(inv_run [.movedCtor 0, .movedCtor 1] inv_init (by decide)).1, by decide⟩

/-! ## Key order -/

theorem lt_iff (a b : ResourceKey) : a.lt b = true ↔ a.mKey < b.mKey := by
  simp [ResourceKey.lt]

/-- C23. Key order is a strict weak order: operator< on the keys (ImageKey,
ShaderKey and FontKey compare their key information in the same way) is
irreflexive, asymmetric and transitive, and the induced equivalence (neither
k1 < k2 nor k2 < k1) is reflexive, symmetric and transitive. -/
theorem key_order_strict_weak :
    (∀ k : ResourceKey, k.lt k = false) ∧
    (∀ k1 k2 : ResourceKey, k1.lt k2 = true → k2.lt k1 = false) ∧
    (∀ k1 k2 k3 : ResourceKey, k1.lt k2 = true → k2.lt k3 = true → k1.lt k3 = true) ∧
    (∀ k : ResourceKey, Equivalent k k = true) ∧
    (∀ k1 k2 : ResourceKey, Equivalent k1 k2 = true → Equivalent k2 k1 = true) ∧
    (∀ k1 k2 k3 : ResourceKey, Equivalent k1 k2 = true → Equivalent k2 k3 = true →
      Equivalent k1 k3 = true) := by
  refine ⟨?_, ?_, ?_, ?_, ?_, ?_⟩
  · intro k
    rw [Bool.eq_false_iff, Ne, lt_iff]
    exact lt_irrefl _
  · intro k1 k2 h
    rw [Bool.eq_false_iff, Ne, lt_iff]
    exact lt_asymm ((lt_iff k1 k2).1 h)
  · intro k1 k2 k3 h12 h23
    rw [lt_iff] at h12 h23 ⊢
    exact lt_trans h12 h23
  · intro k
    exact (equivalent_iff k k).2 rfl
  · intro k1 k2 h
    exact (equivalent_iff k2 k1).2 ((equivalent_iff k1 k2).1 h).symm
  · intro k1 k2 k3 h12 h23
    exact (equivalent_iff k1 k3).2
      (((equivalent_iff k1 k2).1 h12).trans ((equivalent_iff k2 k3).1 h23))

/-- C26. Identity ignores the loader: operator< on the keys depends only on the
key information mKey; two keys with equal mKey are not ordered either way,
whatever their loaders are, and so are equivalent; in particular two keys made
by ImageKey::FromMemory with the same address, size and tag are equivalent
whatever the bytes at the address decode to. -/
theorem identity_ignores_loader :
    (∀ (l1 l2 l3 l4 : Unit → Except String Resource) (s t : String),
      ResourceKey.lt ⟨l1, s⟩ ⟨l2, t⟩ = ResourceKey.lt ⟨l3, s⟩ ⟨l4, t⟩) ∧
    (∀ k1 k2 : ResourceKey, k1.mKey = k2.mKey →
      k1.lt k2 = false ∧ k2.lt k1 = false ∧ Equivalent k1 k2 = true) ∧
    (∀ (load1 load2 : Nat → Nat → Except String Resource)
      (TaggerMemory : Nat → Nat → String → String) (data size : Nat) (tag : String),
      Equivalent (ImageKey.FromMemory load1 TaggerMemory data size tag)
        (ImageKey.FromMemory load2 TaggerMemory data size tag) = true) := by
  refine ⟨fun _ _ _ _ _ _ => rfl, ?_, ?_⟩
  · intro k1 k2 h
    refine ⟨?_, ?_, (equivalent_iff k1 k2).2 h⟩
    · rw [Bool.eq_false_iff, Ne, lt_iff, h]
      exact lt_irrefl _
    · rw [Bool.eq_false_iff, Ne, lt_iff, h]
      exact lt_irrefl _
  · intro load1 load2 tg data size tag
    exact (equivalent_iff _ _).2 rfl

/-- Witness of C26: the two sample keys with the same key information. -/
theorem identity_ignores_loader_witness :
    sizeKey.lt sizeKeyAgain = false ∧ sizeKeyAgain.lt sizeKey = false ∧
      Equivalent sizeKey sizeKeyAgain = true :=
  identity_ignores_loader.2.1 sizeKey sizeKeyAgain rfl

/-! ## Move assignment -/

/-- C28, as amended. MovedPtr self-assignment is harmless: for a live MovedPtr a
of the program holding (p, d), no local variable being alive, the
self-assignment a = a leaves a holding exactly (p, d) and every other object
as it was; the only destroy call made is DoNothing on the null pointer, by
the emptied local variable. Hence no destroy function is called on p unless p
is the null pointer, and when p is the null pointer exactly one is, DoNothing,
which deletes nothing. -/
theorem self_assignment_harmless (H : Heap) (a : Nat) (k : Kind) (p : Ptr) (d : DestroyFn)
    (ha : H.objs (Addr.obj a) = some (k, ⟨p, d⟩)) :
    (MovedPtr.moveAssign H (Addr.obj a) (Addr.obj a)).objs (Addr.obj a) = some (k, ⟨p, d⟩) ∧
    (∀ m : Nat, (MovedPtr.moveAssign H (Addr.obj a) (Addr.obj a)).objs (Addr.obj m) =
      H.objs (Addr.obj m)) ∧
    (MovedPtr.moveAssign H (Addr.obj a) (Addr.obj a)).destroyLog =
      H.destroyLog ++ [(DestroyFn.DoNothing, NULL)] ∧
    DoNothing NULL = [] ∧
    (p ≠ NULL → (MovedPtr.moveAssign H (Addr.obj a) (Addr.obj a)).destroyCount p =
      H.destroyCount p) ∧
    (p = NULL → (MovedPtr.moveAssign H (Addr.obj a) (Addr.obj a)).destroyCount p =
      H.destroyCount p + 1) := by
  have hat : Addr.obj a ≠ Addr.temp := fun h => by cases h
  obtain ⟨h1, h2, h3, h4, -, -⟩ := moveCtor_spec H (Addr.obj a) Addr.temp k ⟨p, d⟩ ha hat
  obtain ⟨g1, -, g3, g4, -, -⟩ := swap_dtor_temp_spec _ a _ _ _ _ h1 h2
  have hlog : (MovedPtr.moveAssign H (Addr.obj a) (Addr.obj a)).destroyLog =
      H.destroyLog ++ [(DestroyFn.DoNothing, NULL)] := by
    rw [← h4]
    exact g4
  refine ⟨g1, ?_, hlog, rfl, ?_, ?_⟩
  · intro m
    by_cases hm : m = a
    · subst hm
      rw [ha]
      exact g1
    · have hma : Addr.obj m ≠ Addr.obj a := fun h => hm (by cases h; rfl)
      have hmt : Addr.obj m ≠ Addr.temp := fun h => by cases h
      exact (g3 m hm).trans (h3 _ hma hmt)
  · intro hp
    have hne : NULL ≠ p := fun h => hp h.symm
    exact destroyCount_append_ne _ H DestroyFn.DoNothing p NULL hlog hne
  · intro hp
    rw [hp]
    exact destroyCount_append_self _ H DestroyFn.DoNothing NULL hlog

/-- Witness of the amended C28: object 0 holding resource 5 is assigned to
itself. -/
theorem self_assignment_harmless_witness :
    (MovedPtr.moveAssign (SmartOp.run Heap.init [.movedCtorPtr 0 5]) (Addr.obj 0)
      (Addr.obj 0)).objs (Addr.obj 0) = some (Kind.MovedPtr, ⟨5, DestroyFn.StaticDestroy⟩) ∧
    (MovedPtr.moveAssign (SmartOp.run Heap.init [.movedCtorPtr 0 5]) (Addr.obj 0)
      (Addr.obj 0)).destroyCount 5 = (SmartOp.run Heap.init [.movedCtorPtr 0 5]).destroyCount 5 :=
  ⟨(self_assignment_harmless (SmartOp.run Heap.init [.movedCtorPtr 0 5]) 0 Kind.MovedPtr 5
      DestroyFn.StaticDestroy (by decide)).1,
    (self_assignment_harmless (SmartOp.run Heap.init [.movedCtorPtr 0 5]) 0 Kind.MovedPtr 5
      DestroyFn.StaticDestroy (by decide)).2.2.2.2.1 (by decide)⟩

/-- Counterexample to C28 as stated: object 0 is a default-constructed MovedPtr;
it holds the null pointer p with DoNothing. The self-assignment leaves it as
it was and calls DoNothing on the null pointer, which is p. -/
theorem self_assignment_of_empty_calls_destroy_fn :
    (SmartOp.run Heap.init [.movedCtor 0]).objs (Addr.obj 0) =
      some (Kind.MovedPtr, ⟨NULL, DestroyFn.DoNothing⟩) ∧
    (SmartOp.run Heap.init [.movedCtor 0]).destroyCount NULL = 0 ∧
    (MovedPtr.moveAssign (SmartOp.run Heap.init [.movedCtor 0]) (Addr.obj 0)
      (Addr.obj 0)).objs (Addr.obj 0) = some (Kind.MovedPtr, ⟨NULL, DestroyFn.DoNothing⟩) ∧
    (MovedPtr.moveAssign (SmartOp.run Heap.init [.movedCtor 0]) (Addr.obj 0)
      (Addr.obj 0)).destroyLog = [(DestroyFn.DoNothing, NULL)] ∧
    (MovedPtr.moveAssign (SmartOp.run Heap.init [.movedCtor 0]) (Addr.obj 0)
      (Addr.obj 0)).destroyCount NULL = 1 := by
  decide

/-- C29. Move assignment destroys the overwritten resource: in a state whose
ownership is in order, for two different live objects a and b of the
program, a holding (p, d) and b holding (q, dq) with q non-null, the state
after b = a records exactly one new destroy call, dq on q, which is
StaticDestroy on a resource not destroyed before; b then holds (p, d). The
pointer p formerly held by a is not q, and no destroy function is called on
it. -/
theorem move_assign_destroys_overwritten (H : Heap) (hH : H.Owned) (a b : Nat)
    (ka kb : Kind) (p q : Ptr) (d dq : DestroyFn)
    (ha : H.objs (Addr.obj a) = some (ka, ⟨p, d⟩))
    (hb : H.objs (Addr.obj b) = some (kb, ⟨q, dq⟩)) (hab : a ≠ b) (hq : q ≠ NULL) :
    (MovedPtr.moveAssign H (Addr.obj b) (Addr.obj a)).destroyLog =
      H.destroyLog ++ [(dq, q)] ∧
    (((MovedPtr.moveAssign H (Addr.obj b) (Addr.obj a)).destroyLog.drop
      H.destroyLog.length).count (dq, q) = 1) ∧
    dq = DestroyFn.StaticDestroy ∧
    H.destroyCount q = 0 ∧
    (MovedPtr.moveAssign H (Addr.obj b) (Addr.obj a)).destroyCount q = 1 ∧
    (MovedPtr.moveAssign H (Addr.obj b) (Addr.obj a)).objs (Addr.obj b) =
      some (kb, ⟨p, d⟩) ∧
    q ≠ p ∧
    (MovedPtr.moveAssign H (Addr.obj b) (Addr.obj a)).destroyCount p =
      H.destroyCount p := by
  have hab1 : Addr.obj a ≠ Addr.obj b := fun h => hab (by cases h; rfl)
  obtain ⟨-, h2, h3, -, -⟩ := moveAssign_spec H a b _ _ _ _ ha hb hab
  obtain ⟨g1, g2⟩ := owned_held_fresh hH _ _ _ _ hb hq
  have hne := owned_distinct hH _ _ _ _ _ _ _ _ ha hb hab1 (Or.inr hq)
  refine ⟨h3, ?_, g1, g2, ?_, h2, hne, destroyCount_append_ne _ H dq p q h3 hne⟩
  · rw [h3, List.drop_left]
    simp
  · rw [destroyCount_append_self _ H dq q h3, g2]

/-- Witness of C29: object 1 holding resource 8 is assigned object 0 holding
resource 7. -/
theorem move_assign_destroys_overwritten_witness :
    (MovedPtr.moveAssign (SmartOp.run Heap.init [.movedCtorPtr 0 7, .movedCtorPtr 1 8])
      (Addr.obj 1) (Addr.obj 0)).destroyCount 8 = 1 ∧
    (MovedPtr.moveAssign (SmartOp.run Heap.init [.movedCtorPtr 0 7, .movedCtorPtr 1 8])
      (Addr.obj 1) (Addr.obj 0)).destroyCount 7 =
      (SmartOp.run Heap.init [.movedCtorPtr 0 7, .movedCtorPtr 1 8]).destroyCount 7 :=
  ⟨(move_assign_destroys_overwritten
      (SmartOp.run Heap.init [.movedCtorPtr 0 7, .movedCtorPtr 1 8])
      (inv_run [.movedCtorPtr 0 7, .movedCtorPtr 1 8] inv_init (by decide)).1 0 1
      Kind.MovedPtr Kind.MovedPtr 7 8 DestroyFn.StaticDestroy DestroyFn.StaticDestroy
      (by decide) (by decide) (by decide) (by decide)).2.2.2.2.1,
    (move_assign_destroys_overwritten
      (SmartOp.run Heap.init [.movedCtorPtr 0 7, .movedCtorPtr 1 8])
      (inv_run [.movedCtorPtr 0 7, .movedCtorPtr 1 8] inv_init (by decide)).1 0 1
      Kind.MovedPtr Kind.MovedPtr 7 8 DestroyFn.StaticDestroy DestroyFn.StaticDestroy
      (by decide) (by decide) (by decide) (by decide)).2.2.2.2.2.2.2⟩

/-! ## `ResourcePtr::Reset` -/

/-- C30. ResourcePtr::Reset: in a state where registrations match the live
handles, Reset() on a handle h that references slot S lowers the reference
count of S by exactly one, changes no other count, records one DecRef and
leaves h empty. On an empty handle Reset() changes nothing. Hence a second
Reset() changes nothing more, and a later destruction of h records no further
DecRef. -/
theorem reset_handle (w : World) (hw : w.Consistent) (h : HandleId) :
    (∀ S : SlotId, w.handles h = some ⟨some S⟩ →
      (ResourcePtr.Reset w h).refCount S + 1 = w.refCount S ∧
      (∀ s : SlotId, s ≠ S → (ResourcePtr.Reset w h).refCount s = w.refCount s) ∧
      (ResourcePtr.Reset w h).calls = w.calls ++ [SlotCall.DecRef S h] ∧
      (ResourcePtr.Reset w h).handles h = some ⟨none⟩) ∧
    (w.handles h = some ⟨none⟩ → ResourcePtr.Reset w h = w) ∧
    (∀ p : ResourcePtr, w.handles h = some p →
      ResourcePtr.Reset (ResourcePtr.Reset w h) h = ResourcePtr.Reset w h ∧
      (ResourcePtr.dtor (ResourcePtr.Reset w h) h).calls = (ResourcePtr.Reset w h).calls ∧
      (ResourcePtr.dtor (ResourcePtr.Reset w h) h).registered =
        (ResourcePtr.Reset w h).registered) := by
  have hempty : ∀ v : World, v.handles h = some ⟨none⟩ → ResourcePtr.Reset v h = v := by
    intro v hv
    have hu : Function.update v.handles h (some ⟨none⟩) = v.handles := by
      rw [← hv]
      exact Function.update_eq_self h v.handles
    simp only [ResourcePtr.Reset, hv, ResourcePtr.DecRef, World.setSlot, hu]
  have hafter : ∀ p : ResourcePtr, w.handles h = some p →
      (ResourcePtr.Reset w h).handles h = some ⟨none⟩ := by
    intro p hp
    simp [ResourcePtr.Reset, hp, handles_setSlot]
  refine ⟨?_, hempty w, ?_⟩
  · intro S hS
    have hin : h ∈ w.registered S := (hw S h).2 hS
    refine ⟨?_, ?_, ?_, hafter _ hS⟩
    · simp only [ResourcePtr.Reset, hS, ResourcePtr.DecRef, World.refCount, registered_setSlot,
        registered_slotDecRef, Function.update_same]
      exact Finset.card_erase_add_one hin
    · intro s hs
      simp only [ResourcePtr.Reset, hS, ResourcePtr.DecRef, World.refCount, registered_setSlot,
        registered_slotDecRef, Function.update_noteq hs]
    · simp only [ResourcePtr.Reset, hS, ResourcePtr.DecRef, calls_setSlot, calls_slotDecRef]
  · intro p hp
    have h1 := hafter p hp
    refine ⟨hempty _ h1, ?_, ?_⟩
    · simp only [ResourcePtr.dtor, h1, ResourcePtr.DecRef]
    · simp only [ResourcePtr.dtor, h1, ResourcePtr.DecRef]

/-- Witness of C30: the only handle of slot 0 is reset. -/
theorem reset_handle_witness :
    (ResourcePtr.Reset (PtrOp.run World.init [.fromSlot 1 0]) 1).refCount 0 + 1 =
      (PtrOp.run World.init [.fromSlot 1 0]).refCount 0 ∧
    (ResourcePtr.Reset (PtrOp.run World.init [.fromSlot 1 0]) 1).handles 1 = some ⟨none⟩ :=
  ⟨((reset_handle (PtrOp.run World.init [.fromSlot 1 0])
      (consistent_run _ consistent_init) 1).1 0 (by decide)).1,
    ((reset_handle (PtrOp.run World.init [.fromSlot 1 0])
      (consistent_run _ consistent_init) 1).1 0 (by decide)).2.2.2⟩

/-! ## Binary search -/

/-- When every element of the range is less than the value (in particular when
the range is empty), `std::lower_bound` returns `last`. -/
theorem lowerBound_all_less {α : Type} (lt : α → α → Bool) (range : List α) (value : α)
    (h : ∀ x ∈ range, lt x value = true) : lowerBound lt range value = range.length := by
  induction range with
  | nil => rfl
  | cons x xs ih =>
    have hx : lt x value = true := h x (List.mem_cons_self _ _)
    have ih1 := ih (fun y hy => h y (List.mem_cons_of_mem _ hy))
    unfold lowerBound at ih1 ⊢
    rw [List.findIdx_cons, hx]
    simp only [Bool.not_true, cond_false, List.length_cons]
    rw [ih1]

/-- When every element of the range is less than the value, `BinarySearch`
reads `*result` at the position `last`, outside the range. -/
theorem BinarySearch_all_less {α : Type} (lt : α → α → Bool) (range : List α) (value : α)
    (h : ∀ x ∈ range, lt x value = true) :
    BinarySearch lt range value = Except.error "read outside [first, last)" := by
  unfold BinarySearch
  simp only [lowerBound_all_less lt range value h]
  have : range.get? range.length = none := List.get?_eq_none.2 (le_refl _)
  rw [this]

/-- C27 fails on the code: on the empty range, and on the sorted range 1, 2
searched for 3, BinarySearch reads the element at position last, outside the
range; where an element not less than the value exists it returns the
position of the first equivalent element, or last. -/
theorem BinarySearch_reads_at_last :
    BinarySearch natLt [] 5 = Except.error "read outside [first, last)" ∧
    BinarySearch natLt [1, 2] 3 = Except.error "read outside [first, last)" ∧
    BinarySearch natLt [1, 2, 2, 4] 2 = Except.ok 1 ∧
    BinarySearch natLt [1, 2, 2, 4] 3 = Except.ok 4 := by
  refine ⟨rfl, rfl, rfl, rfl⟩

/-! ## `CopiedPtr` -/

theorem copyCtor_empty (Copy : Ptr → Ptr) (W : CopiedWorld) (this origin : Nat)
    (ho : W.objs origin = some NULL) :
    CopiedPtr.copyCtor Copy W this origin =
      { W with objs := Function.update W.objs this (some NULL) } := by
  simp [CopiedPtr.copyCtor, ho]

theorem copyCtor_full (Copy : Ptr → Ptr) (W : CopiedWorld) (this origin : Nat) (p : Ptr)
    (ho : W.objs origin = some p) (hn : p ≠ NULL) :
    CopiedPtr.copyCtor Copy W this origin =
      { W with
        objs := Function.update W.objs this (some (Copy p))
        copyCalls := W.copyCalls ++ [p] } := by
  simp [CopiedPtr.copyCtor, ho, hn]

/-- What the tail of the copy assignment does: this instance takes the pointer
of the local copy, and the policy function `Destroy` is invoked with the
pointer this instance had. -/
theorem copied_swap_dtor (Destroy : DestroyFn) (W1 : CopiedWorld) (this temp : Nat)
    (t c : Ptr) (hthis : W1.objs this = some t) (htemp : W1.objs temp = some c)
    (hne : temp ≠ this) :
    (CopiedPtr.dtor Destroy (CopiedPtr.Swap W1 this temp) temp).objs this = some c ∧
    (∀ x : Nat, x ≠ this → x ≠ temp →
      (CopiedPtr.dtor Destroy (CopiedPtr.Swap W1 this temp) temp).objs x = W1.objs x) ∧
    (CopiedPtr.dtor Destroy (CopiedPtr.Swap W1 this temp) temp).copyCalls = W1.copyCalls ∧
    (CopiedPtr.dtor Destroy (CopiedPtr.Swap W1 this temp) temp).destroyLog =
      W1.destroyLog ++ [(Destroy, t)] := by
  have hs : CopiedPtr.Swap W1 this temp =
      { W1 with
        objs := Function.update (Function.update W1.objs this (some c)) temp (some t) } := by
    simp [CopiedPtr.Swap, hthis, htemp]
  rw [hs]
  simp only [CopiedPtr.dtor, Function.update_same]
  refine ⟨?_, ?_, ?_, ?_⟩
  · simp [Function.update_apply, Ne.symm hne]
  · intro x hx1 hx2
    simp [Function.update_apply, hx1, hx2]
  · trivial
  · trivial

/-- The copy assignment to a live object that holds t, from a live origin that
holds p, the local copy being a third object: `Copy` is invoked with p unless
p is null, this instance holds the copy (or the null pointer), `Destroy` is
invoked with t, and no other object changes. -/
theorem assign_spec (Copy : Ptr → Ptr) (Destroy : DestroyFn) (W : CopiedWorld)
    (this origin temp : Nat) (p t : Ptr) (ho : W.objs origin = some p)
    (ht : W.objs this = some t) (hte : temp ≠ origin) (htt : temp ≠ this) :
    (CopiedPtr.assign Copy Destroy W this origin temp).copyCalls =
      (if p = NULL then W.copyCalls else W.copyCalls ++ [p]) ∧
    (CopiedPtr.assign Copy Destroy W this origin temp).objs this =
      some (if p = NULL then NULL else Copy p) ∧
    (this ≠ origin →
      (CopiedPtr.assign Copy Destroy W this origin temp).objs origin = some p) ∧
    (CopiedPtr.assign Copy Destroy W this origin temp).destroyLog =
      W.destroyLog ++ [(Destroy, t)] := by
  by_cases hn : p = NULL
  · subst hn
    have hW1 := copyCtor_empty Copy W temp origin ho
    have h1 : (CopiedPtr.copyCtor Copy W temp origin).objs this = some t := by
      rw [hW1]
      simp [Function.update_apply, Ne.symm htt, ht]
    have h2 : (CopiedPtr.copyCtor Copy W temp origin).objs temp = some NULL := by
      rw [hW1]
      simp
    obtain ⟨g1, g2, g3, g4⟩ := copied_swap_dtor Destroy _ this temp t _ h1 h2 htt
    refine ⟨?_, ?_, ?_, ?_⟩
    · rw [if_pos rfl]
      exact g3.trans (by rw [hW1])
    · rw [if_pos rfl]
      exact g1
    · intro hto
      refine (g2 origin (Ne.symm hto) (Ne.symm hte)).trans ?_
      rw [hW1]
      simp [Function.update_apply, Ne.symm hte, ho]
    · exact g4.trans (by rw [hW1])
  · have hW1 := copyCtor_full Copy W temp origin p ho hn
    have h1 : (CopiedPtr.copyCtor Copy W temp origin).objs this = some t := by
      rw [hW1]
      simp [Function.update_apply, Ne.symm htt, ht]
    have h2 : (CopiedPtr.copyCtor Copy W temp origin).objs temp = some (Copy p) := by
      rw [hW1]
      simp
    obtain ⟨g1, g2, g3, g4⟩ := copied_swap_dtor Destroy _ this temp t _ h1 h2 htt
    refine ⟨?_, ?_, ?_, ?_⟩
    · rw [if_neg hn]
      exact g3.trans (by rw [hW1])
    · rw [if_neg hn]
      exact g1
    · intro hto
      refine (g2 origin (Ne.symm hto) (Ne.symm hte)).trans ?_
      rw [hW1]
      simp [Function.update_apply, Ne.symm hte, ho]
    · exact g4.trans (by rw [hW1])

/-- C25, as amended. Policy copy skips empty sources: let origin be a live
CopiedPtr that holds p. Copy construction of a new object from origin, and
copy assignment from origin to a live object (origin itself included, the
local copy of the assignment being a further object), do not invoke the
policy function Copy when p is null, and leave both objects empty. When p is
not null they invoke Copy exactly once, with argument p, and make the target
hold the returned pointer; the origin still holds p when it is another object
than the target, whereas a self-assignment leaves the object holding the
returned pointer and invokes Destroy on p. The destruction of any live
CopiedPtr invokes the policy function Destroy on the pointer it holds. -/
theorem policy_copy (Copy : Ptr → Ptr) (Destroy : DestroyFn) (W : CopiedWorld)
    (this origin temp : Nat) (p : Ptr) (ho : W.objs origin = some p)
    (hte : temp ≠ origin) (htt : temp ≠ this) :
    (W.objs this = none →
      (p = NULL →
        (CopiedPtr.copyCtor Copy W this origin).copyCalls = W.copyCalls ∧
        (CopiedPtr.copyCtor Copy W this origin).objs this = some NULL ∧
        (CopiedPtr.copyCtor Copy W this origin).objs origin = some NULL) ∧
      (p ≠ NULL →
        (CopiedPtr.copyCtor Copy W this origin).copyCalls = W.copyCalls ++ [p] ∧
        (CopiedPtr.copyCtor Copy W this origin).objs this = some (Copy p) ∧
        (CopiedPtr.copyCtor Copy W this origin).objs origin = some p)) ∧
    (∀ t : Ptr, W.objs this = some t →
      (p = NULL →
        (CopiedPtr.assign Copy Destroy W this origin temp).copyCalls = W.copyCalls ∧
        (CopiedPtr.assign Copy Destroy W this origin temp).objs this = some NULL ∧
        (CopiedPtr.assign Copy Destroy W this origin temp).objs origin = some NULL) ∧
      (p ≠ NULL →
        (CopiedPtr.assign Copy Destroy W this origin temp).copyCalls = W.copyCalls ++ [p] ∧
        (CopiedPtr.assign Copy Destroy W this origin temp).objs this = some (Copy p) ∧
        (this ≠ origin →
          (CopiedPtr.assign Copy Destroy W this origin temp).objs origin = some p) ∧
        (this = origin →
          (CopiedPtr.assign Copy Destroy W this origin temp).objs origin = some (Copy p) ∧
          (CopiedPtr.assign Copy Destroy W this origin temp).destroyLog =
            W.destroyLog ++ [(Destroy, p)]))) ∧
    (∀ (n : Nat) (x : Ptr), W.objs n = some x →
      (CopiedPtr.dtor Destroy W n).destroyLog = W.destroyLog ++ [(Destroy, x)] ∧
      (CopiedPtr.dtor Destroy W n).objs n = none) := by
  refine ⟨?_, ?_, ?_⟩
  · intro hdead
    have hto : this ≠ origin := by
      intro h
      rw [h, ho] at hdead
      cases hdead
    constructor
    · intro hn
      subst hn
      rw [copyCtor_empty Copy W this origin ho]
      exact ⟨rfl, by simp, by simp [Function.update_apply, Ne.symm hto, ho]⟩
    · intro hn
      rw [copyCtor_full Copy W this origin p ho hn]
      exact ⟨rfl, by simp, by simp [Function.update_apply, Ne.symm hto, ho]⟩
  · intro t ht
    obtain ⟨g1, g2, g3, g4⟩ := assign_spec Copy Destroy W this origin temp p t ho ht hte htt
    constructor
    · intro hn
      rw [if_pos hn] at g1 g2
      refine ⟨g1, g2, ?_⟩
      by_cases hto : this = origin
      · rw [← hto] at g2 ⊢
        exact g2
      · rw [g3 hto, hn]
    · intro hn
      rw [if_neg hn] at g1 g2
      refine ⟨g1, g2, g3, ?_⟩
      intro hto
      have htp : t = p := by
        rw [hto, ho] at ht
        exact (Option.some.inj ht).symm
      refine ⟨?_, ?_⟩
      · rw [← hto] at g2 ⊢
        exact g2
      · rw [g4, htp]
  · intro n x hx
    simp [CopiedPtr.dtor, hx]

/-- Witness of the amended C25: object 2, which holds resource 5, is assigned
from object 0, which holds resource 7, and then from the empty object 1;
object 3 is the local copy of the assignment. -/
theorem policy_copy_witness :
    ((CopiedPtr.assign sampleCopy (DestroyFn.custom 1) sampleCopied 2 0 3).copyCalls = [7] ∧
      (CopiedPtr.assign sampleCopy (DestroyFn.custom 1) sampleCopied 2 0 3).objs 2 =
        some 107 ∧
      (CopiedPtr.assign sampleCopy (DestroyFn.custom 1) sampleCopied 2 0 3).objs 0 =
        some 7) ∧
    ((CopiedPtr.assign sampleCopy (DestroyFn.custom 1) sampleCopied 2 1 3).copyCalls = [] ∧
      (CopiedPtr.assign sampleCopy (DestroyFn.custom 1) sampleCopied 2 1 3).objs 2 =
        some NULL) :=
  ⟨⟨(((policy_copy sampleCopy (DestroyFn.custom 1) sampleCopied 2 0 3 7
        rfl (by decide) (by decide)).2.1 5 rfl).2 (by decide)).1,
      (((policy_copy sampleCopy (DestroyFn.custom 1) sampleCopied 2 0 3 7
        rfl (by decide) (by decide)).2.1 5 rfl).2 (by decide)).2.1,
      (((policy_copy sampleCopy (DestroyFn.custom 1) sampleCopied 2 0 3 7
        rfl (by decide) (by decide)).2.1 5 rfl).2 (by decide)).2.2.1 (by decide)⟩,
    ⟨(((policy_copy sampleCopy (DestroyFn.custom 1) sampleCopied 2 1 3 NULL
        rfl (by decide) (by decide)).2.1 5 rfl).1 rfl).1,
      (((policy_copy sampleCopy (DestroyFn.custom 1) sampleCopied 2 1 3 NULL
        rfl (by decide) (by decide)).2.1 5 rfl).1 rfl).2.1⟩⟩

/-- Counterexample to C25 as stated: object 0, which holds resource 7, is
assigned to itself, object 3 being the local copy. The policy function Copy
is invoked with 7 and returns 107; afterwards the origin holds 107, not 7,
and the policy function Destroy has been invoked on 7. -/
theorem self_assignment_replaces_origin :
    sampleCopied.objs 0 = some 7 ∧
    (CopiedPtr.assign sampleCopy (DestroyFn.custom 1) sampleCopied 0 0 3).copyCalls = [7] ∧
    (CopiedPtr.assign sampleCopy (DestroyFn.custom 1) sampleCopied 0 0 3).objs 0 =
      some 107 ∧
    (CopiedPtr.assign sampleCopy (DestroyFn.custom 1) sampleCopied 0 0 3).destroyLog =
      [(DestroyFn.custom 1, 7)] := by
  refine ⟨rfl, rfl, rfl, rfl⟩

/-! ## Emission rate -/

theorem toUnsignedInt_of_nonneg (x : ℚ) (h0 : 0 ≤ x) (h1 : x < 2 ^ 32) :
    toUnsignedInt x = Except.ok ⌊x⌋.toNat := by
  have hm : (-1 : ℚ) < x := lt_of_lt_of_le (by norm_num) h0
  simp [toUnsignedInt, hm, h1, h0]

theorem cast_toNat_floor (x : ℚ) (h0 : 0 ≤ x) : ((⌊x⌋.toNat : ℕ) : ℚ) = (⌊x⌋ : ℚ) := by
  have h : (0 : ℤ) ≤ ⌊x⌋ := Int.floor_nonneg.mpr h0
  have h2 : ((⌊x⌋.toNat : ℕ) : ℤ) = ⌊x⌋ := Int.toNat_of_nonneg h
  exact_mod_cast congrArg (fun z : ℤ => (z : ℚ)) h2

/-- One call of `ComputeNbParticles` whose particle amount is non-negative and
below 2^32: it returns the floor of the amount and stores its fractional
part. -/
theorem ComputeNbParticles_spec (r d life dt : ℚ) (h0 : 0 ≤ r * dt + d)
    (h1 : r * dt + d < 2 ^ 32) :
    Emitter.ComputeNbParticles ⟨r, d, life⟩ dt =
      Except.ok (⟨r, Int.fract (r * dt + d), life⟩, ⌊r * dt + d⌋.toNat) := by
  simp only [Emitter.ComputeNbParticles, toUnsignedInt_of_nonneg _ h0 h1,
    cast_toNat_floor _ h0, Int.self_sub_floor]

/-- A sequence of calls that starts with a difference d in [0, 1): every call
returns, the final difference is the fractional part of d + r * (sum of the
steps), and the numbers returned add up to the floor of that value. -/
theorem run_spec (r life : ℚ) (hr : 0 ≤ r) (dts : List ℚ) :
    ∀ d : ℚ, 0 ≤ d → d < 1 → (∀ dt ∈ dts, 0 ≤ dt) →
      (∀ i : Nat, i < dts.length →
        r * dts.getD i 0 + Int.fract (d + r * (dts.take i).sum) < 2 ^ 32) →
      ∃ counts : List Nat,
        Emitter.run ⟨r, d, life⟩ dts =
          Except.ok (⟨r, Int.fract (d + r * dts.sum), life⟩, counts) ∧
        counts.length = dts.length ∧
        (∀ i : Nat, i < dts.length →
          counts.getD i 0 = ⌊r * dts.getD i 0 + Int.fract (d + r * (dts.take i).sum)⌋.toNat) ∧
        ((counts.sum : ℕ) : ℤ) = ⌊d + r * dts.sum⌋ := by
  induction dts with
  | nil =>
    intro d hd0 hd1 _ _
    refine ⟨[], ?_, rfl, ?_, ?_⟩
    · simp [Emitter.run, Int.fract_eq_self.mpr ⟨hd0, hd1⟩]
    · intro i hi
      simp at hi
    · simp [Int.floor_eq_zero_iff.mpr ⟨hd0, hd1⟩]
  | cons dt rest ih =>
    intro d hd0 hd1 hdt hrange
    have hdt0 : 0 ≤ dt := hdt dt (List.mem_cons_self _ _)
    have hfd : Int.fract d = d := Int.fract_eq_self.mpr ⟨hd0, hd1⟩
    have ha0 : 0 ≤ r * dt + d := add_nonneg (mul_nonneg hr hdt0) hd0
    have ha1 : r * dt + d < 2 ^ 32 := by
      have h := hrange 0 (by simp)
      simpa [hfd] using h
    have hshift : ∀ x : ℚ,
        Int.fract (Int.fract (r * dt + d) + x) = Int.fract (d + r * dt + x) := by
      intro x
      have : Int.fract (r * dt + d) + x = (d + r * dt + x) - (⌊r * dt + d⌋ : ℚ) := by
        rw [← Int.self_sub_floor]
        ring
      rw [this, Int.fract_sub_int]
    obtain ⟨counts, h1, h2, h3, h4⟩ := ih (Int.fract (r * dt + d)) (Int.fract_nonneg _)
      (Int.fract_lt_one _) (fun x hx => hdt x (List.mem_cons_of_mem _ hx)) (by
        intro i hi
        have h := hrange (i + 1) (by simpa using hi)
        rw [hshift]
        simpa [mul_add, add_assoc] using h)
    refine ⟨⌊r * dt + d⌋.toNat :: counts, ?_, by simp [h2], ?_, ?_⟩
    · simp only [Emitter.run, ComputeNbParticles_spec r d life dt ha0 ha1, h1]
      rw [hshift]
      simp [mul_add, add_assoc]
    · intro i hi
      cases i with
      | zero => simp [hfd]
      | succ j =>
        have hj : j < rest.length := by simpa using hi
        have := h3 j hj
        rw [hshift] at this
        simpa [mul_add, add_assoc] using this
    · have hnn : (0 : ℤ) ≤ ⌊r * dt + d⌋ := Int.floor_nonneg.mpr ha0
      simp only [List.sum_cons, Nat.cast_add, Int.toNat_of_nonneg hnn, h4]
      rw [← Int.floor_int_add]
      congr 1
      have := Int.floor_add_fract (r * dt + d)
      rw [mul_add]
      linarith

/-- C31, as amended. Emission rate bookkeeping, in exact rational arithmetic: for
an emitter with rate r > 0, a call of ComputeNbParticles(dt) with dt ≥ 0, a
difference d in [0, 1) and r * dt + d below 2^32 returns floor(r * dt + d) and
leaves the new difference r * dt + d - floor(r * dt + d), which is in [0, 1).
For a sequence of non-negative time steps, starting from the difference 0, in
which the particle amount of every call stays below 2^32, the difference
after the first i calls is the fractional part of r * (dt1 + ... + dti), call
number i + 1 returns floor(r * dt + difference), and the numbers returned over
all calls add up to floor(r * (dt1 + ... + dtn)). -/
theorem emission_rate_bookkeeping (r life : ℚ) (hr : 0 < r) (dts : List ℚ)
    (hdt : ∀ dt ∈ dts, 0 ≤ dt)
    (hrange : ∀ i : Nat, i < dts.length →
      r * dts.getD i 0 + Int.fract (r * (dts.take i).sum) < 2 ^ 32) :
    (∀ d dt : ℚ, 0 ≤ d → d < 1 → 0 ≤ dt → r * dt + d < 2 ^ 32 →
      Emitter.ComputeNbParticles ⟨r, d, life⟩ dt =
        Except.ok (⟨r, r * dt + d - ⌊r * dt + d⌋, life⟩, ⌊r * dt + d⌋.toNat) ∧
      0 ≤ r * dt + d - ⌊r * dt + d⌋ ∧ r * dt + d - ⌊r * dt + d⌋ < 1) ∧
    (∀ i : Nat, i ≤ dts.length → ∃ counts : List Nat,
      Emitter.run (Emitter.ctor r life) (dts.take i) =
        Except.ok (⟨r, Int.fract (r * (dts.take i).sum), life⟩, counts)) ∧
    (∃ counts : List Nat,
      Emitter.run (Emitter.ctor r life) dts =
        Except.ok (⟨r, Int.fract (r * dts.sum), life⟩, counts) ∧
      counts.length = dts.length ∧
      (∀ i : Nat, i < dts.length →
        counts.getD i 0 = ⌊r * dts.getD i 0 + Int.fract (r * (dts.take i).sum)⌋.toNat) ∧
      ((counts.sum : ℕ) : ℤ) = ⌊r * dts.sum⌋) := by
  refine ⟨?_, ?_, ?_⟩
  · intro d dt hd0 hd1 hdt0 hlt
    have h0 : 0 ≤ r * dt + d := add_nonneg (mul_nonneg hr.le hdt0) hd0
    rw [ComputeNbParticles_spec r d life dt h0 hlt, Int.self_sub_floor]
    exact ⟨rfl, Int.fract_nonneg _, Int.fract_lt_one _⟩
  · intro i _
    obtain ⟨counts, h1, -⟩ := run_spec r life hr.le (dts.take i) 0 (le_refl 0) (by norm_num)
      (fun x hx => hdt x (List.mem_of_mem_take hx)) (by
        intro j hj
        have hji : j < i := by
          rw [List.length_take] at hj
          omega
        have hjl : j < dts.length := by
          rw [List.length_take] at hj
          omega
        have h := hrange j hjl
        have e1 : (dts.take i).getD j 0 = dts.getD j 0 := by
          simp [List.getD_eq_getElem?_getD, List.getElem?_take, hji]
        have e2 : (dts.take i).take j = dts.take j := by
          rw [List.take_take, min_eq_left hji.le]
        rw [e1, e2, zero_add]
        exact h)
    refine ⟨counts, ?_⟩
    rw [Emitter.ctor, h1, zero_add]
  · obtain ⟨counts, h1, h2, h3, h4⟩ := run_spec r life hr.le dts 0 (le_refl 0) (by norm_num) hdt
      (by
        intro i hi
        rw [zero_add]
        exact hrange i hi)
    refine ⟨counts, ?_, h2, ?_, ?_⟩
    · rw [Emitter.ctor, h1, zero_add]
    · intro i hi
      rw [h3 i hi, zero_add]
    · rw [h4, zero_add]

/-- Witness of the amended C31: an emitter with rate 5/2 and the time steps 1, 1
and 1/2. -/
theorem emission_rate_bookkeeping_witness :
    ∃ counts : List Nat,
      Emitter.run (Emitter.ctor (5 / 2) 1) [1, 1, 1 / 2] =
        Except.ok (⟨5 / 2, Int.fract ((5 / 2 : ℚ) * ([1, 1, 1 / 2] : List ℚ).sum), 1⟩, counts) ∧
      counts.length = ([1, 1, 1 / 2] : List ℚ).length ∧
      (∀ i : Nat, i < ([1, 1, 1 / 2] : List ℚ).length →
        counts.getD i 0 = ⌊(5 / 2 : ℚ) * ([1, 1, 1 / 2] : List ℚ).getD i 0 +
          Int.fract ((5 / 2 : ℚ) * (([1, 1, 1 / 2] : List ℚ).take i).sum)⌋.toNat) ∧
      ((counts.sum : ℕ) : ℤ) = ⌊(5 / 2 : ℚ) * ([1, 1, 1 / 2] : List ℚ).sum⌋ :=
  (emission_rate_bookkeeping (5 / 2) 1 (by norm_num) [1, 1, 1 / 2]
    (by
      intro dt hdt
      simp only [List.mem_cons, List.mem_singleton, List.not_mem_nil, or_false] at hdt
      rcases hdt with h | h | h <;> rw [h] <;> norm_num)
    (by
      intro i hi
      have hf := Int.fract_lt_one ((5 / 2 : ℚ) * (([1, 1, 1 / 2] : List ℚ).take i).sum)
      have hb : (5 / 2 : ℚ) * ([1, 1, 1 / 2] : List ℚ).getD i 0 ≤ 5 / 2 := by
        simp only [List.length_cons, List.length_nil] at hi
        interval_cases i <;> norm_num
      linarith)).2.2

/-- Counterexample to C31 as stated: an emitter with rate 1, fresh from its
constructor, is asked for the time step 2^32. The particle amount is 2^32,
which is its own floor and does not fit `unsigned int`: the conversion is
undefined and the call returns no such number. -/
theorem emission_count_exceeds_unsigned_int :
    (0 : ℚ) < 1 ∧ (0 : ℚ) ≤ 2 ^ 32 ∧
    (Emitter.ctor 1 1).mEmissionDifference = 0 ∧
    ⌊(1 : ℚ) * 2 ^ 32 + 0⌋ = 2 ^ 32 ∧
    Emitter.ComputeNbParticles (Emitter.ctor 1 1) (2 ^ 32) =
      Except.error "conversion outside the range of unsigned int" := by
  refine ⟨by norm_num, by norm_num, rfl, ?_, ?_⟩
  · have h : ((1 : ℚ) * 2 ^ 32 + 0) = ((2 ^ 32 : ℤ) : ℚ) := by norm_num
    rw [h, Int.floor_intCast]
  · simp [Emitter.ComputeNbParticles, Emitter.ctor, toUnsignedInt]

/-! ## Particle update -/

theorem survivors_cons_alive {F X : Type} [Add F] [Mul F] [LT F]
    [DecidableRel (fun a b : F => a < b)] (p : Particle F X) (ps : List (Particle F X))
    (dt : F)
    (h : (ParticleSystem.UpdateParticle p dt).PassedLifetime <
      (ParticleSystem.UpdateParticle p dt).TotalLifetime) :
    ParticleSystem.survivors (p :: ps) dt =
      ParticleSystem.UpdateParticle p dt :: ParticleSystem.survivors ps dt := by
  simp [ParticleSystem.survivors, h]

theorem survivors_cons_dead {F X : Type} [Add F] [Mul F] [LT F]
    [DecidableRel (fun a b : F => a < b)] (p : Particle F X) (ps : List (Particle F X))
    (dt : F)
    (h : ¬ (ParticleSystem.UpdateParticle p dt).PassedLifetime <
      (ParticleSystem.UpdateParticle p dt).TotalLifetime) :
    ParticleSystem.survivors (p :: ps) dt = ParticleSystem.survivors ps dt := by
  simp [ParticleSystem.survivors, h]

theorem take_set_of_le {α : Type} (x : α) :
    ∀ (l : List α) (writer reader : Nat), writer ≤ reader →
      List.take writer (l.set reader x) = List.take writer l := by
  intro l
  induction l with
  | nil => intro writer reader _; simp
  | cons a t ih =>
    intro writer reader hwr
    cases writer with
    | zero => simp
    | succ w =>
      cases reader with
      | zero => omega
      | succ r =>
        simp only [List.set_cons_succ, List.take_succ_cons]
        rw [ih w r (by omega)]

theorem take_succ_set_set {α : Type} (x : α) :
    ∀ (l : List α) (writer reader : Nat), writer ≤ reader → reader < l.length →
      List.take (writer + 1) ((l.set reader x).set writer x) = List.take writer l ++ [x] := by
  intro l
  induction l with
  | nil => intro writer reader _ hlt; simp at hlt
  | cons a t ih =>
    intro writer reader hwr hlt
    cases writer with
    | zero =>
      cases reader with
      | zero => simp
      | succ r => simp
    | succ w =>
      cases reader with
      | zero => omega
      | succ r =>
        simp only [List.set_cons_succ, List.take_succ_cons, List.cons_append]
        rw [ih w r (by omega) (by simpa using hlt)]

/-- The loop of `Update`, started with `writer ≤ reader` and as many iterations
left as there are particles from `reader` on: the first `writer` particles
stay, followed by the survivors among the particles from `reader` on, each
after the affectors; the affectors are called on these survivors. -/
theorem updateLoop_spec {F X : Type} [Add F] [Mul F] [LT F]
    [DecidableRel (fun a b : F => a < b)] (affectors : List (Affector F X)) (dt : F) :
    ∀ (fuel : Nat) (particles : List (Particle F X)) (writer reader : Nat)
      (affected : List (Particle F X)),
      writer ≤ reader → reader + fuel = particles.length →
      (ParticleSystem.updateLoop affectors dt fuel particles writer reader affected).1.take
          (ParticleSystem.updateLoop affectors dt fuel particles writer reader affected).2.1 =
        particles.take writer ++
          (ParticleSystem.survivors (particles.drop reader) dt).map
            (fun p => ParticleSystem.applyAffectors affectors p dt) ∧
      (ParticleSystem.updateLoop affectors dt fuel particles writer reader affected).2.2 =
        affected ++ ParticleSystem.survivors (particles.drop reader) dt := by
  intro fuel
  induction fuel with
  | zero =>
    intro particles writer reader affected hwr hlen
    have hd : particles.drop reader = [] := List.drop_eq_nil_of_le (by omega)
    simp [ParticleSystem.updateLoop, hd, ParticleSystem.survivors]
  | succ fuel ih =>
    intro particles writer reader affected hwr hlen
    have hlt : reader < particles.length := by omega
    obtain ⟨old, hold⟩ : ∃ old, particles.get? reader = some old :=
      ⟨_, List.get?_eq_get hlt⟩
    have hdrop : particles.drop reader = old :: particles.drop (reader + 1) := by
      rw [List.drop_eq_getElem_cons hlt]
      congr 1
      rw [List.get?_eq_get hlt] at hold
      exact Option.some.inj hold
    rw [hdrop]
    simp only [ParticleSystem.updateLoop, hold]
    by_cases halive : (ParticleSystem.UpdateParticle old dt).PassedLifetime <
        (ParticleSystem.UpdateParticle old dt).TotalLifetime
    · simp only [halive, if_true]
      obtain ⟨h1, h2⟩ := ih
        ((particles.set reader (ParticleSystem.applyAffectors affectors
          (ParticleSystem.UpdateParticle old dt) dt)).set writer
          (ParticleSystem.applyAffectors affectors (ParticleSystem.UpdateParticle old dt) dt))
        (writer + 1) (reader + 1) (affected ++ [ParticleSystem.UpdateParticle old dt])
        (by omega) (by simp only [List.length_set]; omega)
      rw [h1, h2, List.drop_set_of_lt _ _ (by omega), List.drop_set_of_lt _ _ (by omega),
        take_succ_set_set _ _ _ _ hwr hlt, survivors_cons_alive _ _ _ halive]
      simp
    · simp only [halive, if_false]
      obtain ⟨h1, h2⟩ := ih (particles.set reader (ParticleSystem.UpdateParticle old dt))
        writer (reader + 1) affected (by omega) (by simp only [List.length_set]; omega)
      rw [h1, h2, List.drop_set_of_lt _ _ (by omega), survivors_cons_dead _ _ _ halive,
        take_set_of_le _ _ _ _ hwr]
      exact ⟨rfl, rfl⟩

theorem applyAffectors_lifetimes {F X : Type} (affectors : List (Affector F X)) (dt : F)
    (h : ∀ a ∈ affectors, ∀ (p : Particle F X) (t : F),
      (a p t).PassedLifetime = p.PassedLifetime ∧ (a p t).TotalLifetime = p.TotalLifetime) :
    ∀ p : Particle F X,
      (ParticleSystem.applyAffectors affectors p dt).PassedLifetime = p.PassedLifetime ∧
      (ParticleSystem.applyAffectors affectors p dt).TotalLifetime = p.TotalLifetime := by
  induction affectors with
  | nil => intro p; exact ⟨rfl, rfl⟩
  | cons a rest ih =>
    intro p
    have h1 := h a (List.mem_cons_self _ _) p dt
    have h2 := ih (fun b hb => h b (List.mem_cons_of_mem _ hb)) (a p dt)
    simp only [ParticleSystem.applyAffectors, List.foldl_cons] at h2 ⊢
    exact ⟨h2.1.trans h1.1, h2.2.trans h1.2⟩

/-- With no emitters attached, `Update` stores the survivors of the update, each
after the affectors, and calls the affectors on exactly the survivors. -/
theorem Update_no_emitters {F X E : Type} [Add F] [Mul F] [LT F]
    [DecidableRel (fun a b : F => a < b)] (Emit : E → F → E × List (Particle F X))
    (self : ParticleSystem F X E) (dt : F) (hem : self.mEmitters = []) :
    (ParticleSystem.Update Emit self dt).1.mParticles =
      (ParticleSystem.survivors self.mParticles dt).map
        (fun p => ParticleSystem.applyAffectors self.mAffectors p dt) ∧
    (ParticleSystem.Update Emit self dt).2 = ParticleSystem.survivors self.mParticles dt := by
  obtain ⟨h1, h2⟩ := updateLoop_spec self.mAffectors dt self.mParticles.length self.mParticles
    0 0 [] (le_refl 0) (by simp)
  refine ⟨?_, ?_⟩
  · simp only [ParticleSystem.Update, hem, ParticleSystem.emitAll]
    simpa using h1
  · simp only [ParticleSystem.Update, hem, ParticleSystem.emitAll]
    simpa using h2

/-- C32, as amended. Particle update filters the dead in order: with no emitters
attached, Update(dt) adds dt to the PassedLifetime of every particle and
leaves its TotalLifetime; it stores, in their order, exactly the particles
whose updated PassedLifetime is strictly less than TotalLifetime, each as the
affectors leave it, and it calls the affectors on exactly these survivors.
Afterwards every stored particle satisfies PassedLifetime < TotalLifetime,
provided no affector changes PassedLifetime or TotalLifetime. -/
theorem update_filters_dead {F X E : Type} [Add F] [Mul F] [LT F]
    [DecidableRel (fun a b : F => a < b)] (Emit : E → F → E × List (Particle F X))
    (self : ParticleSystem F X E) (dt : F) (hem : self.mEmitters = []) :
    (∀ p : Particle F X,
      (ParticleSystem.UpdateParticle p dt).PassedLifetime = p.PassedLifetime + dt ∧
      (ParticleSystem.UpdateParticle p dt).TotalLifetime = p.TotalLifetime) ∧
    (ParticleSystem.Update Emit self dt).1.mParticles =
      (((self.mParticles.map (fun p => ParticleSystem.UpdateParticle p dt)).filter
        (fun p => decide (p.PassedLifetime < p.TotalLifetime))).map
        (fun p => ParticleSystem.applyAffectors self.mAffectors p dt)) ∧
    (ParticleSystem.Update Emit self dt).2 =
      (self.mParticles.map (fun p => ParticleSystem.UpdateParticle p dt)).filter
        (fun p => decide (p.PassedLifetime < p.TotalLifetime)) ∧
    ((∀ a ∈ self.mAffectors, ∀ (p : Particle F X) (t : F),
        (a p t).PassedLifetime = p.PassedLifetime ∧ (a p t).TotalLifetime = p.TotalLifetime) →
      ∀ p ∈ (ParticleSystem.Update Emit self dt).1.mParticles,
        p.PassedLifetime < p.TotalLifetime) := by
  obtain ⟨h1, h2⟩ := Update_no_emitters Emit self dt hem
  refine ⟨fun p => ⟨rfl, rfl⟩, h1, h2, ?_⟩
  intro haff p hp
  rw [h1] at hp
  obtain ⟨q, hq, rfl⟩ := List.mem_map.mp hp
  obtain ⟨g1, g2⟩ := applyAffectors_lifetimes self.mAffectors dt haff q
  rw [g1, g2]
  have := (List.mem_filter.mp hq).2
  simpa using this

/-- Witness of the amended C32: the sample system with the affector that makes
particles transparent is updated by one time unit. The particle that has then
lived 5 of 5 units is dropped; the other two stay, in their order, and are
transparent. -/
theorem update_filters_dead_witness :
    (ParticleSystem.Update noEmit (sampleSystem [fadeOut]) 1).1.mParticles =
      [{ sampleParticle 1 10 with Position := (1, 2), Rotation := 3, other := 0 },
        { sampleParticle 3 4 with Position := (1, 2), Rotation := 3, other := 0 }] ∧
    (ParticleSystem.Update noEmit (sampleSystem [fadeOut]) 1).2 =
      [{ sampleParticle 1 10 with Position := (1, 2), Rotation := 3 },
        { sampleParticle 3 4 with Position := (1, 2), Rotation := 3 }] :=
  ⟨(update_filters_dead noEmit (sampleSystem [fadeOut]) 1 rfl).2.1.trans (by decide),
    (update_filters_dead noEmit (sampleSystem [fadeOut]) 1 rfl).2.2.1.trans (by decide)⟩

/-- Counterexample to C32 as stated: the sample system with the affector that
uses up the lifetime of a particle is updated by one time unit. The two
particles that survive the update are handed to the affector and stored with
PassedLifetime equal to TotalLifetime. -/
theorem affector_expires_stored_particle :
    (sampleSystem [abandon]).mEmitters = [] ∧
    (ParticleSystem.Update noEmit (sampleSystem [abandon]) 1).2.map
      (fun p => (p.PassedLifetime, p.TotalLifetime)) = [(1, 10), (3, 4)] ∧
    (ParticleSystem.Update noEmit (sampleSystem [abandon]) 1).1.mParticles.map
      (fun p => (p.PassedLifetime, p.TotalLifetime)) = [(10, 10), (4, 4)] ∧
    ¬ (∀ p ∈ (ParticleSystem.Update noEmit (sampleSystem [abandon]) 1).1.mParticles,
      p.PassedLifetime < p.TotalLifetime) := by
  decide

/-! ## Listener positions -/

theorem Add_spec (self : ListenerSequence) (listener : Listener) :
    self.Add listener =
      (⟨self.mListeners ++ [⟨listener.mFunction, some self.mListeners.length⟩]⟩,
        some self.mListeners.length) := by
  simp [ListenerSequence.Add, Listener.SetEnvironment, Listener.ShareConnection]

/-- `Add` keeps the recorded positions right: the new listener is stored last and
records that position, the others are not touched. -/
theorem listeners_consistent_Add (self : ListenerSequence) (listener : Listener)
    (h : self.Consistent) : (self.Add listener).1.Consistent := by
  rw [Add_spec]
  intro i l hl
  simp only at hl
  rcases Nat.lt_trichotomy i self.mListeners.length with hi | hi | hi
  · rw [List.get?_eq_getElem?, List.getElem?_append_left hi, ← List.get?_eq_getElem?] at hl
    exact h i l hl
  · subst hi
    simp at hl
    rw [← hl]
  · rw [List.get?_eq_none.mpr (by simp; omega)] at hl
    cases hl

theorem dropLast_set_last {α : Type} (x : α) :
    ∀ l : List α, (l.set (l.length - 1) x).dropLast = l.dropLast := by
  intro l
  induction l with
  | nil => rfl
  | cons a t ih =>
    cases t with
    | nil => rfl
    | cons b u =>
      simp only [List.length_cons, Nat.add_sub_cancel, List.set_cons_succ]
      simp only [List.length_cons, Nat.add_sub_cancel] at ih
      have hne : (b :: u).set u.length x ≠ [] := by
        intro h
        have := congrArg List.length h
        simp at this
      rw [List.dropLast_cons_of_ne_nil hne, ih]
      rfl

/-- `Remove` at a position that holds a listener: the last listener, with the
position it recorded, is put at that position and the vector loses its last
element. -/
theorem Remove_spec (self : ListenerSequence) (iterator : Nat) (target back : Listener)
    (ht : self.mListeners.get? iterator = some target)
    (hb : self.mListeners.getLast? = some back) :
    self.Remove iterator = Except.ok ⟨(self.mListeners.set iterator back).dropLast⟩ := by
  have h := dropLast_set_last target (self.mListeners.set iterator back)
  simp only [List.length_set] at h
  simp only [ListenerSequence.Remove, ht, hb, Listener.Swap, h]

/-- `Remove` at a position before the last one, in a sequence whose listeners
record their positions: the listener that was last is now stored at the
removed position but still records the old last position, which is the end of
the shortened vector. -/
theorem Remove_inner (self : ListenerSequence) (iterator : Nat) (h : self.Consistent)
    (hi : iterator + 1 < self.mListeners.length) :
    ∃ after : ListenerSequence, ∃ moved : Listener,
      self.Remove iterator = Except.ok after ∧
      after.mListeners.length = self.mListeners.length - 1 ∧
      self.mListeners.getLast? = some moved ∧
      after.mListeners.get? iterator = some moved ∧
      moved.mStrongRef = some (self.mListeners.length - 1) ∧
      ¬ after.Consistent := by
  have hlt : iterator < self.mListeners.length := by omega
  have hne : self.mListeners ≠ [] := by
    intro h0
    rw [h0] at hi
    simp at hi
  have hlast : self.mListeners.getLast? = some (self.mListeners.getLast hne) :=
    List.getLast?_eq_getLast _ hne
  have hlastget : self.mListeners.get? (self.mListeners.length - 1) =
      some (self.mListeners.getLast hne) := by
    rw [← hlast, List.getLast?_eq_getElem?, List.get?_eq_getElem?]
  have href := h _ _ hlastget
  have hrem := Remove_spec self iterator _ _ (List.get?_eq_get hlt) hlast
  have hget : ((self.mListeners.set iterator (self.mListeners.getLast hne)).dropLast).get?
      iterator = some (self.mListeners.getLast hne) := by
    rw [List.dropLast_eq_take, List.get?_eq_getElem?, List.getElem?_take]
    simp only [List.length_set]
    rw [if_pos (by omega), List.getElem?_set_self hlt]
  refine ⟨_, _, hrem, ?_, hlast, hget, href, ?_⟩
  · simp
  · intro hc
    have := hc _ _ hget
    rw [href] at this
    have h2 := Option.some.inj this
    omega

theorem perm_swap_remove {α : Type} (b : α) :
    ∀ (init : List α) (i : Nat), i ≤ init.length →
      (((init ++ [b]).set i b).dropLast).Perm ((init ++ [b]).eraseIdx i) := by
  intro init
  induction init with
  | nil =>
    intro i hi
    have : i = 0 := by simpa using hi
    subst this
    simp
  | cons a t ih =>
    intro i hi
    cases i with
    | zero =>
      simp only [List.cons_append, List.set_cons_zero, List.eraseIdx_cons_zero]
      rw [List.dropLast_cons_of_ne_nil (by simp), List.dropLast_concat]
      exact (List.perm_append_singleton b t).symm
    | succ j =>
      have hj : j ≤ t.length := by simpa using hi
      have hne : (t ++ [b]).set j b ≠ [] := by
        intro h
        have := congrArg List.length h
        simp at this
      simp only [List.cons_append, List.set_cons_succ, List.eraseIdx_cons_succ]
      rw [List.dropLast_cons_of_ne_nil hne]
      exact List.Perm.cons a (ih j hj)

/-- `Remove` at a position that holds a listener removes that listener and keeps
all the others, each with the position it recorded before, in a possibly
different order. -/
theorem Remove_keeps_others (self : ListenerSequence) (iterator : Nat)
    (hi : iterator < self.mListeners.length) :
    ∃ after : ListenerSequence, self.Remove iterator = Except.ok after ∧
      after.mListeners.Perm (self.mListeners.eraseIdx iterator) := by
  have hne : self.mListeners ≠ [] := by
    intro h0
    rw [h0] at hi
    simp at hi
  have hlast : self.mListeners.getLast? = some (self.mListeners.getLast hne) :=
    List.getLast?_eq_getLast _ hne
  refine ⟨_, Remove_spec self iterator _ _ (List.get?_eq_get hi) hlast, ?_⟩
  have hsplit := List.dropLast_append_getLast hne
  have hlen : iterator ≤ self.mListeners.dropLast.length := by
    rw [List.length_dropLast]
    omega
  have hp := perm_swap_remove (self.mListeners.getLast hne) self.mListeners.dropLast iterator hlen
  rw [hsplit] at hp
  exact hp

/-- C33 fails on the code: two listeners, with the callbacks 10 and 11, are added
to an empty ListenerSequence and record the positions 0 and 1 at which they
are stored. Remove(position 0) removes the listener with callback 10 and
keeps the other one, which is now stored at position 0 but still records
position 1; the recorded positions are no longer those at which the listeners
are stored, and position 1, which its Connection would hand to Remove, is the
end of the vector. -/
theorem Remove_leaves_stale_position :
    (((ListenerSequence.mk []).Add (Listener.ctor 10)).1.Add (Listener.ctor 11)).1 =
      ⟨[⟨10, some 0⟩, ⟨11, some 1⟩]⟩ ∧
    (((ListenerSequence.mk []).Add (Listener.ctor 10)).1.Add (Listener.ctor 11)).2 = some 1 ∧
    ListenerSequence.Remove ⟨[⟨10, some 0⟩, ⟨11, some 1⟩]⟩ 0 = Except.ok ⟨[⟨11, some 1⟩]⟩ ∧
    ¬ ListenerSequence.Consistent ⟨[⟨11, some 1⟩]⟩ ∧
    ListenerSequence.Remove ⟨[⟨11, some 1⟩]⟩ 1 =
      Except.error "iterator does not refer to a stored listener" := by
  refine ⟨rfl, rfl, rfl, ?_, rfl⟩
  intro h
  have h1 := h 0 ⟨11, some 1⟩ rfl
  exact absurd h1 (by decide)

end Thor
